import Mathlib

/-!
Verification development for `fix_file_permissions.py`, a self-healing
maintenance script for a plugin ("cogs") directory.  The script is embedded
shallowly: file contents are `String`s, permission modes are `Nat`s, a
directory tree is a nested inductive, and Python's per-call failure modes
(chmod / listdir / open / read / rename / append) are modelled by Boolean
oracles carried in an environment record.  Python string primitives
(`in`, `split`, `strip`, `startswith`, `endswith`, slicing) are modelled by
executable functions over `List Char`.
-/

set_option maxRecDepth 8000

namespace FixPerms

/-! ### Python string primitives over `List Char` -/

/-- Boolean prefix test on character lists (used for substring search). -/
def isPrefixL : List Char → List Char → Bool
  | [], _ => true
  | _ :: _, [] => false
  | a :: as, b :: bs => a == b && isPrefixL as bs

/-- Python's `pat in s` substring test, over character lists. -/
def containsL (pat : List Char) : List Char → Bool
  | [] => pat.isEmpty
  | c :: cs => isPrefixL pat (c :: cs) || containsL pat cs

/-- Number of (possibly overlapping) positions at which `pat` occurs. -/
def countOcc (pat : List Char) : List Char → Nat
  | [] => if pat.isEmpty then 1 else 0
  | c :: cs => (if isPrefixL pat (c :: cs) then 1 else 0) + countOcc pat cs

/-- Python's `s.split(sep)` for a non-empty separator, over character lists:
split at each leftmost non-overlapping occurrence of `sep`.  The `fuel`
argument only bounds the recursion (each step consumes at least one
character, so any fuel above `s.length` is enough); it keeps the definition
structurally recursive and hence computable by reduction. -/
def splitOnLF (sep : List Char) : Nat → List Char → List (List Char)
  | 0, s => [s]
  | fuel + 1, s =>
    match s with
    | [] => [[]]
    | c :: cs =>
      if isPrefixL sep (c :: cs) then
        [] :: splitOnLF sep fuel ((c :: cs).drop sep.length)
      else
        match splitOnLF sep fuel cs with
        | [] => [[c]]
        | t :: ts => (c :: t) :: ts

/-- Python's `s.split(sep)` (non-empty `sep`), over character lists. -/
def splitOnL (sep : List Char) (s : List Char) : List (List Char) :=
  splitOnLF sep (s.length + 1) s

/-- Characters removed by Python's `str.strip()` (ASCII whitespace). -/
def isPySpace (c : Char) : Bool :=
  c == ' ' || c == '\t' || c == '\n' || c == '\r' || c == '\x0b' || c == '\x0c'

/-- Python's `str.strip()` over character lists. -/
def trimL (s : List Char) : List Char :=
  ((s.dropWhile isPySpace).reverse.dropWhile isPySpace).reverse

/-- Python's `pat in s` on strings. -/
def hasSub (s pat : String) : Bool := containsL pat.data s.data

/-- Python's `s.startswith(p)`. -/
def strStartsWith (s p : String) : Bool := isPrefixL p.data s.data

/-- Python's `s.endswith(p)`. -/
def strEndsWith (s p : String) : Bool := isPrefixL p.data.reverse s.data.reverse

/-- Python's `f.read(n)` prefix-taking on a string. -/
def strTake (s : String) (n : Nat) : String := String.mk (s.data.take n)

/-! ### Filesystem model -/

/-- A filesystem entry: a regular file (content, permission mode) or a
directory (permission mode, named children in listing order). -/
inductive FsEntry where
  | file (content : String) (mode : Nat)
  | dir (mode : Nat) (children : List (String × FsEntry))

/-- The listing of a directory. -/
abbrev Children := List (String × FsEntry)

/-- First entry with the given name (filesystems have unique names;
well-formedness is tracked separately). -/
def lookup : Children → String → Option FsEntry
  | [], _ => none
  | (m, e) :: rest, n => if m = n then some e else lookup rest n

/-- Replace the first entry with the given name, or append a new one. -/
def setChild : Children → String → FsEntry → Children
  | [], n, e => [(n, e)]
  | (m, e₀) :: rest, n, e =>
    if m = n then (n, e) :: rest else (m, e₀) :: setChild rest n e

/-- Remove the first entry with the given name. -/
def removeChild : Children → String → Children
  | [], _ => []
  | (m, e) :: rest, n => if m = n then rest else (m, e) :: removeChild rest n

/-- Names in listing order (Python's `os.listdir`). -/
def names (cs : Children) : List String := cs.map Prod.fst

/-- Well-formed listing: no duplicate names. -/
def wfNames (cs : Children) : Prop := (names cs).Nodup

instance : DecidablePred wfNames := fun cs =>
  inferInstanceAs (Decidable ((names cs).Nodup))


/-! ### Environment: creation modes and per-call failure oracles

Python's `open(path, 'w')` creates files with a umask-dependent mode and
`os.makedirs` creates directories with a umask-dependent mode; these are the
`fileMode` / `dirMode` parameters.  Each Boolean oracle models one kind of
OS-level failure (an exception raised by the corresponding library call); the
script's `try/except` placement decides which of these are caught. -/

/-- Model environment: default creation modes and failure oracles.
Oracles taking `List String` are keyed by path relative to the cogs
directory; oracles taking `String` are keyed by top-level entry name. -/
structure Env where
  dirMode : Nat
  fileMode : Nat
  chmodFails : List String → Bool
  listFails : List String → Bool
  openFails : String → Bool
  readFails : String → Bool
  renameFails : String → Bool
  vErrFails : String → Bool
  vWriteFails : String → Bool

/-- Environment with no failing calls and the given creation modes. -/
def stdEnv (dm fm : Nat) : Env :=
  ⟨dm, fm, fun _ => false, fun _ => false, fun _ => false, fun _ => false,
   fun _ => false, fun _ => false, fun _ => false⟩

/-- No oracle of `env` ever reports a failure. -/
def noFail (env : Env) : Prop :=
  (∀ p, env.chmodFails p = false) ∧ (∀ p, env.listFails p = false) ∧
  (∀ n, env.openFails n = false) ∧ (∀ n, env.readFails n = false) ∧
  (∀ n, env.renameFails n = false) ∧ (∀ n, env.vErrFails n = false) ∧
  (∀ n, env.vWriteFails n = false)

/-- Generic sample plugin payload written by create_sample_cog (opaque template data; the triple-quoted literal is read to its closing quotes as intended). -/
def sampleCogContent : String :=
  "import discord\n"
  ++ "from discord.ext import commands\n"
  ++ "import logging\n"
  ++ "\n"
  ++ "logger = logging.getLogger(\"shop_bot.example_commands\")\n"
  ++ "\n"
  ++ "class ExampleCommands(commands.Cog):\n"
  ++ "    def __init__(self, bot):\n"
  ++ "        self.bot = bot\n"
  ++ "        self.db_path = \"shop_database.db\"\n"
  ++ "        \n"
  ++ "    @commands.command(name=\"hello\")\n"
  ++ "    async def hello(self, ctx):\n"
  ++ "        \"\"\"A simple hello command\"\"\"\n"
  ++ "        await ctx.send(\"Hello! I'm working properly now!\")\n"
  ++ "        \n"
  ++ "    @commands.command(name=\"echo\")\n"
  ++ "    async def echo(self, ctx, *, message):\n"
  ++ "        \"\"\"Repeats what you say\"\"\"\n"
  ++ "        await ctx.send(f\"You said: \x7bmessage\x7d\")\n"
  ++ "\n"
  ++ "async def setup(bot):\n"
  ++ "    await bot.add_cog(ExampleCommands(bot))\n"

/-- Default user_commands.py payload written by copy_existing_cogs (opaque template data). -/
def userCommandsContent : String :=
  "import discord\n"
  ++ "from discord.ext import commands\n"
  ++ "import aiosqlite\n"
  ++ "from datetime import datetime\n"
  ++ "import logging\n"
  ++ "import os\n"
  ++ "import random\n"
  ++ "import string\n"
  ++ "\n"
  ++ "logger = logging.getLogger(\"shop_bot.user_commands\")\n"
  ++ "\n"
  ++ "class UserCommands(commands.Cog):\n"
  ++ "    def __init__(self, bot):\n"
  ++ "        self.bot = bot\n"
  ++ "        self.db_path = \"shop_database.db\"\n"
  ++ "        self.ltc_address = os.getenv('LTC_ADDRESS', 'DEFAULT_LTC_ADDRESS')\n"
  ++ "        if hasattr(bot, 'LTC_ADDRESS'):\n"
  ++ "            self.ltc_address = bot.LTC_ADDRESS\n"
  ++ "        self.colors = bot.COLORS if hasattr(bot, 'COLORS') else \x7b\n"
  ++ "            \"success\": 0x43B581,\n"
  ++ "            \"error\": 0xF04747,\n"
  ++ "            \"info\": 0x7289DA,\n"
  ++ "            \"warning\": 0xFAA61A,\n"
  ++ "            \"shop\": 0x36393F,\n"
  ++ "            \"primary\": 0x5865F2\n"
  ++ "        \x7d\n"
  ++ "        self.create_embed = bot.create_embed if hasattr(bot, 'create_embed') else self.default_embed\n"
  ++ "\n"
  ++ "    def default_embed(self, title, description, color=0x5865F2, timestamp=True):\n"
  ++ "        \"\"\"Fallback embed creation if bot.create_embed is not available\"\"\"\n"
  ++ "        embed = discord.Embed(title=title, description=description, color=color)\n"
  ++ "        if timestamp:\n"
  ++ "            embed.timestamp = datetime.now()\n"
  ++ "        return embed\n"
  ++ "\n"
  ++ "    @commands.Cog.listener()\n"
  ++ "    async def on_command(self, ctx):\n"
  ++ "        if ctx.command.cog_name == self.__class__.__name__:\n"
  ++ "            if await self.is_banned(ctx.author.id):\n"
  ++ "                await ctx.send(\n"
  ++ "                    embed=self.create_embed(\n"
  ++ "                        \"🚫 Access Denied\",\n"
  ++ "                        \"You are banned from using this shop.\",\n"
  ++ "                        self.colors[\"error\"]\n"
  ++ "                    )\n"
  ++ "                )\n"
  ++ "                raise commands.CheckFailure(\"User is banned\")\n"
  ++ "\n"
  ++ "    async def is_banned(self, user_id):\n"
  ++ "        \"\"\"Check if a user is banned from using the shop\"\"\"\n"
  ++ "        async with aiosqlite.connect(self.db_path) as db:\n"
  ++ "            async with db.execute(\n"
  ++ "                \"SELECT 1 FROM banned_users WHERE user_id = ?\", (user_id,)\n"
  ++ "            ) as cursor:\n"
  ++ "                return await cursor.fetchone() is not None\n"
  ++ "\n"
  ++ "    @commands.command(name=\"shop\")\n"
  ++ "    async def shop(self, ctx):\n"
  ++ "        \"\"\"View all available items with prices, stock, and descriptions\"\"\"\n"
  ++ "        async with aiosqlite.connect(self.db_path) as db:\n"
  ++ "            db.row_factory = aiosqlite.Row\n"
  ++ "            async with db.execute(\"SELECT * FROM items WHERE stock > 0\") as cursor:\n"
  ++ "                items = await cursor.fetchall()\n"
  ++ "        \n"
  ++ "        if not items:\n"
  ++ "            await ctx.send(\n"
  ++ "                embed=self.create_embed(\n"
  ++ "                    \"🛍️ Shop\",\n"
  ++ "                    \"The shop is currently empty. Check back later for new products!\",\n"
  ++ "                    self.colors[\"shop\"]\n"
  ++ "                )\n"
  ++ "            )\n"
  ++ "            return\n"
  ++ "        \n"
  ++ "        embed = self.create_embed(\n"
  ++ "            \"🛍️ Shop Items\",\n"
  ++ "            \"Browse our collection of premium products:\",\n"
  ++ "            self.colors[\"shop\"]\n"
  ++ "        )\n"
  ++ "        \n"
  ++ "        # Add a thumbnail image\n"
  ++ "        embed.set_thumbnail(url=\"https://i.imgur.com/xBuZqM1.png\")\n"
  ++ "        \n"
  ++ "        for item in items:\n"
  ++ "            embed.add_field(\n"
  ++ "                name=f\"🔹 \x7bitem['name']\x7d - $\x7bitem['price']:.2f\x7d\",\n"
  ++ "                value=f\"**Stock:** \x7bitem['stock']\x7d remaining\\n**Description:** \x7bitem['description']\x7d\",\n"
  ++ "                inline=False\n"
  ++ "            )\n"
  ++ "        \n"
  ++ "        embed.set_footer(text=\"To purchase an item, use s!buy <item name>\")\n"
  ++ "        await ctx.send(embed=embed)\n"
  ++ "\n"
  ++ "    @commands.command(name=\"userhelp\")\n"
  ++ "    async def user_help(self, ctx):\n"
  ++ "        \"\"\"Shop Bot help command\"\"\"\n"
  ++ "        embed = self.create_embed(\n"
  ++ "            \"Shop Bot Help\",\n"
  ++ "            \"Here are all the commands you can use:\",\n"
  ++ "            self.colors[\"info\"]\n"
  ++ "        )\n"
  ++ "        \n"
  ++ "        # Add a nice thumbnail\n"
  ++ "        embed.set_thumbnail(url=\"https://i.imgur.com/q5nyBD4.png\")\n"
  ++ "        \n"
  ++ "        # User commands\n"
  ++ "        embed.add_field(\n"
  ++ "            name=\"💰 Shop Commands\",\n"
  ++ "            value=(\n"
  ++ "                \"`s!shop` - Browse available items\\n\"\n"
  ++ "                \"`s!buy <item>` - Purchase an item\\n\"\n"
  ++ "                \"`s!confirm <key>` - Confirm your payment\\n\"\n"
  ++ "                \"`s!price <item>` - Check item price\\n\"\n"
  ++ "                \"`s!stock <item>` - Check item stock\\n\"\n"
  ++ "                \"`s!orders` - View your orders\\n\"\n"
  ++ "                \"`s!cancelorder <order_id>` - Cancel pending order\\n\"\n"
  ++ "                \"`s!refund <order_id>` - Request a refund\"\n"
  ++ "            ),\n"
  ++ "            inline=False\n"
  ++ "        )\n"
  ++ "        \n"
  ++ "        await ctx.send(embed=embed)\n"
  ++ "\n"
  ++ "async def setup(bot):\n"
  ++ "    await bot.add_cog(UserCommands(bot))\n"

/-- Default admin_commands.py payload written by copy_existing_cogs (opaque template data). -/
def adminCommandsContent : String :=
  "import discord\n"
  ++ "from discord.ext import commands\n"
  ++ "import aiosqlite\n"
  ++ "from datetime import datetime\n"
  ++ "import logging\n"
  ++ "import os\n"
  ++ "\n"
  ++ "logger = logging.getLogger(\"shop_bot.admin_commands\")\n"
  ++ "\n"
  ++ "class AdminCommands(commands.Cog):\n"
  ++ "    def __init__(self, bot):\n"
  ++ "        self.bot = bot\n"
  ++ "        self.db_path = \"shop_database.db\"\n"
  ++ "        self.colors = bot.COLORS if hasattr(bot, 'COLORS') else \x7b\n"
  ++ "            \"success\": 0x43B581,\n"
  ++ "            \"error\": 0xF04747,\n"
  ++ "            \"info\": 0x7289DA,\n"
  ++ "            \"warning\": 0xFAA61A,\n"
  ++ "            \"shop\": 0x36393F,\n"
  ++ "            \"admin\": 0xE91E63,\n"
  ++ "            \"primary\": 0x5865F2\n"
  ++ "        \x7d\n"
  ++ "        self.create_embed = bot.create_embed if hasattr(bot, 'create_embed') else self.default_embed\n"
  ++ "        \n"
  ++ "    def default_embed(self, title, description, color=0x5865F2, timestamp=True):\n"
  ++ "        \"\"\"Fallback embed creation if bot.create_embed is not available\"\"\"\n"
  ++ "        embed = discord.Embed(title=title, description=description, color=color)\n"
  ++ "        if timestamp:\n"
  ++ "            embed.timestamp = datetime.now()\n"
  ++ "        return embed\n"
  ++ "        \n"
  ++ "    def safe_get_field(self, row, field, default=None):\n"
  ++ "        \"\"\"Safely get a field from a sqlite3.Row object\"\"\"\n"
  ++ "        try:\n"
  ++ "            if field in row.keys():\n"
  ++ "                return row[field]\n"
  ++ "            return default\n"
  ++ "        except:\n"
  ++ "            return default\n"
  ++ "        \n"
  ++ "    def cog_check(self, ctx):\n"
  ++ "        \"\"\"Check if the user has admin privileges\"\"\"\n"
  ++ "        if not ctx.guild:\n"
  ++ "            return False\n"
  ++ "        admin_role_id = int(os.getenv('ADMIN_ROLE_ID', 0))\n"
  ++ "        admin_role = discord.utils.get(ctx.guild.roles, id=admin_role_id)\n"
  ++ "        if admin_role and admin_role in ctx.author.roles:\n"
  ++ "            return True\n"
  ++ "        return ctx.author.guild_permissions.administrator\n"
  ++ "\n"
  ++ "    @commands.command(name=\"vieworders\")\n"
  ++ "    async def view_orders(self, ctx, limit: int = 10):\n"
  ++ "        \"\"\"View recent orders as an admin\"\"\"\n"
  ++ "        async with aiosqlite.connect(self.db_path) as db:\n"
  ++ "            db.row_factory = aiosqlite.Row\n"
  ++ "            async with db.execute(\n"
  ++ "                \"\"\"\n"
  ++ "                SELECT o.id, o.user_id, i.name, o.quantity, o.total_price, o.status, o.created_at\n"
  ++ "                FROM orders o\n"
  ++ "                JOIN items i ON o.item_id = i.id\n"
  ++ "                ORDER BY o.created_at DESC\n"
  ++ "                LIMIT ?\n"
  ++ "                \"\"\",\n"
  ++ "                (limit,)\n"
  ++ "            ) as cursor:\n"
  ++ "                orders = await cursor.fetchall()\n"
  ++ "        \n"
  ++ "        if not orders:\n"
  ++ "            await ctx.send(\n"
  ++ "                embed=self.create_embed(\n"
  ++ "                    \"📋 Orders\",\n"
  ++ "                    \"No orders found in the database.\",\n"
  ++ "                    self.colors[\"info\"]\n"
  ++ "                )\n"
  ++ "            )\n"
  ++ "            return\n"
  ++ "        \n"
  ++ "        embed = self.create_embed(\n"
  ++ "            \"📋 Orders\",\n"
  ++ "            f\"Showing last \x7blen(orders)\x7d orders:\",\n"
  ++ "            self.colors[\"admin\"]\n"
  ++ "        )\n"
  ++ "        \n"
  ++ "        for order in orders:\n"
  ++ "            status_emoji = \x7b\n"
  ++ "                \"pending\": \"⏳\",\n"
  ++ "                \"paid\": \"💰\",\n"
  ++ "                \"delivered\": \"✅\",\n"
  ++ "                \"cancelled\": \"❌\"\n"
  ++ "            \x7d.get(order['status'].lower(), \"❓\")\n"
  ++ "            \n"
  ++ "            # Try to get user name\n"
  ++ "            user = self.bot.get_user(order['user_id'])\n"
  ++ "            user_display = user.mention if user else f\"ID: \x7border['user_id']\x7d\"\n"
  ++ "            \n"
  ++ "            embed.add_field(\n"
  ++ "                name=f\"Order #\x7border['id']\x7d - \x7bstatus_emoji\x7d \x7border['status'].capitalize()\x7d\",\n"
  ++ "                value=f\"**User:** \x7buser_display\x7d\\n\"\n"
  ++ "                      f\"**Item:** \x7border['name']\x7d\\n\"\n"
  ++ "                      f\"**Amount:** $\x7border['total_price']:.2f\x7d\\n\"\n"
  ++ "                      f\"**Date:** \x7border['created_at']\x7d\",\n"
  ++ "                inline=False\n"
  ++ "            )\n"
  ++ "        \n"
  ++ "        await ctx.send(embed=embed)\n"
  ++ "\n"
  ++ "async def setup(bot):\n"
  ++ "    await bot.add_cog(AdminCommands(bot))\n"

/-- Payload of the `__init__.py` package marker created by
`ensure_python_files`. -/
def initPyContent : String := "# This file makes the directory a Python package\n"

/-- The entry-point text appended by `verify_cog_files` for class `nm`
(the f-string at line 120 of the source). -/
def setupText (nm : String) : String :=
  "\n\nasync def setup(bot):\n    await bot.add_cog(" ++ nm ++ "(bot))\n"

/-! ### The filesystem state seen by the script

Only the cogs path and its `.bak` sibling are ever touched outside the cogs
tree, so the state is those two entries. -/

/-- State of the two paths the script touches: the cogs directory path and
its `<path>.bak` sibling. `none` = absent. -/
structure FsState where
  cogs : Option FsEntry
  bak : Option FsEntry

/-! ### ensure_cogs_directory (lines 18-37) -/

/-- `ensure_cogs_directory`: create the cogs directory if absent; if the path
holds a non-directory, rename it to `<path>.bak` (POSIX `os.rename`:
silently replaces a regular file at the target, raises if the target is a
directory — an uncaught, fatal error) and create a fresh directory.
Returns the new state and `true` unless a fatal error aborted the run. -/
def ensureCogsDirectory (env : Env) (s : FsState) : FsState × Bool :=
  match s.cogs with
  | none => (⟨some (.dir env.dirMode []), s.bak⟩, true)
  | some (.dir m cs) => (⟨some (.dir m cs), s.bak⟩, true)
  | some (.file c m) =>
    match s.bak with
    | some (.dir bm bcs) => (⟨some (.file c m), some (.dir bm bcs)⟩, false)
    | _ => (⟨some (.dir env.dirMode []), some (.file c m)⟩, true)

/-! ### ensure_python_files (lines 62-88) -/

/-- The content heuristic of `ensure_python_files` line 82: looks like Python
when it contains `import` and (`def` or `class`). -/
def pyHeur (content : String) : Bool :=
  hasSub content "import" && (hasSub content "def" || hasSub content "class")

/-- One `os.rename(item_path, item_path + '.py')` on a listing: remove the
source name, place the entry at the target name (replacing a regular file,
in place).  The caller has checked the target is not a directory. -/
def renameChild (cs : Children) (n tgt : String) (e : FsEntry) : Children :=
  setChild (removeChild cs n) tgt e

/-- One iteration of the `for item in os.listdir(directory)` loop of
`ensure_python_files` (lines 74-88), processing name `n` against the current
listing `cur`: for a regular file whose name does not start with `__` and
does not end in `.py`, open it (an open failure is *uncaught* — the `try`
starts only at the read — and aborts the whole pass: flag `false`), read up
to 500 characters (read failures are caught: skip), and if it looks like
Python rename it to `name + '.py'` (rename failures are caught: skip; a
rename onto an existing directory raises and is caught). -/
def pyStep (env : Env) (cur : Children) (n : String) : Children × Bool :=
  match lookup cur n with
  | some (.file c m) =>
    if strStartsWith n "__" then (cur, true)
    else if strEndsWith n ".py" then (cur, true)
    else if env.openFails n then (cur, false)
    else if env.readFails n then (cur, true)
    else if pyHeur (strTake c 500) then
      if env.renameFails n then (cur, true)
      else
        match lookup cur (n ++ ".py") with
        | some (.dir _ _) => (cur, true)
        | _ => (renameChild cur n (n ++ ".py") (.file c m), true)
    else (cur, true)
  | _ => (cur, true)

/-- The classification loop over the listing snapshot `ns`: run `pyStep` on
each name; an uncaught open failure aborts the loop with flag `false`. -/
def pyLoop (env : Env) : List String → Children → Children × Bool
  | [], cur => (cur, true)
  | n :: ns, cur =>
    match pyStep env cur n with
    | (cur2, true) => pyLoop env ns cur2
    | (cur2, false) => (cur2, false)

/-- `ensure_python_files`: create `__init__.py` (fixed payload) if absent,
then run the classification loop over a listing snapshot.  The returned flag
is `false` when an uncaught open failure aborted the pass. -/
def ensurePythonFiles (env : Env) (cs : Children) : Children × Bool :=
  let cs1 := if (lookup cs "__init__.py").isSome then cs
             else cs ++ [("__init__.py", .file initPyContent env.fileMode)]
  pyLoop env (names cs1) cs1

/-! ### fix_permissions (lines 39-60) -/

/-- The recursive body of `fix_permissions` on a directory's listing, at path
`p` under the cogs root.  Each regular file is chmodded to `0o644`; a chmod
failure on a file raises inside the single `try` wrapping the whole listing
loop, so the remaining entries of *this* listing are left unprocessed (the
exception is caught by this call's `except`).  Each subdirectory is chmodded
to `0o755` and recursed into; all failures inside the recursive call are
caught inside it, so the loop always continues past a subdirectory. -/
def fixWalk (env : Env) (p : List String) : Children → Children
  | [] => []
  | (n, .file c fm) :: rest =>
    if env.chmodFails (p ++ [n]) then (n, .file c fm) :: rest
    else (n, .file c 0o644) :: fixWalk env p rest
  | (n, .dir dm dcs) :: rest =>
    let dm' := if env.chmodFails (p ++ [n]) then dm else 0o755
    let dcs' := if env.listFails (p ++ [n]) then dcs else fixWalk env (p ++ [n]) dcs
    (n, .dir dm' dcs') :: fixWalk env p rest
termination_by cs => sizeOf cs
decreasing_by all_goals (simp_wf <;> omega)

/-- `fix_permissions` on the directory at path `p` (mode `m`, listing `cs`):
chmod the directory itself to `0o755` (failure caught, logged), then walk
the listing (a listing failure is caught: the contents are untouched). -/
def fixPermissions (env : Env) (p : List String) (m : Nat) (cs : Children) :
    Nat × Children :=
  (if env.chmodFails p then m else 0o755,
   if env.listFails p then cs else fixWalk env p cs)

/-! ### copy_existing_cogs (lines 162-413) -/

/-- `copy_existing_cogs`: write each of the two named default plugin files
from its template payload when absent; never overwrite an existing entry. -/
def copyExistingCogs (env : Env) (cs : Children) : Children :=
  let cs1 := if (lookup cs "user_commands.py").isSome then cs
             else cs ++ [("user_commands.py", .file userCommandsContent env.fileMode)]
  if (lookup cs1 "admin_commands.py").isSome then cs1
  else cs1 ++ [("admin_commands.py", .file adminCommandsContent env.fileMode)]

/-! ### verify_cog_files (lines 90-123) -/

/-- The line scan of `verify_cog_files` lines 112-116: the first line
containing both `class` and `(commands.Cog)` yields
`line.split('class')[1].split('(')[0].strip()` (possibly the empty string);
`none` when no line matches. -/
def extractCogName (content : String) : Option String :=
  match (splitOnL [ '\n' ] content.data).find?
      (fun l => containsL "class".data l && containsL "(commands.Cog)".data l) with
  | none => none
  | some l =>
    some (String.mk (trimL (((splitOnL "(".data
      ((splitOnL "class".data l).getD 1 [])).headD []))))

/-- One iteration of the `for item in os.listdir(directory)` loop of
`verify_cog_files` (lines 94-123), processing name `n`: for each name ending
in `.py` and not starting with `__`, the whole per-file body sits in one
`try`, so any failure (opening a directory, read/decode error, append error)
only skips that entry.  When the content has the `commands.Cog` marker but
no `async def setup`, and the extracted class name is non-empty, the
synthesized entry point is appended (append-only content change). -/
def cogStep (env : Env) (cur : Children) (n : String) : Children :=
  if strEndsWith n ".py" && !(strStartsWith n "__") then
    match lookup cur n with
    | some (.file c m) =>
      if env.vErrFails n then cur
      else
        let hasCogClass := hasSub c "commands.Cog"
        let hasSetupFunc := hasSub c "async def setup"
        if hasSetupFunc then cur
        else if hasCogClass then
          match extractCogName c with
          | some nm =>
            if nm = "" then cur
            else if env.vWriteFails n then cur
            else setChild cur n (.file (c ++ setupText nm) m)
          | none => cur
        else cur
    | _ => cur
  else cur

/-- The linting loop over the listing snapshot `ns`: run `cogStep` on each
name (no uncaught failures: every per-file failure is caught). -/
def cogLoop (env : Env) : List String → Children → Children
  | [], cur => cur
  | n :: ns, cur => cogLoop env ns (cogStep env cur n)

/-- `verify_cog_files` on a listing. -/
def verifyCogFiles (env : Env) (cs : Children) : Children :=
  cogLoop env (names cs) cs

/-! ### create_sample_cog (lines 125-160) -/

/-- `create_sample_cog`: if no listing name ends in `.py` without starting
in `__`, write the sample plugin payload to `example_commands.py`. -/
def createSampleCog (env : Env) (cs : Children) : Children :=
  let cogFiles := (names cs).filter
    (fun f => strEndsWith f ".py" && !(strStartsWith f "__"))
  if cogFiles.isEmpty then
    cs ++ [("example_commands.py", .file sampleCogContent env.fileMode)]
  else cs

/-! ### main (lines 415-442) -/

/-- `main`: the five-step pipeline.  Returns the final filesystem state and
`true` when the run completed (printed its "next steps" message); `false`
when an uncaught exception terminated it (the state is the one at the point
of the crash). -/
def main (env : Env) (s : FsState) : FsState × Bool :=
  let (s1, ok1) := ensureCogsDirectory env s
  if !ok1 then (s1, false)
  else
    match s1.cogs with
    | some (.dir m cs) =>
      let (cs2, ok2) := ensurePythonFiles env cs
      if !ok2 then (⟨some (.dir m cs2), s1.bak⟩, false)
      else
        let (m3, cs3) := fixPermissions env [] m cs2
        let cs4 := copyExistingCogs env cs3
        let cs5 := verifyCogFiles env cs4
        let cs6 := createSampleCog env cs5
        (⟨some (.dir m3 cs6), s1.bak⟩, true)
    | _ => (s1, false)

/-! ### Observation helpers -/

/-- The listing of the cogs directory in a state (empty if not a directory). -/
def dirListing (s : FsState) : Children :=
  match s.cogs with
  | some (.dir _ cs) => cs
  | _ => []

/-- Whether an entry of the given name exists in a listing. -/
def hasName (cs : Children) (n : String) : Bool := (lookup cs n).isSome

/-- Mode of the named entry of a listing (`0` if absent). -/
def modeAt (cs : Children) (n : String) : Nat :=
  match lookup cs n with
  | some (.file _ m) => m
  | some (.dir m _) => m
  | none => 0

/-- Content of the named regular file of a listing (empty if absent). -/
def contentAt (cs : Children) (n : String) : String :=
  match lookup cs n with
  | some (.file c _) => c
  | _ => ""


/-! ### Basic lemmas about the string primitives -/

theorem isPrefixL_iff : ∀ p s : List Char, isPrefixL p s = true ↔ p <+: s := by
  intro p
  induction p with
  | nil => intro s; simp [isPrefixL]
  | cons a as ih =>
    intro s
    cases s with
    | nil => simp [isPrefixL]
    | cons b bs =>
      simp [isPrefixL, List.cons_prefix_cons, ih bs, And.comm]

theorem containsL_iff : ∀ s p : List Char, containsL p s = true ↔ p <:+: s := by
  intro s
  induction s with
  | nil =>
    intro p
    cases p with
    | nil => simp [containsL]
    | cons a as => simp [containsL, List.isEmpty]
  | cons b bs ih =>
    intro p
    simp only [containsL, Bool.or_eq_true, isPrefixL_iff, ih, List.infix_cons_iff]

theorem hasSub_iff (s pat : String) : hasSub s pat = true ↔ pat.data <:+: s.data :=
  containsL_iff s.data pat.data

theorem hasSub_append_right (a b pat : String) (h : hasSub b pat = true) :
    hasSub (a ++ b) pat = true := by
  rw [hasSub_iff] at h ⊢
  rw [String.data_append]
  obtain ⟨s, t, hst⟩ := h
  exact ⟨a.data ++ s, t, by rw [← hst]; simp⟩

theorem hasSub_append_left (a b pat : String) (h : hasSub a pat = true) :
    hasSub (a ++ b) pat = true := by
  rw [hasSub_iff] at h ⊢
  rw [String.data_append]
  obtain ⟨s, t, hst⟩ := h
  exact ⟨s, t ++ b.data, by rw [← hst]; simp⟩

/-! ### Ground facts about the template payloads

Proved from the append structure of the payload constants, not by whole-text
evaluation: the pattern is located in one line of the payload. -/


/-! ### Ground facts about the template payloads

Proved from the append structure of the payload constants (the pattern is
located in one line), not by whole-text evaluation. -/

theorem user_hasSetup : hasSub userCommandsContent "async def setup" = true := by
  unfold userCommandsContent
  iterate 1 apply hasSub_append_left
  exact hasSub_append_right _ _ _ (by decide)

theorem user_hasCog : hasSub userCommandsContent "commands.Cog" = true := by
  unfold userCommandsContent
  iterate 113 apply hasSub_append_left
  exact hasSub_append_right _ _ _ (by decide)

theorem admin_hasSetup : hasSub adminCommandsContent "async def setup" = true := by
  unfold adminCommandsContent
  iterate 1 apply hasSub_append_left
  exact hasSub_append_right _ _ _ (by decide)

theorem admin_hasCog : hasSub adminCommandsContent "commands.Cog" = true := by
  unfold adminCommandsContent
  iterate 98 apply hasSub_append_left
  exact hasSub_append_right _ _ _ (by decide)


/-! ### Step lemmas for the classification loop -/

theorem pyLoop_nil (env : Env) (cur : Children) : pyLoop env [] cur = (cur, true) := rfl

theorem pyLoop_cons_ok (env : Env) (n : String) (ns : List String) (cur cur2 : Children)
    (h : pyStep env cur n = (cur2, true)) :
    pyLoop env (n :: ns) cur = pyLoop env ns cur2 := by
  show (match pyStep env cur n with
        | (cur2, true) => pyLoop env ns cur2
        | (cur2, false) => (cur2, false)) = pyLoop env ns cur2
  rw [h]

theorem pyLoop_cons_fail (env : Env) (n : String) (ns : List String) (cur cur2 : Children)
    (h : pyStep env cur n = (cur2, false)) :
    pyLoop env (n :: ns) cur = (cur2, false) := by
  show (match pyStep env cur n with
        | (cur2, true) => pyLoop env ns cur2
        | (cur2, false) => (cur2, false)) = (cur2, false)
  rw [h]

theorem pyStep_none (env : Env) (cur : Children) (n : String)
    (h : lookup cur n = none) : pyStep env cur n = (cur, true) := by
  unfold pyStep
  rw [h]

theorem pyStep_dir (env : Env) (cur : Children) (n : String) (dm : Nat) (dcs : Children)
    (h : lookup cur n = some (.dir dm dcs)) : pyStep env cur n = (cur, true) := by
  unfold pyStep
  rw [h]

theorem pyStep_underscore (env : Env) (cur : Children) (n : String)
    (c : String) (m : Nat) (h : lookup cur n = some (.file c m))
    (h1 : strStartsWith n "__" = true) : pyStep env cur n = (cur, true) := by
  unfold pyStep
  rw [h]
  simp only [h1, if_true]

theorem pyStep_py (env : Env) (cur : Children) (n : String)
    (c : String) (m : Nat) (h : lookup cur n = some (.file c m))
    (h1 : strStartsWith n "__" = false) (h2 : strEndsWith n ".py" = true) :
    pyStep env cur n = (cur, true) := by
  unfold pyStep
  rw [h]
  simp only [h1, h2, Bool.false_eq_true, if_false, if_true]

theorem pyStep_openFail (env : Env) (cur : Children) (n : String)
    (c : String) (m : Nat) (h : lookup cur n = some (.file c m))
    (h1 : strStartsWith n "__" = false) (h2 : strEndsWith n ".py" = false)
    (h3 : env.openFails n = true) : pyStep env cur n = (cur, false) := by
  unfold pyStep
  rw [h]
  simp only [h1, h2, h3, Bool.false_eq_true, if_false, if_true]

theorem pyStep_readFail (env : Env) (cur : Children) (n : String)
    (c : String) (m : Nat) (h : lookup cur n = some (.file c m))
    (h1 : strStartsWith n "__" = false) (h2 : strEndsWith n ".py" = false)
    (h3 : env.openFails n = false) (h4 : env.readFails n = true) :
    pyStep env cur n = (cur, true) := by
  unfold pyStep
  rw [h]
  simp only [h1, h2, h3, h4, Bool.false_eq_true, if_false, if_true]

theorem pyStep_nomatch (env : Env) (cur : Children) (n : String)
    (c : String) (m : Nat) (h : lookup cur n = some (.file c m))
    (h1 : strStartsWith n "__" = false) (h2 : strEndsWith n ".py" = false)
    (h3 : env.openFails n = false) (h4 : env.readFails n = false)
    (h5 : pyHeur (strTake c 500) = false) : pyStep env cur n = (cur, true) := by
  unfold pyStep
  rw [h]
  simp only [h1, h2, h3, h4, h5, Bool.false_eq_true, if_false, if_true]

theorem pyStep_renameFail (env : Env) (cur : Children) (n : String)
    (c : String) (m : Nat) (h : lookup cur n = some (.file c m))
    (h1 : strStartsWith n "__" = false) (h2 : strEndsWith n ".py" = false)
    (h3 : env.openFails n = false) (h4 : env.readFails n = false)
    (h5 : pyHeur (strTake c 500) = true) (h6 : env.renameFails n = true) :
    pyStep env cur n = (cur, true) := by
  unfold pyStep
  rw [h]
  simp only [h1, h2, h3, h4, h5, h6, Bool.false_eq_true, if_false, if_true]

theorem pyStep_renameDirTarget (env : Env) (cur : Children) (n : String)
    (c : String) (m : Nat) (dm : Nat) (dcs : Children)
    (h : lookup cur n = some (.file c m))
    (h1 : strStartsWith n "__" = false) (h2 : strEndsWith n ".py" = false)
    (h3 : env.openFails n = false) (h4 : env.readFails n = false)
    (h5 : pyHeur (strTake c 500) = true) (h6 : env.renameFails n = false)
    (h7 : lookup cur (n ++ ".py") = some (.dir dm dcs)) :
    pyStep env cur n = (cur, true) := by
  unfold pyStep
  rw [h]
  simp only [h1, h2, h3, h4, h5, h6, Bool.false_eq_true, if_false, if_true]
  rw [h7]

theorem pyStep_rename (env : Env) (cur : Children) (n : String)
    (c : String) (m : Nat) (h : lookup cur n = some (.file c m))
    (h1 : strStartsWith n "__" = false) (h2 : strEndsWith n ".py" = false)
    (h3 : env.openFails n = false) (h4 : env.readFails n = false)
    (h5 : pyHeur (strTake c 500) = true) (h6 : env.renameFails n = false)
    (h7 : ∀ dm dcs, lookup cur (n ++ ".py") ≠ some (.dir dm dcs)) :
    pyStep env cur n = (renameChild cur n (n ++ ".py") (.file c m), true) := by
  unfold pyStep
  rw [h]
  cases hl : lookup cur (n ++ ".py") with
  | none => simp only [h1, h2, h3, h4, h5, h6, hl, Bool.false_eq_true, if_false, if_true]
  | some e =>
    cases e with
    | file c2 m2 =>
      simp only [h1, h2, h3, h4, h5, h6, hl, Bool.false_eq_true, if_false, if_true]
    | dir dm dcs => exact absurd hl (h7 dm dcs)

/-! ### Step lemmas for the linting loop -/

theorem cogLoop_nil (env : Env) (cur : Children) : cogLoop env [] cur = cur := rfl

theorem cogLoop_cons (env : Env) (n : String) (ns : List String) (cur : Children) :
    cogLoop env (n :: ns) cur = cogLoop env ns (cogStep env cur n) := rfl

theorem cogStep_skipname (env : Env) (cur : Children) (n : String)
    (h : (strEndsWith n ".py" && !(strStartsWith n "__")) = false) :
    cogStep env cur n = cur := by
  unfold cogStep
  rw [h]
  simp

theorem cogStep_none (env : Env) (cur : Children) (n : String)
    (h0 : (strEndsWith n ".py" && !(strStartsWith n "__")) = true)
    (h : lookup cur n = none) : cogStep env cur n = cur := by
  unfold cogStep
  rw [h0, h]
  simp

theorem cogStep_dir (env : Env) (cur : Children) (n : String) (dm : Nat) (dcs : Children)
    (h0 : (strEndsWith n ".py" && !(strStartsWith n "__")) = true)
    (h : lookup cur n = some (.dir dm dcs)) : cogStep env cur n = cur := by
  unfold cogStep
  rw [h0, h]
  simp

theorem cogStep_vErr (env : Env) (cur : Children) (n : String)
    (c : String) (m : Nat)
    (h0 : (strEndsWith n ".py" && !(strStartsWith n "__")) = true)
    (h : lookup cur n = some (.file c m)) (h1 : env.vErrFails n = true) :
    cogStep env cur n = cur := by
  unfold cogStep
  rw [h0, h]
  simp [h1]

theorem cogStep_hasSetup (env : Env) (cur : Children) (n : String)
    (c : String) (m : Nat)
    (h0 : (strEndsWith n ".py" && !(strStartsWith n "__")) = true)
    (h : lookup cur n = some (.file c m)) (h1 : env.vErrFails n = false)
    (h2 : hasSub c "async def setup" = true) : cogStep env cur n = cur := by
  unfold cogStep
  rw [h0, h]
  simp [h1, h2]

theorem cogStep_noCog (env : Env) (cur : Children) (n : String)
    (c : String) (m : Nat)
    (h0 : (strEndsWith n ".py" && !(strStartsWith n "__")) = true)
    (h : lookup cur n = some (.file c m)) (h1 : env.vErrFails n = false)
    (h2 : hasSub c "async def setup" = false) (h3 : hasSub c "commands.Cog" = false) :
    cogStep env cur n = cur := by
  unfold cogStep
  rw [h0, h]
  simp [h1, h2, h3]

theorem cogStep_extractNone (env : Env) (cur : Children) (n : String)
    (c : String) (m : Nat)
    (h0 : (strEndsWith n ".py" && !(strStartsWith n "__")) = true)
    (h : lookup cur n = some (.file c m)) (h1 : env.vErrFails n = false)
    (h2 : hasSub c "async def setup" = false) (h3 : hasSub c "commands.Cog" = true)
    (h4 : extractCogName c = none) : cogStep env cur n = cur := by
  unfold cogStep
  rw [h0, h]
  simp [h1, h2, h3, h4]

theorem cogStep_extractEmpty (env : Env) (cur : Children) (n : String)
    (c : String) (m : Nat)
    (h0 : (strEndsWith n ".py" && !(strStartsWith n "__")) = true)
    (h : lookup cur n = some (.file c m)) (h1 : env.vErrFails n = false)
    (h2 : hasSub c "async def setup" = false) (h3 : hasSub c "commands.Cog" = true)
    (h4 : extractCogName c = some "") : cogStep env cur n = cur := by
  unfold cogStep
  rw [h0, h]
  simp [h1, h2, h3, h4]

theorem cogStep_writeFail (env : Env) (cur : Children) (n : String)
    (c : String) (m : Nat) (nm : String)
    (h0 : (strEndsWith n ".py" && !(strStartsWith n "__")) = true)
    (h : lookup cur n = some (.file c m)) (h1 : env.vErrFails n = false)
    (h2 : hasSub c "async def setup" = false) (h3 : hasSub c "commands.Cog" = true)
    (h4 : extractCogName c = some nm) (h5 : nm ≠ "") (h6 : env.vWriteFails n = true) :
    cogStep env cur n = cur := by
  unfold cogStep
  rw [h0, h]
  simp [h1, h2, h3, h4, h5, h6]

theorem cogStep_append (env : Env) (cur : Children) (n : String)
    (c : String) (m : Nat) (nm : String)
    (h0 : (strEndsWith n ".py" && !(strStartsWith n "__")) = true)
    (h : lookup cur n = some (.file c m)) (h1 : env.vErrFails n = false)
    (h2 : hasSub c "async def setup" = false) (h3 : hasSub c "commands.Cog" = true)
    (h4 : extractCogName c = some nm) (h5 : nm ≠ "") (h6 : env.vWriteFails n = false) :
    cogStep env cur n = setChild cur n (.file (c ++ setupText nm) m) := by
  unfold cogStep
  rw [h0, h]
  simp [h1, h2, h3, h4, h5, h6]


/-! ### Concrete run computations

The pipeline evaluated on the two fixture states every scenario claim
reduces to: an empty pre-existing cogs directory, and the healthy state such
a run leaves behind. -/

/-- The listing produced by a full run on an empty cogs directory, with
`fm` the process's default file-creation mode: the package marker was
created before the permission pass (so chmodded to `0o644`), the two default
plugin payloads after it (so left at the creation mode). -/
def emptyRunListing (fm : Nat) : Children :=
  [("__init__.py", .file initPyContent 0o644),
   ("user_commands.py", .file userCommandsContent fm),
   ("admin_commands.py", .file adminCommandsContent fm)]

theorem verify_emptyRunListing (dm fm fm2 : Nat) :
    verifyCogFiles (stdEnv dm fm2) (emptyRunListing fm) = emptyRunListing fm := by
  have lu : lookup (emptyRunListing fm) "user_commands.py"
      = some (.file userCommandsContent fm) := rfl
  have la : lookup (emptyRunListing fm) "admin_commands.py"
      = some (.file adminCommandsContent fm) := rfl
  unfold verifyCogFiles
  show cogLoop _ ["__init__.py", "user_commands.py", "admin_commands.py"] _ = _
  rw [cogLoop_cons, cogStep_skipname _ _ _ (by decide), cogLoop_cons,
    cogStep_hasSetup _ _ _ userCommandsContent fm (by decide) lu rfl user_hasSetup,
    cogLoop_cons,
    cogStep_hasSetup _ _ _ adminCommandsContent fm (by decide) la rfl admin_hasSetup,
    cogLoop_nil]

theorem runFromEnsure (dm fm m : Nat) (s : FsState) (b : Option FsEntry)
    (h : ensureCogsDirectory (stdEnv dm fm) s = (⟨some (.dir m []), b⟩, true)) :
    main (stdEnv dm fm) s = (⟨some (.dir 0o755 (emptyRunListing fm)), b⟩, true) := by
  have hpy : ensurePythonFiles (stdEnv dm fm) []
      = ([("__init__.py", .file initPyContent fm)], true) := rfl
  have hfix : fixPermissions (stdEnv dm fm) [] m [("__init__.py", .file initPyContent fm)]
      = (0o755, [("__init__.py", .file initPyContent 0o644)]) := by
    unfold fixPermissions
    simp [stdEnv, fixWalk]
  have hcopy : copyExistingCogs (stdEnv dm fm) [("__init__.py", .file initPyContent 0o644)]
      = emptyRunListing fm := rfl
  have hsample : createSampleCog (stdEnv dm fm) (emptyRunListing fm) = emptyRunListing fm := rfl
  unfold main
  simp only [h, Bool.not_true, Bool.false_eq_true, if_false, hpy, hfix,
    hcopy, verify_emptyRunListing, hsample]

theorem runEmpty (dm fm m : Nat) (b : Option FsEntry) :
    main (stdEnv dm fm) ⟨some (.dir m []), b⟩
      = (⟨some (.dir 0o755 (emptyRunListing fm)), b⟩, true) :=
  runFromEnsure dm fm m _ b rfl

theorem runAbsent (dm fm : Nat) (b : Option FsEntry) :
    main (stdEnv dm fm) ⟨none, b⟩
      = (⟨some (.dir 0o755 (emptyRunListing fm)), b⟩, true) :=
  runFromEnsure dm fm dm _ b rfl

theorem runFromFile (dm fm : Nat) (c : String) (q : Nat) :
    main (stdEnv dm fm) ⟨some (.file c q), none⟩
      = (⟨some (.dir 0o755 (emptyRunListing fm)), some (.file c q)⟩, true) :=
  runFromEnsure dm fm dm _ _ rfl

theorem runHealthy (dm fm fm2 : Nat) (b : Option FsEntry) :
    main (stdEnv dm fm2) ⟨some (.dir 0o755 (emptyRunListing fm)), b⟩
      = (⟨some (.dir 0o755 (emptyRunListing 0o644)), b⟩, true) := by
  have hpy : ensurePythonFiles (stdEnv dm fm2) (emptyRunListing fm)
      = (emptyRunListing fm, true) := rfl
  have hfix : fixPermissions (stdEnv dm fm2) [] 0o755 (emptyRunListing fm)
      = (0o755, emptyRunListing 0o644) := by
    unfold fixPermissions
    simp [stdEnv, fixWalk, emptyRunListing]
  have hcopy : copyExistingCogs (stdEnv dm fm2) (emptyRunListing 0o644)
      = emptyRunListing 0o644 := rfl
  have hsample : createSampleCog (stdEnv dm fm2) (emptyRunListing 0o644)
      = emptyRunListing 0o644 := rfl
  unfold main
  simp only [ensureCogsDirectory, Bool.not_true, Bool.false_eq_true, if_false, hpy, hfix,
    hcopy, verify_emptyRunListing, hsample]


/-! ### Claim C6 -/

/-- C6: starting from an empty, pre-existing plugin directory, one full run
leaves the package marker `__init__.py` and the two named defaults
`user_commands.py` and `admin_commands.py` in the directory, and does not
create the generic sample `example_commands.py`: the defaults are
provisioned before the zero-plugin-files check and count as non-empty
(for any initial directory mode `m` and any creation modes `dm`, `fm`). -/
theorem C6_empty_dir_defaults_no_sample (dm fm m : Nat) :
    (main (stdEnv dm fm) ⟨some (.dir m []), none⟩).2 = true ∧
    hasName (dirListing (main (stdEnv dm fm) ⟨some (.dir m []), none⟩).1) "__init__.py" = true ∧
    hasName (dirListing (main (stdEnv dm fm) ⟨some (.dir m []), none⟩).1)
      "user_commands.py" = true ∧
    hasName (dirListing (main (stdEnv dm fm) ⟨some (.dir m []), none⟩).1)
      "admin_commands.py" = true ∧
    hasName (dirListing (main (stdEnv dm fm) ⟨some (.dir m []), none⟩).1)
      "example_commands.py" = false := by
  rw [runEmpty]
  exact ⟨rfl, rfl, rfl, rfl, rfl⟩

/-! ### Claim C7 -/

/-- C7: whenever `ensure_cogs_directory` returns (does not raise), the path
it returns holds a directory — whatever the initial state of the path
(absent, a regular file, or a directory). -/
theorem C7_bootstrap_returns_directory (env : Env) (s s1 : FsState)
    (h : ensureCogsDirectory env s = (s1, true)) :
    ∃ m cs, s1.cogs = some (.dir m cs) := by
  unfold ensureCogsDirectory at h
  cases hc : s.cogs with
  | none =>
    rw [hc] at h
    exact ⟨env.dirMode, [], by rw [← (Prod.mk.injEq .. |>.mp h).1]⟩
  | some e =>
    cases e with
    | dir m cs =>
      rw [hc] at h
      exact ⟨m, cs, by rw [← (Prod.mk.injEq .. |>.mp h).1]⟩
    | file c m =>
      rw [hc] at h
      cases hb : s.bak with
      | none =>
        rw [hb] at h
        exact ⟨env.dirMode, [], by rw [← (Prod.mk.injEq .. |>.mp h).1]⟩
      | some e2 =>
        cases e2 with
        | file c2 m2 =>
          rw [hb] at h
          exact ⟨env.dirMode, [], by rw [← (Prod.mk.injEq .. |>.mp h).1]⟩
        | dir bm bcs =>
          rw [hb] at h
          exact absurd (Prod.mk.injEq .. |>.mp h).2 (by simp)

/-- Witness for C7 at a concrete input: the path initially holds a regular
file, the run displaces it and returns a directory. -/
theorem C7_witness :
    ∃ m cs, (FsState.mk (some (.dir 0o777 [])) (some (.file "junk" 0o600))).cogs
      = some (FsEntry.dir m cs) :=
  C7_bootstrap_returns_directory (stdEnv 0o777 0o644)
    ⟨some (.file "junk" 0o600), none⟩
    ⟨some (.dir 0o777 []), some (.file "junk" 0o600)⟩ rfl

/-! ### Claim C8 -/

/-- C8: if a regular file occupies the plugin-directory path before a run
and the run completes, the displaced file's content survives at the
`<path>.bak` sibling — it is never deleted. -/
theorem C8_displaced_file_backed_up (env : Env) (s s1 : FsState) (c : String) (m : Nat)
    (hc : s.cogs = some (.file c m)) (h : main env s = (s1, true)) :
    s1.bak = some (.file c m) := by
  unfold main ensureCogsDirectory at h
  rw [hc] at h
  cases hb : s.bak with
  | some e =>
    cases e with
    | dir bm bcs =>
      rw [hb] at h
      simp at h
    | file c2 m2 =>
      rw [hb] at h
      simp only [Bool.not_true, Bool.false_eq_true, if_false] at h
      rw [← (Prod.mk.injEq .. |>.mp h).1]
  | none =>
    rw [hb] at h
    simp only [Bool.not_true, Bool.false_eq_true, if_false] at h
    rw [← (Prod.mk.injEq .. |>.mp h).1]

/-- Witness for C8 at a concrete input: a file with content `"hello"`
occupies the cogs path; after the run its content sits at the backup
sibling. -/
theorem C8_witness :
    (FsState.mk (some (.dir 0o755 (emptyRunListing 0o644)))
        (some (.file "hello" 0o600))).bak = some (FsEntry.file "hello" 0o600) :=
  C8_displaced_file_backed_up (stdEnv 0o777 0o644)
    ⟨some (.file "hello" 0o600), none⟩ _ "hello" 0o600 rfl
    (runFromFile 0o777 0o644 "hello" 0o600)


/-! ### The permission walk: normalization and failure locality -/

/-- Every file has mode `0o644` and every directory mode `0o755`, at all
depths. -/
def normalizedL : Children → Bool
  | [] => true
  | (_, .file _ m) :: rest => (m == 0o644) && normalizedL rest
  | (_, .dir m dcs) :: rest => (m == 0o755) && normalizedL dcs && normalizedL rest
termination_by cs => sizeOf cs
decreasing_by all_goals (simp_wf <;> omega)


theorem fixWalk_normalized (env : Env)
    (hch : ∀ q, env.chmodFails q = false) (hls : ∀ q, env.listFails q = false) :
    ∀ (p : List String) (cs : Children), normalizedL (fixWalk env p cs) = true := by
  intro p cs
  induction p, cs using fixWalk.induct env with
  | case1 p => simp [fixWalk, normalizedL]
  | case2 p n c fm rest hcond =>
    rw [hch] at hcond
    simp at hcond
  | case3 p n c fm rest hcond ih =>
    rw [fixWalk]
    simp only [hch, Bool.false_eq_true, if_false]
    simp [normalizedL, ih]
  | case4 p n dm dcs rest ih2 ih1 =>
    rw [fixWalk]
    simp only [hch, hls, Bool.false_eq_true, if_false]
    simp [normalizedL, ih1, ih2]

/-- Setting every file mode to `0o644` and every directory mode to `0o755`
(the effect of a failure-free permission walk). -/
def normalizeTree : Children → Children
  | [] => []
  | (n, .file c _) :: rest => (n, .file c 0o644) :: normalizeTree rest
  | (n, .dir _ dcs) :: rest => (n, .dir 0o755 (normalizeTree dcs)) :: normalizeTree rest
termination_by cs => sizeOf cs
decreasing_by all_goals (simp_wf <;> omega)

theorem fixWalk_noFail (env : Env)
    (hch : ∀ q, env.chmodFails q = false) (hls : ∀ q, env.listFails q = false) :
    ∀ (p : List String) (cs : Children), fixWalk env p cs = normalizeTree cs := by
  intro p cs
  induction p, cs using fixWalk.induct env with
  | case1 p => simp [fixWalk, normalizeTree]
  | case2 p n c fm rest hcond =>
    rw [hch] at hcond
    simp at hcond
  | case3 p n c fm rest hcond ih =>
    rw [fixWalk, normalizeTree]
    simp only [hch, Bool.false_eq_true, if_false]
    rw [ih]
  | case4 p n dm dcs rest ih2 ih1 =>
    rw [fixWalk, normalizeTree]
    simp only [hch, hls, Bool.false_eq_true, if_false]
    rw [ih1, ih2]

theorem names_normalizeTree : ∀ cs : Children, names (normalizeTree cs) = names cs := by
  intro cs
  induction cs using normalizeTree.induct with
  | case1 => simp [normalizeTree]
  | case2 n c m rest ih =>
    rw [normalizeTree]
    simp only [names, List.map_cons] at ih ⊢
    rw [ih]
  | case3 n dm dcs rest ih1 ih2 =>
    rw [normalizeTree]
    simp only [names, List.map_cons] at ih2 ⊢
    rw [ih2]

theorem lookup_normalizeTree (n : String) : ∀ cs : Children,
    lookup (normalizeTree cs) n
      = (lookup cs n).map (fun e => match e with
          | .file c _ => .file c 0o644
          | .dir _ dcs => .dir 0o755 (normalizeTree dcs)) := by
  intro cs
  induction cs using normalizeTree.induct with
  | case1 => simp [normalizeTree, lookup]
  | case2 m c mm rest ih =>
    rw [normalizeTree]
    simp only [lookup]
    by_cases hmn : m = n
    · rw [if_pos hmn, if_pos hmn]
      rfl
    · rw [if_neg hmn, if_neg hmn]
      exact ih
  | case3 m dm dcs rest ih1 ih2 =>
    rw [normalizeTree]
    simp only [lookup]
    by_cases hmn : m = n
    · rw [if_pos hmn, if_pos hmn]
      rfl
    · rw [if_neg hmn, if_neg hmn]
      exact ih2

theorem normalizeTree_id_of_normalized : ∀ cs : Children,
    normalizedL cs = true → normalizeTree cs = cs := by
  intro cs
  induction cs using normalizeTree.induct with
  | case1 => intro _; rw [normalizeTree]
  | case2 n c m rest ih =>
    intro h
    rw [normalizedL] at h
    simp only [Bool.and_eq_true, beq_iff_eq] at h
    rw [normalizeTree, ih h.2, h.1]
  | case3 n dm dcs rest ih1 ih2 =>
    intro h
    rw [normalizedL] at h
    simp only [Bool.and_eq_true, beq_iff_eq] at h
    rw [normalizeTree, ih1 h.1.2, ih2 h.2, h.1.1]

theorem normalizedL_normalizeTree : ∀ cs : Children,
    normalizedL (normalizeTree cs) = true := by
  intro cs
  induction cs using normalizeTree.induct with
  | case1 => rw [normalizeTree]; rw [normalizedL]
  | case2 n c m rest ih => rw [normalizeTree, normalizedL]; simp [ih]
  | case3 n dm dcs rest ih1 ih2 => rw [normalizeTree, normalizedL]; simp [ih1, ih2]

/-! ### Claim C9 -/

/-- C9: when no chmod and no listing call fails, the permission pass leaves
the walked directory itself at mode `0o755` and every file (resp. directory)
anywhere below it at mode `0o644` (resp. `0o755`). -/
theorem C9_permission_invariant (env : Env) (p : List String) (m : Nat) (cs : Children)
    (hch : ∀ q, env.chmodFails q = false) (hls : ∀ q, env.listFails q = false) :
    (fixPermissions env p m cs).1 = 0o755 ∧
    normalizedL (fixPermissions env p m cs).2 = true := by
  unfold fixPermissions
  simp only [hch, hls, Bool.false_eq_true, if_false]
  exact ⟨trivial, fixWalk_normalized env hch hls p cs⟩


/-- Witness for C9 at a concrete input: a two-level tree with stray modes is
fully normalized by a failure-free walk. -/
theorem C9_witness :
    (fixPermissions (stdEnv 0o777 0o644) [] 0o700
        [("a.py", .file "x" 0o600), ("sub", .dir 0o700 [("b", .file "y" 0o777)])]).1
      = 0o755 ∧
    normalizedL (fixPermissions (stdEnv 0o777 0o644) [] 0o700
        [("a.py", .file "x" 0o600), ("sub", .dir 0o700 [("b", .file "y" 0o777)])]).2
      = true :=
  C9_permission_invariant (stdEnv 0o777 0o644) [] 0o700
    [("a.py", .file "x" 0o600), ("sub", .dir 0o700 [("b", .file "y" 0o777)])]
    (fun _ => rfl) (fun _ => rfl)


/-! ### Failure locality of the permission walk -/

theorem fixWalk_agree (env env2 : Env) : ∀ (p : List String) (cs : Children),
    (∀ q, p <+: q → q ≠ p →
      env.chmodFails q = env2.chmodFails q ∧ env.listFails q = env2.listFails q) →
    fixWalk env p cs = fixWalk env2 p cs := by
  intro p cs
  induction p, cs using fixWalk.induct env with
  | case1 p =>
    intro _
    rw [fixWalk, fixWalk]
  | case2 p n c fm rest hcond =>
    intro hag
    have hq := hag (p ++ [n]) (List.prefix_append p [n]) (by
      intro heq
      have := congrArg List.length heq
      simp at this)
    rw [fixWalk, fixWalk, hcond, ← hq.1, hcond]
    simp
  | case3 p n c fm rest hcond ih =>
    intro hag
    have hq := hag (p ++ [n]) (List.prefix_append p [n]) (by
      intro heq
      have := congrArg List.length heq
      simp at this)
    have hcond' : env.chmodFails (p ++ [n]) = false := by
      simp only [Bool.not_eq_true] at hcond
      exact hcond
    rw [fixWalk, fixWalk, hcond', ← hq.1, hcond']
    simp only [Bool.false_eq_true, if_false]
    rw [ih hag]
  | case4 p n dm dcs rest ih2 ih1 =>
    intro hag
    have hq := hag (p ++ [n]) (List.prefix_append p [n]) (by
      intro heq
      have := congrArg List.length heq
      simp at this)
    have hsub : ∀ q, (p ++ [n]) <+: q → q ≠ (p ++ [n]) →
        env.chmodFails q = env2.chmodFails q ∧ env.listFails q = env2.listFails q := by
      intro q hpre hne
      refine hag q ((List.prefix_append p [n]).trans hpre) ?_
      intro heq
      have hl := hpre.length_le
      rw [heq] at hl
      simp at hl
    rw [fixWalk, fixWalk, ← hq.1, ← hq.2, ih2 hsub, ih1 hag]


theorem fixWalk_append_clean (env : Env) : ∀ (p : List String) (pre rest : Children),
    (∀ q m' t, m' ∈ names pre → q = p ++ m' :: t →
      env.chmodFails q = false ∧ env.listFails q = false) →
    fixWalk env p (pre ++ rest) = fixWalk (stdEnv 0 0) p pre ++ fixWalk env p rest := by
  intro p pre
  induction pre with
  | nil =>
    intro rest _
    rw [fixWalk]
    simp
  | cons hd tl ih =>
    intro rest hclean
    obtain ⟨m', e'⟩ := hd
    have hm' : m' ∈ names ((m', e') :: tl) := by simp [names]
    have hcm : env.chmodFails (p ++ [m']) = false :=
      (hclean (p ++ [m']) m' [] hm' rfl).1
    have hlm : env.listFails (p ++ [m']) = false :=
      (hclean (p ++ [m']) m' [] hm' rfl).2
    have htl : ∀ q m'' t, m'' ∈ names tl → q = p ++ m'' :: t →
        env.chmodFails q = false ∧ env.listFails q = false := by
      intro q m'' t hmem hq
      exact hclean q m'' t (by simp [names] at hmem ⊢; exact Or.inr hmem) hq
    have hstdc : ∀ q, (stdEnv 0 0).chmodFails q = false := fun _ => rfl
    have hstdl : ∀ q, (stdEnv 0 0).listFails q = false := fun _ => rfl
    cases e' with
    | file c fm =>
      show fixWalk env p ((m', .file c fm) :: (tl ++ rest)) = _
      rw [fixWalk, hcm]
      conv_rhs => rw [fixWalk]
      simp only [hstdc, Bool.false_eq_true, if_false, List.cons_append]
      rw [ih rest htl]
    | dir dm dcs =>
      show fixWalk env p ((m', .dir dm dcs) :: (tl ++ rest)) = _
      rw [fixWalk, hcm, hlm]
      conv_rhs => rw [fixWalk]
      have hag : fixWalk env (p ++ [m']) dcs = fixWalk (stdEnv 0 0) (p ++ [m']) dcs := by
        apply fixWalk_agree
        intro q hpre hne
        obtain ⟨t, ht⟩ := hpre
        have : q = p ++ m' :: t := by
          rw [← ht]
          simp
        exact ⟨(hclean q m' t hm' this).1, (hclean q m' t hm' this).2⟩
      rw [hag]
      simp only [hstdc, hstdl, Bool.false_eq_true, if_false, List.cons_append]
      rw [ih rest htl]

/-- Environment used in the C2 counterexample and witness: the single chmod
call on the file at top-level path `["a"]` fails; nothing else fails. -/
def c2CexEnv : Env :=
  ⟨0o777, 0o644, fun q => q == ["a"], fun _ => false, fun _ => false, fun _ => false,
   fun _ => false, fun _ => false, fun _ => false⟩

/-! ### Claim C2 -/

/-- C2 counterexample: with a chmod failure on the file `a` alone, its
sibling `b` — listed after it in the same directory — does *not* get its
mode set to `0o644`: the exception raised by the failing chmod is caught
outside the listing loop, aborting the remaining siblings.  This refutes
the claim that a permission-change failure on one entry never aborts
traversal of that entry's remaining siblings. -/
theorem C2_counterexample :
    ¬ (modeAt (fixPermissions c2CexEnv [] 0o700
        [("a", .file "x" 0o600), ("b", .file "y" 0o600)]).2 "b" = 0o644) := by
  have hfix : (fixPermissions c2CexEnv [] 0o700
      [("a", .file "x" 0o600), ("b", .file "y" 0o600)]).2
      = [("a", .file "x" 0o600), ("b", .file "y" 0o600)] := by
    unfold fixPermissions
    simp [c2CexEnv, fixWalk]
  rw [hfix]
  simp [modeAt, lookup]

/-- C2 as amended: failure locality of the permission walk.  With exactly
one failing call at path `p ++ [n]` and the failing entry's name absent
from the surrounding listing slices: (i) a file-chmod failure makes the
walk of that directory stop at the failing file — entries listed before it
are processed exactly as in a failure-free walk, the failing file and all
entries after it keep their old state — while nothing outside that listing
is affected; (ii) a directory-chmod failure skips only that directory's own
mode: its contents, and all other entries, are still fully normalized;
(iii) a listing failure skips only that directory's contents. -/
theorem C2_amended_failure_locality :
    (∀ (env : Env) (p : List String) (pre post : Children) (n c : String) (fm : Nat),
      (∀ q, env.chmodFails q = (q == p ++ [n])) →
      (∀ q, env.listFails q = false) →
      n ∉ names pre →
      fixWalk env p (pre ++ (n, .file c fm) :: post)
        = fixWalk (stdEnv 0 0) p pre ++ (n, .file c fm) :: post) ∧
    (∀ (env : Env) (p : List String) (pre post : Children) (n : String) (dm : Nat)
        (dcs : Children),
      (∀ q, env.chmodFails q = (q == p ++ [n])) →
      (∀ q, env.listFails q = false) →
      n ∉ names pre → n ∉ names post →
      fixWalk env p (pre ++ (n, .dir dm dcs) :: post)
        = fixWalk (stdEnv 0 0) p pre
          ++ (n, .dir dm (normalizeTree dcs)) :: fixWalk (stdEnv 0 0) p post) ∧
    (∀ (env : Env) (p : List String) (pre post : Children) (n : String) (dm : Nat)
        (dcs : Children),
      (∀ q, env.chmodFails q = false) →
      (∀ q, env.listFails q = (q == p ++ [n])) →
      n ∉ names pre → n ∉ names post →
      fixWalk env p (pre ++ (n, .dir dm dcs) :: post)
        = fixWalk (stdEnv 0 0) p pre
          ++ (n, .dir 0o755 dcs) :: fixWalk (stdEnv 0 0) p post) := by
  have hnoteq : ∀ (p : List String) (n m' : String) (t : List String), m' ≠ n →
      p ++ m' :: t ≠ p ++ [n] := by
    intro p n m' t hne heq
    have := List.append_cancel_left heq
    simp at this
    exact hne this.1
  refine ⟨?_, ?_, ?_⟩
  · intro env p pre post n c fm hch hls hn
    have hclean : ∀ q m' t, m' ∈ names pre → q = p ++ m' :: t →
        env.chmodFails q = false ∧ env.listFails q = false := by
      intro q m' t hmem hq
      have hne : m' ≠ n := fun h => hn (h ▸ hmem)
      constructor
      · rw [hch, hq]
        exact beq_eq_false_iff_ne.mpr (hnoteq p n m' t hne)
      · exact hls q
    rw [fixWalk_append_clean env p pre _ hclean]
    congr 1
    rw [fixWalk, hch]
    simp
  · intro env p pre post n dm dcs hch hls hnpre hnpost
    have hclean : ∀ q m' t, m' ∈ names pre → q = p ++ m' :: t →
        env.chmodFails q = false ∧ env.listFails q = false := by
      intro q m' t hmem hq
      have hne : m' ≠ n := fun h => hnpre (h ▸ hmem)
      constructor
      · rw [hch, hq]
        exact beq_eq_false_iff_ne.mpr (hnoteq p n m' t hne)
      · exact hls q
    rw [fixWalk_append_clean env p pre _ hclean]
    congr 1
    rw [fixWalk, hch, hls]
    simp only [beq_self_eq_true, if_true, Bool.false_eq_true, if_false]
    have hag : fixWalk env (p ++ [n]) dcs = fixWalk (stdEnv 0 0) (p ++ [n]) dcs := by
      apply fixWalk_agree
      intro q hpre hne
      obtain ⟨t, ht⟩ := hpre
      refine ⟨?_, hls q⟩
      rw [hch]
      apply beq_eq_false_iff_ne.mpr
      intro heq
      exact hne (heq ▸ rfl)
    have hstd : fixWalk (stdEnv 0 0) (p ++ [n]) dcs = normalizeTree dcs :=
      fixWalk_noFail (stdEnv 0 0) (fun _ => rfl) (fun _ => rfl) (p ++ [n]) dcs
    rw [hag, hstd]
    congr 1
    have hcleanpost : ∀ q m' t, m' ∈ names post → q = p ++ m' :: t →
        env.chmodFails q = false ∧ env.listFails q = false := by
      intro q m' t hmem hq
      have hne : m' ≠ n := fun h => hnpost (h ▸ hmem)
      constructor
      · rw [hch, hq]
        exact beq_eq_false_iff_ne.mpr (hnoteq p n m' t hne)
      · exact hls q
    have := fixWalk_append_clean env p post [] hcleanpost
    rw [List.append_nil] at this
    rw [this, fixWalk]
    simp
  · intro env p pre post n dm dcs hch hls hnpre hnpost
    have hclean : ∀ q m' t, m' ∈ names pre → q = p ++ m' :: t →
        env.chmodFails q = false ∧ env.listFails q = false := by
      intro q m' t hmem hq
      have hne : m' ≠ n := fun h => hnpre (h ▸ hmem)
      refine ⟨hch q, ?_⟩
      rw [hls, hq]
      exact beq_eq_false_iff_ne.mpr (hnoteq p n m' t hne)
    rw [fixWalk_append_clean env p pre _ hclean]
    congr 1
    rw [fixWalk, hch, hls]
    simp only [beq_self_eq_true, if_true, Bool.false_eq_true, if_false]
    congr 1
    have hcleanpost : ∀ q m' t, m' ∈ names post → q = p ++ m' :: t →
        env.chmodFails q = false ∧ env.listFails q = false := by
      intro q m' t hmem hq
      have hne : m' ≠ n := fun h => hnpost (h ▸ hmem)
      refine ⟨hch q, ?_⟩
      rw [hls, hq]
      exact beq_eq_false_iff_ne.mpr (hnoteq p n m' t hne)
    have := fixWalk_append_clean env p post [] hcleanpost
    rw [List.append_nil] at this
    rw [this, fixWalk]
    simp

/-- Witness for the amended C2 at a concrete input: chmod fails on file `a`;
the entry `z` listed before it is processed as in a failure-free walk and
the entries from `a` on are untouched. -/
theorem C2_amended_witness :
    fixWalk c2CexEnv [] ([("z", .file "w" 0o600)] ++ ("a", .file "x" 0o600)
        :: [("b", .file "y" 0o600)])
      = fixWalk (stdEnv 0 0) [] [("z", .file "w" 0o600)]
        ++ ("a", .file "x" 0o600) :: [("b", .file "y" 0o600)] :=
  C2_amended_failure_locality.1 c2CexEnv [] [("z", .file "w" 0o600)]
    [("b", .file "y" 0o600)] "a" "x" 0o600 (fun q => rfl) (fun q => rfl) (by decide)


/-! ### Listing algebra -/

theorem names_nil : names ([] : Children) = [] := rfl

theorem names_cons (m : String) (e : FsEntry) (tl : Children) :
    names ((m, e) :: tl) = m :: names tl := rfl

theorem names_append (cs ds : Children) : names (cs ++ ds) = names cs ++ names ds := by
  simp [names]

theorem lookup_cons (m : String) (e : FsEntry) (tl : Children) (n : String) :
    lookup ((m, e) :: tl) n = if m = n then some e else lookup tl n := rfl

theorem setChild_cons (m : String) (e' : FsEntry) (tl : Children) (n : String) (e : FsEntry) :
    setChild ((m, e') :: tl) n e
      = if m = n then (n, e) :: tl else (m, e') :: setChild tl n e := rfl

theorem removeChild_cons (m : String) (e : FsEntry) (tl : Children) (n : String) :
    removeChild ((m, e) :: tl) n = if m = n then tl else (m, e) :: removeChild tl n := rfl

theorem lookup_eq_none_of_not_mem : ∀ (cs : Children) (n : String),
    n ∉ names cs → lookup cs n = none := by
  intro cs n h
  induction cs with
  | nil => rfl
  | cons hd tl ih =>
    obtain ⟨m, e⟩ := hd
    rw [names_cons] at h
    simp only [List.mem_cons, not_or] at h
    rw [lookup_cons, if_neg (fun hmn => h.1 hmn.symm)]
    exact ih (by simpa using h.2)

theorem mem_names_of_lookup : ∀ (cs : Children) (n : String) (e : FsEntry),
    lookup cs n = some e → n ∈ names cs := by
  intro cs n e h
  induction cs with
  | nil => simp [lookup] at h
  | cons hd tl ih =>
    obtain ⟨m, e'⟩ := hd
    rw [lookup_cons] at h
    rw [names_cons]
    by_cases hmn : m = n
    · simp [hmn]
    · rw [if_neg hmn] at h
      exact List.mem_cons_of_mem m (ih h)

theorem lookup_isSome_of_mem : ∀ (cs : Children) (n : String),
    n ∈ names cs → (lookup cs n).isSome = true := by
  intro cs n h
  induction cs with
  | nil => simp [names_nil] at h
  | cons hd tl ih =>
    obtain ⟨m, e⟩ := hd
    rw [lookup_cons]
    by_cases hmn : m = n
    · rw [if_pos hmn]
      rfl
    · rw [if_neg hmn]
      rw [names_cons, List.mem_cons] at h
      rcases h with h | h
      · exact absurd h.symm hmn
      · exact ih h

theorem lookup_of_mem_wf : ∀ (cs : Children) (n : String) (e : FsEntry),
    wfNames cs → (n, e) ∈ cs → lookup cs n = some e := by
  intro cs n e hwf hmem
  induction cs with
  | nil => simp at hmem
  | cons hd tl ih =>
    obtain ⟨m, e'⟩ := hd
    rw [List.mem_cons] at hmem
    rw [lookup_cons]
    rcases hmem with heq | hmem
    · rw [Prod.mk.injEq] at heq
      rw [if_pos heq.1.symm, heq.2]
    · unfold wfNames at hwf
      rw [names_cons, List.nodup_cons] at hwf
      have hne : m ≠ n := by
        intro heq
        apply hwf.1
        rw [heq]
        exact List.mem_map_of_mem Prod.fst hmem
      rw [if_neg hne]
      exact ih hwf.2 hmem

theorem lookup_setChild_self : ∀ (cs : Children) (n : String) (e : FsEntry),
    lookup (setChild cs n e) n = some e := by
  intro cs n e
  induction cs with
  | nil => simp [setChild, lookup]
  | cons hd tl ih =>
    obtain ⟨m, e'⟩ := hd
    rw [setChild_cons]
    by_cases hmn : m = n
    · rw [if_pos hmn, lookup_cons, if_pos rfl]
    · rw [if_neg hmn, lookup_cons, if_neg hmn]
      exact ih

theorem lookup_setChild_other : ∀ (cs : Children) (n k : String) (e : FsEntry),
    k ≠ n → lookup (setChild cs n e) k = lookup cs k := by
  intro cs n k e hkn
  induction cs with
  | nil =>
    show (if n = k then some e else none) = none
    rw [if_neg (fun h => hkn h.symm)]
  | cons hd tl ih =>
    obtain ⟨m, e'⟩ := hd
    rw [setChild_cons]
    by_cases hmn : m = n
    · rw [if_pos hmn, lookup_cons, lookup_cons,
        if_neg (fun h : n = k => hkn h.symm),
        if_neg (fun h : m = k => hkn (h.symm.trans hmn))]
    · rw [if_neg hmn, lookup_cons, lookup_cons]
      by_cases hmk : m = k
      · rw [if_pos hmk, if_pos hmk]
      · rw [if_neg hmk, if_neg hmk]
        exact ih

theorem lookup_removeChild_other : ∀ (cs : Children) (n k : String),
    k ≠ n → lookup (removeChild cs n) k = lookup cs k := by
  intro cs n k hkn
  induction cs with
  | nil => rfl
  | cons hd tl ih =>
    obtain ⟨m, e'⟩ := hd
    rw [removeChild_cons]
    by_cases hmn : m = n
    · rw [if_pos hmn, lookup_cons, if_neg (fun h : m = k => hkn (h.symm.trans hmn))]
    · rw [if_neg hmn, lookup_cons, lookup_cons]
      by_cases hmk : m = k
      · rw [if_pos hmk, if_pos hmk]
      · rw [if_neg hmk, if_neg hmk]
        exact ih

theorem names_removeChild_sublist : ∀ (cs : Children) (n : String),
    List.Sublist (names (removeChild cs n)) (names cs) := by
  intro cs n
  induction cs with
  | nil => simp [removeChild]
  | cons hd tl ih =>
    obtain ⟨m, e⟩ := hd
    rw [removeChild_cons]
    by_cases hmn : m = n
    · rw [if_pos hmn, names_cons]
      exact List.sublist_cons_of_sublist m (List.Sublist.refl _)
    · rw [if_neg hmn, names_cons, names_cons]
      exact List.Sublist.cons₂ m ih

theorem wfNames_removeChild (cs : Children) (n : String) (h : wfNames cs) :
    wfNames (removeChild cs n) :=
  List.Nodup.sublist (names_removeChild_sublist cs n) h

theorem lookup_removeChild_self : ∀ (cs : Children) (n : String),
    wfNames cs → lookup (removeChild cs n) n = none := by
  intro cs n hwf
  induction cs with
  | nil => rfl
  | cons hd tl ih =>
    obtain ⟨m, e⟩ := hd
    unfold wfNames at hwf
    rw [names_cons, List.nodup_cons] at hwf
    rw [removeChild_cons]
    by_cases hmn : m = n
    · rw [if_pos hmn]
      apply lookup_eq_none_of_not_mem
      rw [← hmn]
      exact hwf.1
    · rw [if_neg hmn, lookup_cons, if_neg hmn]
      exact ih hwf.2

theorem names_setChild_mem : ∀ (cs : Children) (n : String) (e : FsEntry),
    n ∈ names cs → names (setChild cs n e) = names cs := by
  intro cs n e h
  induction cs with
  | nil => simp [names_nil] at h
  | cons hd tl ih =>
    obtain ⟨m, e'⟩ := hd
    rw [setChild_cons]
    by_cases hmn : m = n
    · rw [if_pos hmn, names_cons, names_cons, hmn]
    · rw [if_neg hmn, names_cons, names_cons]
      rw [names_cons, List.mem_cons] at h
      rcases h with h | h
      · exact absurd h.symm hmn
      · rw [ih h]

theorem names_setChild_not_mem : ∀ (cs : Children) (n : String) (e : FsEntry),
    n ∉ names cs → names (setChild cs n e) = names cs ++ [n] := by
  intro cs n e h
  induction cs with
  | nil => simp [setChild, names]
  | cons hd tl ih =>
    obtain ⟨m, e'⟩ := hd
    rw [names_cons, List.mem_cons, not_or] at h
    rw [setChild_cons, if_neg (fun hmn => h.1 hmn.symm), names_cons, names_cons,
      List.cons_append, ih h.2]

theorem wfNames_setChild (cs : Children) (n : String) (e : FsEntry) (h : wfNames cs) :
    wfNames (setChild cs n e) := by
  unfold wfNames at h ⊢
  by_cases hm : n ∈ names cs
  · rw [names_setChild_mem cs n e hm]
    exact h
  · rw [names_setChild_not_mem cs n e hm]
    simp [List.nodup_append, h, hm]

theorem wfNames_renameChild (cs : Children) (n tgt : String) (e : FsEntry)
    (h : wfNames cs) : wfNames (renameChild cs n tgt e) :=
  wfNames_setChild _ tgt e (wfNames_removeChild cs n h)

theorem lookup_renameChild_tgt (cs : Children) (n tgt : String) (e : FsEntry) :
    lookup (renameChild cs n tgt e) tgt = some e :=
  lookup_setChild_self _ tgt e

theorem lookup_renameChild_src (cs : Children) (n tgt : String) (e : FsEntry)
    (hwf : wfNames cs) (hne : n ≠ tgt) :
    lookup (renameChild cs n tgt e) n = none := by
  unfold renameChild
  rw [lookup_setChild_other _ _ _ _ hne]
  exact lookup_removeChild_self cs n hwf

theorem lookup_renameChild_other (cs : Children) (n tgt k : String) (e : FsEntry)
    (h1 : k ≠ n) (h2 : k ≠ tgt) :
    lookup (renameChild cs n tgt e) k = lookup cs k := by
  unfold renameChild
  rw [lookup_setChild_other _ _ _ _ h2, lookup_removeChild_other _ _ _ h1]

theorem lookup_append (cs ds : Children) (n : String) :
    lookup (cs ++ ds) n
      = match lookup cs n with
        | some e => some e
        | none => lookup ds n := by
  induction cs with
  | nil => rfl
  | cons hd tl ih =>
    obtain ⟨m, e⟩ := hd
    show lookup ((m, e) :: (tl ++ ds)) n = _
    rw [lookup_cons, lookup_cons]
    by_cases hmn : m = n
    · rw [if_pos hmn, if_pos hmn]
    · rw [if_neg hmn, if_neg hmn]
      exact ih


/-! ### Behavior of one classification step -/

theorem isPrefixL_append_self : ∀ p t : List Char, isPrefixL p (p ++ t) = true := by
  intro p t
  induction p with
  | nil => rfl
  | cons a as ih => simp [isPrefixL, ih]

theorem strEndsWith_append_py (s : String) : strEndsWith (s ++ ".py") ".py" = true := by
  unfold strEndsWith
  rw [String.data_append, List.reverse_append]
  exact isPrefixL_append_self _ _

theorem append_py_inj (a b : String) (h : a ++ ".py" = b ++ ".py") : a = b := by
  have hd := congrArg String.data h
  rw [String.data_append, String.data_append] at hd
  have := List.append_cancel_right hd
  obtain ⟨da⟩ := a
  obtain ⟨db⟩ := b
  exact congrArg String.mk (by simpa using this)

theorem pyStep_py_name (env : Env) (cur : Children) (k : String)
    (hk : strEndsWith k ".py" = true) : pyStep env cur k = (cur, true) := by
  unfold pyStep
  cases hl : lookup cur k with
  | none => rfl
  | some e =>
    cases e with
    | dir dm dcs => rfl
    | file c m =>
      cases h1 : strStartsWith k "__" with
      | true => simp [h1]
      | false => simp [h1, hk]

theorem pyStep_snd_true (env : Env) (cur : Children) (k : String)
    (h : env.openFails k = false) : (pyStep env cur k).2 = true := by
  unfold pyStep
  cases hl : lookup cur k with
  | none => rfl
  | some e =>
    cases e with
    | dir dm dcs => rfl
    | file c m =>
      cases h1 : strStartsWith k "__" with
      | true => simp [h1]
      | false =>
        cases h2 : strEndsWith k ".py" with
        | true => simp [h1, h2]
        | false =>
          cases h4 : env.readFails k with
          | true => simp [h1, h2, h, h4]
          | false =>
            cases h5 : pyHeur (strTake c 500) with
            | false => simp [h1, h2, h, h4, h5]
            | true =>
              cases h6 : env.renameFails k with
              | true => simp [h1, h2, h, h4, h5, h6]
              | false =>
                simp only [h1, h2, h, h4, h5, h6, Bool.false_eq_true, if_false, if_true]
                cases hl2 : lookup cur (k ++ ".py") with
                | none => rfl
                | some e2 =>
                  cases e2 with
                  | dir dm dcs => rfl
                  | file c2 m2 => rfl

theorem pyStep_fst_cases (env : Env) (cur : Children) (k : String) :
    (pyStep env cur k).1 = cur ∨
    ∃ c m, lookup cur k = some (.file c m) ∧
      (pyStep env cur k).1 = renameChild cur k (k ++ ".py") (.file c m) := by
  unfold pyStep
  cases hl : lookup cur k with
  | none => exact Or.inl rfl
  | some e =>
    cases e with
    | dir dm dcs => exact Or.inl rfl
    | file c m =>
      cases h1 : strStartsWith k "__" with
      | true => simp
      | false =>
        cases h2 : strEndsWith k ".py" with
        | true => simp
        | false =>
          cases h3 : env.openFails k with
          | true => simp [h3]
          | false =>
            cases h4 : env.readFails k with
            | true => simp [h3, h4]
            | false =>
              cases h5 : pyHeur (strTake c 500) with
              | false => simp [h3, h4, h5]
              | true =>
                cases h6 : env.renameFails k with
                | true => simp [h3, h4, h5, h6]
                | false =>
                  simp only [h3, h4, h5, h6, Bool.false_eq_true, if_false, if_true]
                  cases hl2 : lookup cur (k ++ ".py") with
                  | none => right; exact ⟨c, m, rfl, rfl⟩
                  | some e2 =>
                    cases e2 with
                    | dir dm dcs => simp
                    | file c2 m2 => right; exact ⟨c, m, rfl, rfl⟩

theorem pyStep_preserves_other (env : Env) (cur : Children) (k x : String)
    (h1 : x ≠ k) (h2 : x ≠ k ++ ".py") :
    lookup (pyStep env cur k).1 x = lookup cur x := by
  rcases pyStep_fst_cases env cur k with h | ⟨c, m, _, h⟩
  · rw [h]
  · rw [h]
    exact lookup_renameChild_other cur k (k ++ ".py") x _ h1 h2

theorem pyStep_wf (env : Env) (cur : Children) (k : String) (hwf : wfNames cur) :
    wfNames (pyStep env cur k).1 := by
  rcases pyStep_fst_cases env cur k with h | ⟨c, m, _, h⟩
  · rw [h]
    exact hwf
  · rw [h]
    exact wfNames_renameChild cur k (k ++ ".py") _ hwf

/-- The classification loop renames a matching file exactly once: a regular
file named `n` (not `__`-prefixed, not `.py`-suffixed) whose first 500
characters look like Python, with no failing call on it and no directory in
the way at `n + ".py"`, ends the loop renamed: `n` is gone and `n + ".py"`
holds its content and mode. -/
theorem pyLoop_renames (env : Env) (n c : String) (m : Nat)
    (hu : strStartsWith n "__" = false) (hpy : strEndsWith n ".py" = false)
    (hheur : pyHeur (strTake c 500) = true)
    (ho : ∀ k, env.openFails k = false)
    (hrd : env.readFails n = false) (hrn : env.renameFails n = false) :
    ∀ (ns : List String) (cur : Children), wfNames cur →
    ((n ∈ ns ∧ lookup cur n = some (.file c m) ∧
        (∀ dm dcs, lookup cur (n ++ ".py") ≠ some (.dir dm dcs)))
      ∨ (lookup cur n = none ∧ lookup cur (n ++ ".py") = some (.file c m))) →
    lookup (pyLoop env ns cur).1 n = none ∧
    lookup (pyLoop env ns cur).1 (n ++ ".py") = some (.file c m) ∧
    (pyLoop env ns cur).2 = true := by
  have hnnepy : n ≠ n ++ ".py" := by
    intro heq
    rw [heq, strEndsWith_append_py] at hpy
    simp at hpy
  intro ns
  induction ns with
  | nil =>
    intro cur hwf hinv
    rcases hinv with ⟨hmem, _⟩ | ⟨h1, h2⟩
    · simp at hmem
    · exact ⟨h1, h2, rfl⟩
  | cons k ns ih =>
    intro cur hwf hinv
    have hstep : pyStep env cur k = ((pyStep env cur k).1, true) := by
      rw [← pyStep_snd_true env cur k (ho k)]
    rw [pyLoop_cons_ok env k ns cur _ hstep]
    by_cases hkn : k = n
    · subst hkn
      rcases hinv with ⟨_, hlk, hnd⟩ | ⟨h1, h2⟩
      · have hren : pyStep env cur k = (renameChild cur k (k ++ ".py") (.file c m), true) :=
          pyStep_rename env cur k c m hlk hu hpy (ho k) hrd hheur hrn hnd
        have hfst : (pyStep env cur k).1 = renameChild cur k (k ++ ".py") (.file c m) := by
          rw [hren]
        rw [hfst]
        refine ih (renameChild cur k (k ++ ".py") (.file c m))
          (wfNames_renameChild cur k _ _ hwf) (Or.inr ⟨?_, ?_⟩)
        · exact lookup_renameChild_src cur k _ _ hwf hnnepy
        · exact lookup_renameChild_tgt cur k _ _
      · have hid : pyStep env cur k = (cur, true) := pyStep_none env cur k h1
        have hfst : (pyStep env cur k).1 = cur := by rw [hid]
        rw [hfst]
        exact ih cur hwf (Or.inr ⟨h1, h2⟩)
    · have hpres_n : lookup (pyStep env cur k).1 n = lookup cur n := by
        apply pyStep_preserves_other env cur k n (fun h => hkn h.symm)
        intro heq
        rw [heq, strEndsWith_append_py] at hpy
        simp at hpy
      have hpres_npy : lookup (pyStep env cur k).1 (n ++ ".py")
          = lookup cur (n ++ ".py") := by
        cases hkpy : strEndsWith k ".py" with
        | true =>
          rw [pyStep_py_name env cur k hkpy]
        | false =>
          apply pyStep_preserves_other env cur k (n ++ ".py")
          · intro heq
            rw [← heq, strEndsWith_append_py] at hkpy
            simp at hkpy
          · intro heq
            exact hkn (append_py_inj n k heq).symm
      refine ih (pyStep env cur k).1 (pyStep_wf env cur k hwf) ?_
      rcases hinv with ⟨hmem, hlk, hnd⟩ | ⟨h1, h2⟩
      · rcases List.mem_cons.mp hmem with heq | hmem'
        · exact absurd heq.symm hkn
        · refine Or.inl ⟨hmem', ?_, ?_⟩
          · rw [hpres_n]
            exact hlk
          · intro dm dcs hcontra
            rw [hpres_npy] at hcontra
            exact hnd dm dcs hcontra
      · refine Or.inr ⟨?_, ?_⟩
        · rw [hpres_n]
          exact h1
        · rw [hpres_npy]
          exact h2


theorem wfNames_append_fresh (cs : Children) (k : String) (e : FsEntry)
    (hwf : wfNames cs) (hk : k ∉ names cs) : wfNames (cs ++ [(k, e)]) := by
  unfold wfNames at hwf ⊢
  rw [names_append, names_cons, names_nil]
  simp [List.nodup_append, hwf, hk]

theorem pyLoop_snd_true (env : Env) (ho : ∀ k, env.openFails k = false) :
    ∀ (ns : List String) (cur : Children), (pyLoop env ns cur).2 = true := by
  intro ns
  induction ns with
  | nil => intro cur; rfl
  | cons k ns ih =>
    intro cur
    have hstep : pyStep env cur k = ((pyStep env cur k).1, true) := by
      rw [← pyStep_snd_true env cur k (ho k)]
    rw [pyLoop_cons_ok env k ns cur _ hstep]
    exact ih _

/-! ### Claim C3 -/

/-- Content of the C3 counterexample file whose classification markers sit
beyond the 500-character read window. -/
def lateMarkerContent : String := String.mk (List.replicate 500 'x') ++ "import def"

/-- C3 counterexample: the claim quantifies over every regular file whose
content contains the markers and whose name lacks `.py`, but the code also
requires the name not to start with `__` and only reads the first 500
characters.  (a) `__x` with marker content is not renamed; (b) `zz` whose
markers all sit beyond the 500-character window is not renamed. -/
theorem C3_counterexample :
    (hasSub "import def" "import" = true ∧ hasSub "import def" "def" = true ∧
     strEndsWith "__x" ".py" = false ∧
     lookup (ensurePythonFiles (stdEnv 0o777 0o644)
        [("__x", .file "import def" 0o600)]).1 "__x.py" = none) ∧
    (hasSub lateMarkerContent "import" = true ∧ hasSub lateMarkerContent "def" = true ∧
     strEndsWith "zz" ".py" = false ∧ strStartsWith "zz" "__" = false ∧
     lookup (ensurePythonFiles (stdEnv 0o777 0o644)
        [("zz", .file lateMarkerContent 0o600)]).1 "zz.py" = none) := by
  refine ⟨⟨by decide, by decide, by decide, rfl⟩,
          ⟨?_, ?_, by decide, by decide, ?_⟩⟩
  · exact hasSub_append_right _ _ _ (by decide)
  · exact hasSub_append_right _ _ _ (by decide)
  · have hl : lookup [("zz", FsEntry.file lateMarkerContent 0o600),
        ("__init__.py", FsEntry.file initPyContent 0o644)] "zz"
        = some (.file lateMarkerContent 0o600) := rfl
    have hstep : pyStep (stdEnv 0o777 0o644) [("zz", .file lateMarkerContent 0o600),
        ("__init__.py", .file initPyContent 0o644)] "zz"
        = ([("zz", .file lateMarkerContent 0o600),
            ("__init__.py", .file initPyContent 0o644)], true) := by
      apply pyStep_nomatch _ _ _ lateMarkerContent 0o600 hl (by decide) (by decide) rfl rfl
      decide
    show lookup (pyLoop (stdEnv 0o777 0o644) ["zz", "__init__.py"]
        [("zz", .file lateMarkerContent 0o600),
         ("__init__.py", .file initPyContent 0o644)]).1 "zz.py" = none
    rw [pyLoop_cons_ok _ _ _ _ _ hstep]
    rfl

/-- C3 as amended: the renaming guarantee holds for a regular file directly
under the plugin directory whose name does not end in `.py` **and does not
start with `__`**, whose import/def/class markers occur **within the first
500 characters**, when no open call fails anywhere, no read or rename call
fails on that file, and no directory sits at the target name: afterwards the
original name is gone and `name + ".py"` holds the same content and mode. -/
theorem C3_amended_classifier_renames (env : Env) (cs : Children) (n c : String) (m : Nat)
    (hwf : wfNames cs)
    (hlk : lookup cs n = some (.file c m))
    (hu : strStartsWith n "__" = false) (hpy : strEndsWith n ".py" = false)
    (hheur : pyHeur (strTake c 500) = true)
    (hnd : ∀ dm dcs, lookup cs (n ++ ".py") ≠ some (.dir dm dcs))
    (ho : ∀ k, env.openFails k = false)
    (hrd : env.readFails n = false) (hrn : env.renameFails n = false) :
    lookup (ensurePythonFiles env cs).1 n = none ∧
    lookup (ensurePythonFiles env cs).1 (n ++ ".py") = some (.file c m) := by
  unfold ensurePythonFiles
  cases hi : (lookup cs "__init__.py").isSome with
  | true =>
    simp only [hi, if_true]
    have h := pyLoop_renames env n c m hu hpy hheur ho hrd hrn (names cs) cs hwf
      (Or.inl ⟨mem_names_of_lookup cs n _ hlk, hlk, hnd⟩)
    exact ⟨h.1, h.2.1⟩
  | false =>
    simp only [hi, Bool.false_eq_true, if_false]
    have hni : "__init__.py" ∉ names cs := by
      intro hmem
      rw [lookup_isSome_of_mem cs _ hmem] at hi
      simp at hi
    have hwf1 : wfNames (cs ++ [("__init__.py", .file initPyContent env.fileMode)]) :=
      wfNames_append_fresh cs _ _ hwf hni
    have hlk1 : lookup (cs ++ [("__init__.py", .file initPyContent env.fileMode)]) n
        = some (.file c m) := by
      rw [lookup_append, hlk]
    have hnd1 : ∀ dm dcs,
        lookup (cs ++ [("__init__.py", .file initPyContent env.fileMode)]) (n ++ ".py")
          ≠ some (.dir dm dcs) := by
      intro dm dcs hcontra
      rw [lookup_append] at hcontra
      cases hl : lookup cs (n ++ ".py") with
      | some e =>
        rw [hl] at hcontra
        exact hnd dm dcs (hl.trans hcontra)
      | none =>
        rw [hl] at hcontra
        rw [lookup_cons] at hcontra
        by_cases hname : "__init__.py" = n ++ ".py"
        · rw [if_pos hname] at hcontra
          simp at hcontra
        · rw [if_neg hname] at hcontra
          simp [lookup] at hcontra
    have h := pyLoop_renames env n c m hu hpy hheur ho hrd hrn
      (names (cs ++ [("__init__.py", .file initPyContent env.fileMode)])) _ hwf1
      (Or.inl ⟨mem_names_of_lookup _ n _ hlk1, hlk1, hnd1⟩)
    exact ⟨h.1, h.2.1⟩

/-- Witness for the amended C3 at a concrete input: an extensionless Python
file is renamed, content and mode intact. -/
theorem C3_amended_witness :
    lookup (ensurePythonFiles (stdEnv 0o777 0o644)
      [("foo", .file "import os\ndef run():\n    pass" 0o600)]).1 "foo" = none ∧
    lookup (ensurePythonFiles (stdEnv 0o777 0o644)
      [("foo", .file "import os\ndef run():\n    pass" 0o600)]).1 "foo.py"
      = some (.file "import os\ndef run():\n    pass" 0o600) :=
  C3_amended_classifier_renames (stdEnv 0o777 0o644)
    [("foo", .file "import os\ndef run():\n    pass" 0o600)]
    "foo" "import os\ndef run():\n    pass" 0o600
    (by decide) rfl (by decide) (by decide) (by decide)
    (by intro dm dcs h; simp [lookup] at h)
    (fun _ => rfl) rfl rfl

/-! ### Claim C4 -/

/-- Environment of the C4 counterexample: opening the file `f1` for reading
fails; nothing else fails. -/
def c4CexEnv : Env :=
  ⟨0o777, 0o644, fun _ => false, fun _ => false, fun k => k == "f1", fun _ => false,
   fun _ => false, fun _ => false, fun _ => false⟩

/-- C4 counterexample: an open failure on one file in `ensure_python_files`
is *not* caught (the `try` starts only at the read), so the run terminates
and the remaining entry `f2` — a Python-looking file — is never examined or
renamed.  This refutes the claim that every per-file read failure is caught
and the pipeline continues with remaining entries. -/
theorem C4_counterexample :
    (main c4CexEnv ⟨some (.dir 0o700 [("f1", .file "x" 0o600),
        ("f2", .file "import def" 0o600)]), none⟩).2 = false ∧
    hasName (dirListing (main c4CexEnv ⟨some (.dir 0o700 [("f1", .file "x" 0o600),
        ("f2", .file "import def" 0o600)]), none⟩).1) "f2.py" = false :=
  ⟨rfl, rfl⟩

/-- C4 as amended: every decode/read failure *after a successful open*, and
every rename failure, in the classification pass is caught and only skips
its entry — the pass always completes when no open call fails; and a whole
run on a directory state completes (per-file failures in the linting pass
are likewise all caught, its loop being total).  An open failure itself,
however, is uncaught (see the counterexample). -/
theorem C4_amended_per_file_failures_caught (env : Env)
    (ho : ∀ k, env.openFails k = false) :
    (∀ cs : Children, (ensurePythonFiles env cs).2 = true) ∧
    (∀ (s : FsState) (m : Nat) (cs : Children), s.cogs = some (.dir m cs) →
      (main env s).2 = true) := by
  have h1 : ∀ cs : Children, (ensurePythonFiles env cs).2 = true := by
    intro cs
    unfold ensurePythonFiles
    exact pyLoop_snd_true env ho _ _
  refine ⟨h1, ?_⟩
  intro s m cs hc
  have he : ensureCogsDirectory env s = (⟨some (.dir m cs), s.bak⟩, true) := by
    unfold ensureCogsDirectory
    rw [hc]
  obtain ⟨cs2, hcs2⟩ : ∃ cs2, ensurePythonFiles env cs = (cs2, true) :=
    ⟨(ensurePythonFiles env cs).1, by rw [← h1 cs]⟩
  unfold main
  rw [he]
  simp only [Bool.not_true, Bool.false_eq_true, if_false, hcs2]

/-- Witness for the amended C4 at a concrete input: with read failures on
both files but no open failure, the classification pass and the whole run
still complete. -/
theorem C4_amended_witness :
    (main ⟨0o777, 0o644, fun _ => false, fun _ => false, fun _ => false,
        fun _ => true, fun _ => false, fun _ => false, fun _ => false⟩
      ⟨some (.dir 0o700 [("f1", .file "x" 0o600), ("f2", .file "import def" 0o600)]),
       none⟩).2 = true :=
  (C4_amended_per_file_failures_caught _ (fun _ => rfl)).2 _ 0o700 _ rfl


/-! ### The extracted class name is an infix of the content -/

theorem splitOnLF_head_prefix (sep : List Char) :
    ∀ (fuel : Nat) (s t : List Char) (ts : List (List Char)),
      splitOnLF sep fuel s = t :: ts → t <+: s := by
  intro fuel
  induction fuel with
  | zero =>
    intro s t ts h
    simp only [splitOnLF] at h
    rw [(List.cons.injEq .. |>.mp h).1.symm]
  | succ fuel ih =>
    intro s t ts h
    cases s with
    | nil =>
      simp only [splitOnLF] at h
      rw [(List.cons.injEq .. |>.mp h).1.symm]
    | cons c cs =>
      simp only [splitOnLF] at h
      by_cases hp : isPrefixL sep (c :: cs) = true
      · rw [if_pos hp] at h
        rw [(List.cons.injEq .. |>.mp h).1.symm]
        exact List.nil_prefix
      · rw [if_neg hp] at h
        cases hrec : splitOnLF sep fuel cs with
        | nil =>
          rw [hrec] at h
          rw [(List.cons.injEq .. |>.mp h).1.symm]
          simp
        | cons t' ts' =>
          rw [hrec] at h
          rw [(List.cons.injEq .. |>.mp h).1.symm]
          exact List.cons_prefix_cons.mpr ⟨rfl, ih cs t' ts' hrec⟩

theorem splitOnLF_mem_within (sep : List Char) :
    ∀ (fuel : Nat) (s x : List Char), x ∈ splitOnLF sep fuel s → x <:+: s := by
  intro fuel
  induction fuel with
  | zero =>
    intro s x h
    simp only [splitOnLF, List.mem_singleton] at h
    rw [h]
  | succ fuel ih =>
    intro s x h
    cases s with
    | nil =>
      simp only [splitOnLF, List.mem_singleton] at h
      rw [h]
    | cons c cs =>
      simp only [splitOnLF] at h
      by_cases hp : isPrefixL sep (c :: cs) = true
      · rw [if_pos hp] at h
        rcases List.mem_cons.mp h with h | h
        · rw [h]
          exact List.nil_infix
        · exact (ih _ x h).trans (List.IsSuffix.isInfix (List.drop_suffix _ _))
      · rw [if_neg hp] at h
        cases hrec : splitOnLF sep fuel cs with
        | nil =>
          rw [hrec] at h
          simp only [List.mem_singleton] at h
          rw [h]
          exact ⟨[], cs, by simp⟩
        | cons t' ts' =>
          rw [hrec] at h
          rcases List.mem_cons.mp h with h | h
          · rw [h]
            rcases splitOnLF_head_prefix sep fuel cs t' ts' hrec with ⟨u, hu⟩
            exact ⟨[], u, by simp [hu]⟩
          · exact List.infix_cons (ih cs x (by rw [hrec]; exact List.mem_cons_of_mem _ h))

theorem splitOnL_mem_within (sep s x : List Char) (h : x ∈ splitOnL sep s) : x <:+: s :=
  splitOnLF_mem_within sep _ s x h

theorem getD_mem_or_default (l : List (List Char)) (i : Nat) (d : List Char) :
    l.getD i d ∈ l ∨ l.getD i d = d := by
  by_cases h : i < l.length
  · left
    rw [List.getD_eq_getElem l d h]
    exact List.getElem_mem h
  · right
    exact List.getD_eq_default l d (by omega)

theorem headD_mem_or_default (l : List (List Char)) (d : List Char) :
    l.headD d ∈ l ∨ l.headD d = d := by
  cases l with
  | nil => right; rfl
  | cons x xs => left; simp

theorem trimL_within (s : List Char) : trimL s <:+: s := by
  unfold trimL
  have h1 : s.dropWhile isPySpace <:+ s := List.dropWhile_suffix _
  have h2 : ((s.dropWhile isPySpace).reverse.dropWhile isPySpace).reverse
      <+: s.dropWhile isPySpace := by
    have := List.dropWhile_suffix (l := (s.dropWhile isPySpace).reverse) (p := isPySpace)
    have hrev := this.reverse
    simpa using hrev
  exact h2.isInfix.trans h1.isInfix

theorem extractCogName_within (content : String) (nm : String)
    (h : extractCogName content = some nm) : nm.data <:+: content.data := by
  unfold extractCogName at h
  cases hf : (splitOnL [ '\n' ] content.data).find?
      (fun l => containsL "class".data l && containsL "(commands.Cog)".data l) with
  | none => rw [hf] at h; simp at h
  | some l =>
    rw [hf] at h
    simp only [Option.some.injEq] at h
    have hlmem : l ∈ splitOnL [ '\n' ] content.data := List.mem_of_find?_eq_some hf
    have hlinf : l <:+: content.data := splitOnL_mem_within _ _ l hlmem
    have hseg : (splitOnL "class".data l).getD 1 [] <:+: l := by
      rcases getD_mem_or_default (splitOnL "class".data l) 1 [] with hm | hd
      · exact splitOnL_mem_within _ _ _ hm
      · rw [hd]
        exact List.nil_infix
    have hhead : (splitOnL "(".data ((splitOnL "class".data l).getD 1 [])).headD []
        <:+: (splitOnL "class".data l).getD 1 [] := by
      rcases headD_mem_or_default (splitOnL "(".data ((splitOnL "class".data l).getD 1 []))
          [] with hm | hd
      · exact splitOnL_mem_within _ _ _ hm
      · rw [hd]
        exact List.nil_infix
    have hnm : nm.data = trimL ((splitOnL "(".data
        ((splitOnL "class".data l).getD 1 [])).headD []) := by
      rw [← h]
    rw [hnm]
    exact ((trimL_within _).trans (hhead.trans hseg)).trans hlinf

theorem extractCogName_marker (content : String) (nm : String)
    (h : extractCogName content = some nm) : hasSub content "commands.Cog" = true := by
  unfold extractCogName at h
  cases hf : (splitOnL [ '\n' ] content.data).find?
      (fun l => containsL "class".data l && containsL "(commands.Cog)".data l) with
  | none => rw [hf] at h; simp at h
  | some l =>
    have hlp := List.find?_some hf
    simp only [Bool.and_eq_true] at hlp
    have hlmem : l ∈ splitOnL [ '\n' ] content.data := List.mem_of_find?_eq_some hf
    have hlinf : l <:+: content.data := splitOnL_mem_within _ _ l hlmem
    rw [hasSub_iff]
    have h1 : "commands.Cog".data <:+: "(commands.Cog)".data := by decide
    have h2 : "(commands.Cog)".data <:+: l := (containsL_iff l _).mp hlp.2
    exact (h1.trans h2).trans hlinf


/-! ### Occurrence counting -/

theorem countOcc_cons (pat : List Char) (c : Char) (z : List Char) :
    countOcc pat (c :: z) = (if isPrefixL pat (c :: z) then 1 else 0) + countOcc pat z := rfl

theorem countOcc_cons_neg (pat : List Char) (c : Char) (z : List Char)
    (h : isPrefixL pat (c :: z) = false) : countOcc pat (c :: z) = countOcc pat z := by
  rw [countOcc_cons, h]
  simp

theorem countOcc_cons_pos (pat : List Char) (c : Char) (z : List Char)
    (h : isPrefixL pat (c :: z) = true) : countOcc pat (c :: z) = 1 + countOcc pat z := by
  rw [countOcc_cons, h]
  simp

theorem prefix_append_cases (pat u b : List Char) (h : pat <+: u ++ b) :
    pat <+: u ∨ u <+: pat := by
  rcases Nat.le_total pat.length u.length with hle | hle
  · left
    exact (List.isPrefix_append_of_length (by simpa using hle)).mp h
  · right
    exact List.prefix_of_prefix_length_le (List.prefix_append u b) h (by simpa using hle)

theorem countOcc_eq_zero_of_not_contains (pat : List Char) :
    ∀ s : List Char, containsL pat s = false → countOcc pat s = 0 := by
  intro s h
  induction s with
  | nil =>
    unfold containsL at h
    unfold countOcc
    rw [h]
    simp
  | cons c cs ih =>
    unfold containsL at h
    simp only [Bool.or_eq_false_iff] at h
    rw [countOcc_cons_neg pat c cs h.1, ih h.2]

theorem containsL_false_of_infix_false (pat s : List Char)
    (h : ¬ (pat <:+: s)) : containsL pat s = false := by
  cases hc : containsL pat s with
  | false => rfl
  | true => exact absurd ((containsL_iff s pat).mp hc) h

theorem containsL_head_false (pat : List Char) (c : Char) (cs : List Char)
    (h : containsL pat (c :: cs) = false) : isPrefixL pat (c :: cs) = false := by
  unfold containsL at h
  simp only [Bool.or_eq_false_iff] at h
  exact h.1

theorem containsL_tail_false (pat : List Char) (c : Char) (cs : List Char)
    (h : containsL pat (c :: cs) = false) : containsL pat cs = false := by
  unfold containsL at h
  simp only [Bool.or_eq_false_iff] at h
  exact h.2

theorem containsL_append_false (pat : List Char) :
    ∀ (a b : List Char), containsL pat a = false → containsL pat b = false →
    (∀ i, i < a.length → ¬ ((a.drop i) <+: pat)) →
    containsL pat (a ++ b) = false := by
  intro a
  induction a with
  | nil =>
    intro b _ h2 _
    simpa using h2
  | cons c a2 ih =>
    intro b h1 h2 hcross
    show containsL pat (c :: (a2 ++ b)) = false
    unfold containsL
    simp only [Bool.or_eq_false_iff]
    constructor
    · cases hp : isPrefixL pat (c :: (a2 ++ b)) with
      | false => rfl
      | true =>
        exfalso
        have hpre : pat <+: (c :: a2) ++ b := by
          rw [isPrefixL_iff] at hp
          simpa using hp
        rcases prefix_append_cases pat (c :: a2) b hpre with hc | hc
        · rw [← isPrefixL_iff] at hc
          rw [containsL_head_false pat c a2 h1] at hc
          simp at hc
        · exact hcross 0 (by simp) (by simpa using hc)
    · refine ih b (containsL_tail_false pat c a2 h1) h2 ?_
      intro i hi
      exact hcross (i + 1) (by simpa using Nat.succ_lt_succ hi)

theorem containsL_append_false_pat_tail (pat : List Char) :
    ∀ (a b : List Char), containsL pat a = false → containsL pat b = false →
    (∀ k, 0 < k → k < pat.length → ¬ ((pat.drop k) <+: b)) →
    containsL pat (a ++ b) = false := by
  intro a
  induction a with
  | nil =>
    intro b _ h2 _
    simpa using h2
  | cons c a2 ih =>
    intro b h1 h2 h3
    show containsL pat (c :: (a2 ++ b)) = false
    unfold containsL
    simp only [Bool.or_eq_false_iff]
    constructor
    · cases hp : isPrefixL pat (c :: (a2 ++ b)) with
      | false => rfl
      | true =>
        exfalso
        have hpre : pat <+: (c :: a2) ++ b := by
          rw [isPrefixL_iff] at hp
          simpa using hp
        rcases prefix_append_cases pat (c :: a2) b hpre with hc | hc
        · rw [← isPrefixL_iff] at hc
          rw [containsL_head_false pat c a2 h1] at hc
          simp at hc
        · obtain ⟨t, ht⟩ := hc
          cases t with
          | nil =>
            rw [List.append_nil] at ht
            have hpp : isPrefixL pat (c :: a2) = true := by
              rw [isPrefixL_iff, ← ht]
            rw [containsL_head_false pat c a2 h1] at hpp
            simp at hpp
          | cons t0 ts =>
            have htb : (t0 :: ts) <+: b := by
              have hq := hpre
              rw [← ht] at hq
              exact (List.prefix_append_right_inj (c :: a2)).mp hq
            have hdrop : pat.drop (c :: a2).length = t0 :: ts := by
              rw [← ht]
              exact List.drop_left _ _
            have hlen : (c :: a2).length + (t0 :: ts).length = pat.length := by
              rw [← ht]
              exact (List.length_append _ _).symm
            have hts : 0 < (t0 :: ts).length := by simp
            refine h3 (c :: a2).length (by simp) ?_ (hdrop ▸ htb)
            omega
    · exact ih b (containsL_tail_false pat c a2 h1) h2 h3

theorem countOcc_append_newline (pat : List Char) (hnl : ¬ ('\n' ∈ pat)) :
    ∀ (xs ys : List Char), containsL pat xs = false →
    countOcc pat (xs ++ '\n' :: ys) = countOcc pat ('\n' :: ys) := by
  intro xs
  induction xs with
  | nil => intro ys _; rfl
  | cons c xs2 ih =>
    intro ys h1
    show countOcc pat (c :: (xs2 ++ '\n' :: ys)) = _
    rw [countOcc_cons_neg pat c _ ?_, ih ys (containsL_tail_false pat c xs2 h1)]
    cases hp : isPrefixL pat (c :: (xs2 ++ '\n' :: ys)) with
    | false => rfl
    | true =>
      exfalso
      have hpre : pat <+: (c :: xs2) ++ '\n' :: ys := by
        rw [isPrefixL_iff] at hp
        simpa using hp
      rcases prefix_append_cases pat (c :: xs2) _ hpre with hc | hc
      · rw [← isPrefixL_iff] at hc
        rw [containsL_head_false pat c xs2 h1] at hc
        simp at hc
      · obtain ⟨t, ht⟩ := hc
        cases t with
        | nil =>
          rw [List.append_nil] at ht
          have hpp : isPrefixL pat (c :: xs2) = true := by
            rw [isPrefixL_iff, ← ht]
          rw [containsL_head_false pat c xs2 h1] at hpp
          simp at hpp
        | cons t0 ts =>
          have htb : (t0 :: ts) <+: '\n' :: ys := by
            have hq := hpre
            rw [← ht] at hq
            exact (List.prefix_append_right_inj (c :: xs2)).mp hq
          have ht0 : t0 = '\n' := (List.cons_prefix_cons.mp htb).1
          apply hnl
          rw [← ht, ht0]
          exact List.mem_append_right _ (List.mem_cons_self _ _)

theorem countOcc_append_of_no_start (pat : List Char) :
    ∀ (xs R : List Char),
    (∀ i, i < xs.length → isPrefixL pat (xs.drop i ++ R) = false) →
    countOcc pat (xs ++ R) = countOcc pat R := by
  intro xs
  induction xs with
  | nil => intro R _; rfl
  | cons c xs2 ih =>
    intro R hyp
    show countOcc pat (c :: (xs2 ++ R)) = _
    rw [countOcc_cons_neg pat c _ ?_, ih R ?_]
    · intro i hi
      exact hyp (i + 1) (by simpa using Nat.succ_lt_succ hi)
    · have hq := hyp 0 (by simp)
      simpa using hq

theorem countOcc_self_append (pat : List Char) (hne : pat ≠ [])
    (hso : ∀ k, 0 < k → k < pat.length → ¬ ((pat.drop k) <+: pat)) (R : List Char) :
    countOcc pat (pat ++ R) = 1 + countOcc pat R := by
  cases hp : pat with
  | nil => exact absurd hp hne
  | cons p0 prest =>
    subst hp
    show countOcc (p0 :: prest) (p0 :: (prest ++ R)) = _
    rw [countOcc_cons_pos (p0 :: prest) p0 (prest ++ R) ?_]
    · congr 1
      apply countOcc_append_of_no_start
      intro i hi
      cases hpp : isPrefixL (p0 :: prest) (prest.drop i ++ R) with
      | false => rfl
      | true =>
        exfalso
        have hpre : (p0 :: prest) <+: prest.drop i ++ R := (isPrefixL_iff _ _).mp hpp
        rcases prefix_append_cases _ _ _ hpre with hc | hc
        · have hl := hc.length_le
          simp [List.length_drop] at hl
          omega
        · have hcontra := hso (i + 1) (by omega) (by simp; omega)
          apply hcontra
          simpa using hc
    · have hq := isPrefixL_append_self (p0 :: prest) R
      simpa using hq


/-! ### The synthesized entry point occurs exactly once -/

theorem isPrefixL_setup_newline (z : List Char) :
    isPrefixL "async def setup".data ('\n' :: z) = false := rfl

theorem hasSub_setupText (c nm : String) :
    hasSub (c ++ setupText nm) "async def setup" = true := by
  show hasSub (c ++ (("\n\nasync def setup(bot):\n    await bot.add_cog(" ++ nm)
      ++ "(bot))\n")) "async def setup" = true
  apply hasSub_append_right
  apply hasSub_append_left
  apply hasSub_append_left
  decide

theorem countOcc_setupText (c nm : String)
    (hc : containsL "async def setup".data c.data = false)
    (hnm : containsL "async def setup".data nm.data = false) :
    countOcc "async def setup".data (c ++ setupText nm).data = 1 := by
  have hdata : (c ++ setupText nm).data
      = c.data ++ ('\n' :: '\n' :: ("async def setup".data
          ++ ("(bot):\n    await bot.add_cog(".data
            ++ (nm.data ++ "(bot))\n".data)))) := by
    show (c ++ (("\n\nasync def setup(bot):\n    await bot.add_cog(" ++ nm)
        ++ "(bot))\n")).data = _
    simp [String.data_append, List.append_assoc]
  rw [hdata]
  have hnl : ¬ ('\n' ∈ "async def setup".data) := by decide
  rw [countOcc_append_newline _ hnl _ _ hc]
  rw [countOcc_cons_neg _ _ _ (isPrefixL_setup_newline _)]
  rw [countOcc_cons_neg _ _ _ (isPrefixL_setup_newline _)]
  have hso0 : ∀ k < ("async def setup".data).length,
      0 < k → ¬ ((List.drop k "async def setup".data) <+: "async def setup".data) := by
    decide
  rw [countOcc_self_append _ (by decide)
    (fun k hk1 hk2 => hso0 k hk2 hk1)]
  have hmid : containsL "async def setup".data "(bot):\n    await bot.add_cog(".data
      = false := by decide
  have hft : containsL "async def setup".data "(bot))\n".data = false := by decide
  have h3b0 : ∀ k < ("async def setup".data).length, 0 < k →
      ¬ ((List.drop k "async def setup".data) <+: "(bot))\n".data) := by decide
  have htail : containsL "async def setup".data (nm.data ++ "(bot))\n".data) = false :=
    containsL_append_false_pat_tail _ _ _ hnm hft
      (fun k hk1 hk2 => h3b0 k hk2 hk1)
  have hcross0 : ∀ i < ("(bot):\n    await bot.add_cog(".data).length,
      ¬ ((List.drop i "(bot):\n    await bot.add_cog(".data) <+: "async def setup".data) := by
    decide
  have hzero : containsL "async def setup".data
      ("(bot):\n    await bot.add_cog(".data ++ (nm.data ++ "(bot))\n".data)) = false :=
    containsL_append_false _ _ _ hmid htail hcross0
  rw [countOcc_eq_zero_of_not_contains _ _ hzero]

/-! ### The linter loop touches only its own entry -/

theorem cogStep_shape (env : Env) (cur : Children) (k : String) :
    cogStep env cur k = cur ∨ ∃ e, cogStep env cur k = setChild cur k e := by
  simp only [cogStep]
  repeat' first
  | (left; rfl)
  | (right; exact ⟨_, rfl⟩)
  | split

theorem cogStep_preserves_other (env : Env) (cur : Children) (k n : String)
    (hne : n ≠ k) : lookup (cogStep env cur k) n = lookup cur n := by
  rcases cogStep_shape env cur k with h | ⟨e, h⟩
  · rw [h]
  · rw [h, lookup_setChild_other cur k n e hne]

theorem cogStep_wf (env : Env) (cur : Children) (k : String)
    (hwf : wfNames cur) : wfNames (cogStep env cur k) := by
  rcases cogStep_shape env cur k with h | ⟨e, h⟩
  · rw [h]; exact hwf
  · rw [h]; exact wfNames_setChild cur k e hwf

theorem cogLoop_appends (env : Env) (n nm c : String) (m : Nat)
    (h0 : (strEndsWith n ".py" && !(strStartsWith n "__")) = true)
    (h1 : env.vErrFails n = false)
    (h2 : hasSub c "async def setup" = false)
    (h3 : hasSub c "commands.Cog" = true)
    (h4 : extractCogName c = some nm)
    (h5 : nm ≠ "")
    (h6 : env.vWriteFails n = false) :
    ∀ (ns : List String) (cur : Children), wfNames cur →
    ((lookup cur n = some (.file c m) ∧ n ∈ ns) ∨
      lookup cur n = some (.file (c ++ setupText nm) m)) →
    lookup (cogLoop env ns cur) n = some (.file (c ++ setupText nm) m) := by
  intro ns
  induction ns with
  | nil =>
    intro cur _ hinv
    rcases hinv with ⟨_, hmem⟩ | hdone
    · simp at hmem
    · simpa [cogLoop_nil] using hdone
  | cons k ns ih =>
    intro cur hwf hinv
    rw [cogLoop_cons]
    by_cases hk : n = k
    · subst hk
      rcases hinv with ⟨hl, _⟩ | hdone
      · have hstep := cogStep_append env cur n c m nm h0 hl h1 h2 h3 h4 h5 h6
        refine ih (cogStep env cur n) ?_ (Or.inr ?_)
        · exact cogStep_wf env cur n hwf
        · rw [hstep]
          exact lookup_setChild_self cur n (.file (c ++ setupText nm) m)
      · have hstep := cogStep_hasSetup env cur n (c ++ setupText nm) m h0 hdone h1
          (hasSub_setupText c nm)
        refine ih (cogStep env cur n) (cogStep_wf env cur n hwf) (Or.inr ?_)
        rw [hstep]
        exact hdone
    · have hpres := cogStep_preserves_other env cur k n hk
      refine ih (cogStep env cur k) (cogStep_wf env cur k hwf) ?_
      rcases hinv with ⟨hl, hmem⟩ | hdone
      · rcases List.mem_cons.mp hmem with heq | hmem2
        · exact absurd heq hk
        · exact Or.inl ⟨hpres.trans hl, hmem2⟩
      · exact Or.inr (hpres.trans hdone)


/-! ### Claim C5: the StructuralLinter append -/

/-- C5 (counterexample).  The content `"class(commands.Cog):\n    pass\n"`
satisfies every premise of the claim: the file name `a.py` ends in `.py`,
the content has a line containing both `class` and `(commands.Cog)`, and it
does not contain `async def setup`.  Yet line 116 extracts the class name as
`content.split('class')[1].split('(')[0].strip()`, which here is the empty
string, so line 117's guard skips the append: after `verify_cog_files` the
file is unchanged and contains zero entry-point setup functions, not exactly
one. -/
theorem C5_counterexample :
    (strEndsWith "a.py" ".py" && !(strStartsWith "a.py" "__")) = true ∧
    (∃ l ∈ splitOnL [ '\n' ] "class(commands.Cog):\n    pass\n".data,
      (containsL "class".data l && containsL "(commands.Cog)".data l) = true) ∧
    hasSub "class(commands.Cog):\n    pass\n" "async def setup" = false ∧
    lookup (verifyCogFiles (stdEnv 493 420)
        [("a.py", .file "class(commands.Cog):\n    pass\n" 420)]) "a.py"
      = some (.file "class(commands.Cog):\n    pass\n" 420) ∧
    countOcc "async def setup".data "class(commands.Cog):\n    pass\n".data = 0 := by
  refine ⟨by decide, by decide, by decide, rfl, by decide⟩

/-- C5 (amended).  For a `.py` file (name not starting in `__`) whose content
has the `commands.Cog` marker but no `async def setup`, WHEN the extracted
class name is non-empty and neither the read nor the write of that file
fails, `verify_cog_files` replaces the file's content by the original with
the synthesized entry point appended; the new content starts with the old
content (append only), contains exactly one occurrence of
`async def setup`, and the appended text registers exactly the extracted
class name through `add_cog`. -/
theorem C5_amended_linter_appends_setup (env : Env) (cs : Children)
    (n nm c : String) (m : Nat)
    (hwf : wfNames cs)
    (h0 : (strEndsWith n ".py" && !(strStartsWith n "__")) = true)
    (hl : lookup cs n = some (.file c m))
    (h1 : env.vErrFails n = false)
    (h2 : hasSub c "async def setup" = false)
    (h3 : hasSub c "commands.Cog" = true)
    (h4 : extractCogName c = some nm)
    (h5 : nm ≠ "")
    (h6 : env.vWriteFails n = false) :
    lookup (verifyCogFiles env cs) n = some (.file (c ++ setupText nm) m) ∧
    countOcc "async def setup".data (c ++ setupText nm).data = 1 ∧
    strStartsWith (c ++ setupText nm) c = true ∧
    hasSub (setupText nm) ("add_cog(" ++ nm ++ "(bot))") = true := by
  have h2c : containsL "async def setup".data c.data = false := h2
  refine ⟨?_, ?_, ?_, ?_⟩
  · show lookup (cogLoop env (names cs) cs) n = _
    exact cogLoop_appends env n nm c m h0 h1 h2 h3 h4 h5 h6 (names cs) cs hwf
      (Or.inl ⟨hl, mem_names_of_lookup cs n _ hl⟩)
  · have hnm : containsL "async def setup".data nm.data = false := by
      apply containsL_false_of_infix_false
      intro hP
      have hPc := hP.trans (extractCogName_within c nm h4)
      have hc2 := (containsL_iff c.data "async def setup".data).mpr hPc
      rw [h2c] at hc2
      simp at hc2
    exact countOcc_setupText c nm h2c hnm
  · show isPrefixL c.data (c ++ setupText nm).data = true
    rw [String.data_append]
    exact isPrefixL_append_self _ _
  · rw [hasSub_iff]
    refine ⟨"\n\nasync def setup(bot):\n    await bot.".data, [ '\n' ], ?_⟩
    simp [setupText, String.data_append, List.append_assoc]

/-- C5 (witness): the amended theorem applied to a one-file listing holding
`import discord\nclass Music(commands.Cog):\n    pass`, whose extracted
class name is `Music`. -/
theorem C5_amended_witness :
    lookup (verifyCogFiles (stdEnv 493 420)
        [("music.py",
          .file "import discord\nclass Music(commands.Cog):\n    pass" 420)])
        "music.py"
      = some (.file ("import discord\nclass Music(commands.Cog):\n    pass"
          ++ setupText "Music") 420) ∧
    countOcc "async def setup".data
      ("import discord\nclass Music(commands.Cog):\n    pass"
        ++ setupText "Music").data = 1 ∧
    strStartsWith
      ("import discord\nclass Music(commands.Cog):\n    pass" ++ setupText "Music")
      "import discord\nclass Music(commands.Cog):\n    pass" = true ∧
    hasSub (setupText "Music") ("add_cog(" ++ "Music" ++ "(bot))") = true :=
  C5_amended_linter_appends_setup (stdEnv 493 420)
    [("music.py",
      .file "import discord\nclass Music(commands.Cog):\n    pass" 420)]
    "music.py" "Music" "import discord\nclass Music(commands.Cog):\n    pass" 420
    (by decide) (by decide) rfl rfl (by decide) (by decide) (by decide)
    (by decide) rfl


/-! ### Toward idempotence: loop fixed points and small preservation lemmas -/

theorem lookup_mem : ∀ (cs : Children) (n : String) (e : FsEntry),
    lookup cs n = some e → (n, e) ∈ cs := by
  intro cs n e h
  induction cs with
  | nil => simp [lookup] at h
  | cons hd tl ih =>
    obtain ⟨m, e2⟩ := hd
    rw [lookup_cons] at h
    by_cases hmn : m = n
    · rw [if_pos hmn] at h
      subst hmn
      cases h
      exact List.mem_cons_self _ _
    · rw [if_neg hmn] at h
      exact List.mem_cons_of_mem _ (ih h)

theorem not_mem_of_lookup_none (cs : Children) (n : String)
    (h : lookup cs n = none) : n ∉ names cs := by
  intro hmem
  have hs := lookup_isSome_of_mem cs n hmem
  rw [h] at hs
  simp at hs

theorem pyLoop_id (env : Env) :
    ∀ (ns : List String) (cs : Children),
    (∀ n, n ∈ ns → pyStep env cs n = (cs, true)) →
    pyLoop env ns cs = (cs, true) := by
  intro ns
  induction ns with
  | nil => intro cs _; rfl
  | cons k ns ih =>
    intro cs h
    show (match pyStep env cs k with
      | (cur2, true) => pyLoop env ns cur2
      | (cur2, false) => (cur2, false)) = (cs, true)
    rw [h k (List.mem_cons_self _ _)]
    exact ih cs (fun n hn => h n (List.mem_cons_of_mem _ hn))

theorem cogLoop_id (env : Env) :
    ∀ (ns : List String) (cs : Children),
    (∀ n, n ∈ ns → cogStep env cs n = cs) →
    cogLoop env ns cs = cs := by
  intro ns
  induction ns with
  | nil => intro cs _; rfl
  | cons k ns ih =>
    intro cs h
    rw [cogLoop_cons, h k (List.mem_cons_self _ _)]
    exact ih cs (fun n hn => h n (List.mem_cons_of_mem _ hn))

theorem copyExistingCogs_id (env : Env) (cs : Children)
    (hu : (lookup cs "user_commands.py").isSome = true)
    (ha : (lookup cs "admin_commands.py").isSome = true) :
    copyExistingCogs env cs = cs := by
  unfold copyExistingCogs
  simp only [hu, if_true, ha]

theorem createSampleCog_id (env : Env) (cs : Children)
    (hu : "user_commands.py" ∈ names cs) :
    createSampleCog env cs = cs := by
  unfold createSampleCog
  have hmem : "user_commands.py" ∈ (names cs).filter
      (fun f => strEndsWith f ".py" && !(strStartsWith f "__")) :=
    List.mem_filter.mpr ⟨hu, by decide⟩
  have hne : (names cs).filter
      (fun f => strEndsWith f ".py" && !(strStartsWith f "__")) ≠ [] :=
    List.ne_nil_of_mem hmem
  simp only [List.isEmpty_eq_false_iff_exists_mem.mpr ⟨_, hmem⟩]
  simp

theorem normalizedL_lookup_file : ∀ (cs : Children) (n c : String) (m : Nat),
    normalizedL cs = true → lookup cs n = some (.file c m) → m = 0o644 := by
  intro cs
  induction cs with
  | nil => intro n c m _ h; simp [lookup] at h
  | cons hd tl ih =>
    intro n c m hnorm h
    obtain ⟨k, e⟩ := hd
    rw [lookup_cons] at h
    cases e with
    | file c2 m2 =>
      rw [normalizedL] at hnorm
      simp only [Bool.and_eq_true, beq_iff_eq] at hnorm
      by_cases hkn : k = n
      · rw [if_pos hkn] at h
        cases h
        exact hnorm.1
      · rw [if_neg hkn] at h
        exact ih n c m hnorm.2 h
    | dir dm dcs =>
      rw [normalizedL] at hnorm
      simp only [Bool.and_eq_true, beq_iff_eq] at hnorm
      by_cases hkn : k = n
      · rw [if_pos hkn] at h
        cases h
      · rw [if_neg hkn] at h
        exact ih n c m hnorm.2 h

theorem normalizedL_append_file : ∀ (cs : Children) (k c : String),
    normalizedL cs = true →
    normalizedL (cs ++ [(k, .file c 0o644)]) = true := by
  intro cs
  induction cs with
  | nil => intro k c _; rw [List.nil_append]; rw [normalizedL, normalizedL]; rfl
  | cons hd tl ih =>
    intro k c hnorm
    obtain ⟨x, e⟩ := hd
    cases e with
    | file c2 m2 =>
      rw [normalizedL] at hnorm
      rw [List.cons_append, normalizedL]
      simp only [Bool.and_eq_true] at hnorm ⊢
      exact ⟨hnorm.1, ih k c hnorm.2⟩
    | dir dm dcs =>
      rw [normalizedL] at hnorm
      rw [List.cons_append, normalizedL]
      simp only [Bool.and_eq_true] at hnorm ⊢
      exact ⟨hnorm.1, ih k c hnorm.2⟩

theorem normalizedL_setChild_file : ∀ (cs : Children) (k c : String),
    normalizedL cs = true →
    normalizedL (setChild cs k (.file c 0o644)) = true := by
  intro cs
  induction cs with
  | nil =>
    intro k c _
    show normalizedL [(k, .file c 0o644)] = true
    rw [normalizedL, normalizedL]
    rfl
  | cons hd tl ih =>
    intro k c hnorm
    obtain ⟨x, e⟩ := hd
    rw [setChild_cons]
    by_cases hxk : x = k
    · rw [if_pos hxk]
      cases e with
      | file c2 m2 =>
        rw [normalizedL] at hnorm
        rw [normalizedL]
        simp only [Bool.and_eq_true] at hnorm ⊢
        exact ⟨by simp, hnorm.2⟩
      | dir dm dcs =>
        rw [normalizedL] at hnorm
        rw [normalizedL]
        simp only [Bool.and_eq_true] at hnorm ⊢
        exact ⟨by simp, hnorm.2⟩
    · rw [if_neg hxk]
      cases e with
      | file c2 m2 =>
        rw [normalizedL] at hnorm
        rw [normalizedL]
        simp only [Bool.and_eq_true] at hnorm ⊢
        exact ⟨hnorm.1, ih k c hnorm.2⟩
      | dir dm dcs =>
        rw [normalizedL] at hnorm
        rw [normalizedL]
        simp only [Bool.and_eq_true] at hnorm ⊢
        exact ⟨hnorm.1, ih k c hnorm.2⟩

theorem startsWith_of_append_py (k : String)
    (h : strStartsWith (k ++ ".py") "__" = true) : strStartsWith k "__" = true := by
  unfold strStartsWith at h ⊢
  rw [String.data_append] at h
  cases hk : k.data with
  | nil =>
    rw [hk] at h
    exact absurd h (by decide)
  | cons a tl =>
    cases htl : tl with
    | nil =>
      rw [hk, htl] at h
      simp [isPrefixL] at h
    | cons b tl2 =>
      rw [hk, htl] at h
      simp only [List.cons_append] at h
      show isPrefixL ('_' :: '_' :: []) (a :: b :: tl2) = true
      have h2 : isPrefixL ('_' :: '_' :: []) (a :: b :: (tl2 ++ ".py".data)) = true := h
      simp [isPrefixL] at h2 ⊢
      exact h2


theorem cogStep_cases (env : Env) (cur : Children) (k : String) :
    cogStep env cur k = cur ∨
    ∃ c m nm, lookup cur k = some (.file c m) ∧ nm ≠ "" ∧
      cogStep env cur k = setChild cur k (.file (c ++ setupText nm) m) := by
  cases h0 : (strEndsWith k ".py" && !(strStartsWith k "__")) with
  | false => exact Or.inl (cogStep_skipname env cur k h0)
  | true =>
    cases hl : lookup cur k with
    | none => exact Or.inl (cogStep_none env cur k h0 hl)
    | some e =>
      cases e with
      | dir dm dcs => exact Or.inl (cogStep_dir env cur k dm dcs h0 hl)
      | file c m =>
        cases h1 : env.vErrFails k with
        | true => exact Or.inl (cogStep_vErr env cur k c m h0 hl h1)
        | false =>
          cases h2 : hasSub c "async def setup" with
          | true => exact Or.inl (cogStep_hasSetup env cur k c m h0 hl h1 h2)
          | false =>
            cases h3 : hasSub c "commands.Cog" with
            | false => exact Or.inl (cogStep_noCog env cur k c m h0 hl h1 h2 h3)
            | true =>
              cases h4 : extractCogName c with
              | none => exact Or.inl (cogStep_extractNone env cur k c m h0 hl h1 h2 h3 h4)
              | some nm =>
                by_cases h5 : nm = ""
                · subst h5
                  exact Or.inl (cogStep_extractEmpty env cur k c m h0 hl h1 h2 h3 h4)
                · cases h6 : env.vWriteFails k with
                  | true =>
                    exact Or.inl (cogStep_writeFail env cur k c m nm h0 hl h1 h2 h3 h4 h5 h6)
                  | false =>
                    exact Or.inr ⟨c, m, nm, rfl, h5,
                      cogStep_append env cur k c m nm h0 hl h1 h2 h3 h4 h5 h6⟩

theorem cogStep_names (env : Env) (cur : Children) (k : String) :
    names (cogStep env cur k) = names cur := by
  rcases cogStep_cases env cur k with h | ⟨c, m, nm, hl, _, h⟩
  · rw [h]
  · rw [h]
    exact names_setChild_mem cur k _ (mem_names_of_lookup cur k _ hl)

theorem cogLoop_names (env : Env) :
    ∀ (ns : List String) (cur : Children), names (cogLoop env ns cur) = names cur := by
  intro ns
  induction ns with
  | nil => intro cur; rfl
  | cons k ns ih =>
    intro cur
    rw [cogLoop_cons, ih, cogStep_names]

theorem cogLoop_wf (env : Env) :
    ∀ (ns : List String) (cur : Children), wfNames cur → wfNames (cogLoop env ns cur) := by
  intro ns
  induction ns with
  | nil => intro cur h; exact h
  | cons k ns ih =>
    intro cur h
    rw [cogLoop_cons]
    exact ih _ (cogStep_wf env cur k h)

theorem cogStep_preserves_dir (env : Env) (cur : Children) (k x : String)
    (dm : Nat) (dcs : Children) (hx : lookup cur x = some (.dir dm dcs)) :
    lookup (cogStep env cur k) x = some (.dir dm dcs) := by
  by_cases hxk : x = k
  · subst hxk
    rcases cogStep_cases env cur x with h | ⟨c, m, nm, hl, _, h⟩
    · rw [h]; exact hx
    · rw [hx] at hl
      cases hl
  · rw [cogStep_preserves_other env cur k x hxk]
    exact hx

theorem cogLoop_preserves_dir (env : Env) :
    ∀ (ns : List String) (cur : Children) (x : String) (dm : Nat) (dcs : Children),
    lookup cur x = some (.dir dm dcs) →
    lookup (cogLoop env ns cur) x = some (.dir dm dcs) := by
  intro ns
  induction ns with
  | nil => intro cur x dm dcs h; exact h
  | cons k ns ih =>
    intro cur x dm dcs h
    rw [cogLoop_cons]
    exact ih _ x dm dcs (cogStep_preserves_dir env cur k x dm dcs h)

theorem cogStep_preserves_nonpy (env : Env) (cur : Children) (k x : String)
    (hx : (strEndsWith x ".py" && !(strStartsWith x "__")) = false) :
    lookup (cogStep env cur k) x = lookup cur x := by
  by_cases hxk : x = k
  · subst hxk
    rw [cogStep_skipname env cur x hx]
  · exact cogStep_preserves_other env cur k x hxk

theorem cogLoop_preserves_nonpy (env : Env) (x : String)
    (hx : (strEndsWith x ".py" && !(strStartsWith x "__")) = false) :
    ∀ (ns : List String) (cur : Children),
    lookup (cogLoop env ns cur) x = lookup cur x := by
  intro ns
  induction ns with
  | nil => intro cur; rfl
  | cons k ns ih =>
    intro cur
    rw [cogLoop_cons, ih, cogStep_preserves_nonpy env cur k x hx]

theorem cogStep_normalized (env : Env) (cur : Children) (k : String)
    (h : normalizedL cur = true) : normalizedL (cogStep env cur k) = true := by
  rcases cogStep_cases env cur k with hc | ⟨c, m, nm, hl, _, hc⟩
  · rw [hc]; exact h
  · rw [hc]
    have hm : m = 0o644 := normalizedL_lookup_file cur k c m h hl
    rw [hm]
    exact normalizedL_setChild_file cur k _ h

theorem cogLoop_normalized (env : Env) :
    ∀ (ns : List String) (cur : Children), normalizedL cur = true →
    normalizedL (cogLoop env ns cur) = true := by
  intro ns
  induction ns with
  | nil => intro cur h; exact h
  | cons k ns ih =>
    intro cur h
    rw [cogLoop_cons]
    exact ih _ (cogStep_normalized env cur k h)

theorem pyLoop_wf (env : Env) :
    ∀ (ns : List String) (cur : Children), wfNames cur → wfNames (pyLoop env ns cur).1 := by
  intro ns
  induction ns with
  | nil => intro cur h; exact h
  | cons k ns ih =>
    intro cur h
    cases hstep : pyStep env cur k with
    | mk cur2 flag =>
      have hwf2 : wfNames cur2 := by
        have := pyStep_wf env cur k h
        rw [hstep] at this
        exact this
      cases flag with
      | true =>
        rw [pyLoop_cons_ok env k ns cur cur2 hstep]
        exact ih cur2 hwf2
      | false =>
        rw [pyLoop_cons_fail env k ns cur cur2 hstep]
        exact hwf2

theorem pyStep_underscore_any (env : Env) (cur : Children) (k : String)
    (h1 : strStartsWith k "__" = true) : pyStep env cur k = (cur, true) := by
  cases hl : lookup cur k with
  | none => exact pyStep_none env cur k hl
  | some e =>
    cases e with
    | dir dm dcs => exact pyStep_dir env cur k dm dcs hl
    | file c m => exact pyStep_underscore env cur k c m hl h1

theorem pyStep_preserves_uname (env : Env) (cur : Children) (k x : String)
    (hx : strStartsWith x "__" = true) :
    lookup (pyStep env cur k).1 x = lookup cur x := by
  by_cases hxk : x = k
  · subst hxk
    rw [pyStep_underscore_any env cur x hx]
  · by_cases hxp : x = k ++ ".py"
    · have hk : strStartsWith k "__" = true := by
        apply startsWith_of_append_py
        rw [← hxp]
        exact hx
      rw [pyStep_underscore_any env cur k hk]
    · exact pyStep_preserves_other env cur k x hxk hxp

theorem pyLoop_preserves_uname (env : Env) (x : String)
    (hx : strStartsWith x "__" = true) :
    ∀ (ns : List String) (cur : Children),
    lookup (pyLoop env ns cur).1 x = lookup cur x := by
  intro ns
  induction ns with
  | nil => intro cur; rfl
  | cons k ns ih =>
    intro cur
    cases hstep : pyStep env cur k with
    | mk cur2 flag =>
      have hpres : lookup cur2 x = lookup cur x := by
        have := pyStep_preserves_uname env cur k x hx
        rw [hstep] at this
        exact this
      cases flag with
      | true =>
        rw [pyLoop_cons_ok env k ns cur cur2 hstep, ih, hpres]
      | false =>
        rw [pyLoop_cons_fail env k ns cur cur2 hstep]
        exact hpres

theorem lookup_append_left (cs ds : Children) (n : String) (e : FsEntry)
    (h : lookup cs n = some e) : lookup (cs ++ ds) n = some e := by
  rw [lookup_append, h]


/-! ### A stable (healthy) listing: every pipeline stage is the identity -/

/-- Name `n` is inert for the classification loop of `ensure_python_files`:
if it holds a regular file that the loop would consider renaming, either the
content does not look like Python or a directory blocks the target name. -/
def pyInert (cs : Children) (n : String) : Prop :=
  ∀ c m, lookup cs n = some (.file c m) →
    strStartsWith n "__" = false → strEndsWith n ".py" = false →
    (pyHeur (strTake c 500) = false ∨
      ∃ dm dcs, lookup cs (n ++ ".py") = some (.dir dm dcs))

/-- Name `n` is inert for the linting loop of `verify_cog_files`: if it holds
a regular `.py` file the loop would consider, the content already has the
entry point, has no cog-class marker, or yields no usable class name. -/
def cogInert (cs : Children) (n : String) : Prop :=
  ∀ c m, lookup cs n = some (.file c m) →
    (strEndsWith n ".py" && !(strStartsWith n "__")) = true →
    (hasSub c "async def setup" = true ∨ hasSub c "commands.Cog" = false ∨
      extractCogName c = none ∨ extractCogName c = some "")

/-- The listing invariant established by one completed failure-free run:
well-formed names, the three provisioned files present, all modes
normalized, and every name inert for both per-file loops. -/
def stableInv (cs : Children) : Prop :=
  wfNames cs ∧
  (lookup cs "__init__.py").isSome = true ∧
  (lookup cs "user_commands.py").isSome = true ∧
  (lookup cs "admin_commands.py").isSome = true ∧
  normalizedL cs = true ∧
  (∀ n, pyInert cs n) ∧
  (∀ n, cogInert cs n)

theorem ensurePythonFiles_id (dm fm : Nat) (cs : Children)
    (hinit : (lookup cs "__init__.py").isSome = true)
    (hinert : ∀ n, pyInert cs n) :
    ensurePythonFiles (stdEnv dm fm) cs = (cs, true) := by
  unfold ensurePythonFiles
  simp only [hinit, if_true]
  apply pyLoop_id
  intro n _
  cases hl : lookup cs n with
  | none => exact pyStep_none _ cs n hl
  | some e =>
    cases e with
    | dir dd dcs => exact pyStep_dir _ cs n dd dcs hl
    | file c m =>
      cases h1 : strStartsWith n "__" with
      | true => exact pyStep_underscore _ cs n c m hl h1
      | false =>
        cases h2 : strEndsWith n ".py" with
        | true => exact pyStep_py _ cs n c m hl h1 h2
        | false =>
          rcases hinert n c m hl h1 h2 with h5 | ⟨dd, dcs, h7⟩
          · exact pyStep_nomatch _ cs n c m hl h1 h2 rfl rfl h5
          · cases hheu : pyHeur (strTake c 500) with
            | false => exact pyStep_nomatch _ cs n c m hl h1 h2 rfl rfl hheu
            | true =>
              exact pyStep_renameDirTarget _ cs n c m dd dcs hl h1 h2 rfl rfl hheu rfl h7

theorem fixPermissions_id (dm fm m : Nat) (cs : Children)
    (hnorm : normalizedL cs = true) :
    fixPermissions (stdEnv dm fm) [] m cs = (0o755, cs) := by
  have hch : ∀ q, (stdEnv dm fm).chmodFails q = false := fun _ => rfl
  have hls : ∀ q, (stdEnv dm fm).listFails q = false := fun _ => rfl
  unfold fixPermissions
  simp only [hch, hls, Bool.false_eq_true, if_false]
  rw [fixWalk_noFail _ hch hls, normalizeTree_id_of_normalized cs hnorm]

theorem verifyCogFiles_id (dm fm : Nat) (cs : Children)
    (hinert : ∀ n, cogInert cs n) :
    verifyCogFiles (stdEnv dm fm) cs = cs := by
  unfold verifyCogFiles
  apply cogLoop_id
  intro n _
  cases h0 : (strEndsWith n ".py" && !(strStartsWith n "__")) with
  | false => exact cogStep_skipname _ cs n h0
  | true =>
    cases hl : lookup cs n with
    | none => exact cogStep_none _ cs n h0 hl
    | some e =>
      cases e with
      | dir dd dcs => exact cogStep_dir _ cs n dd dcs h0 hl
      | file c m =>
        rcases hinert n c m hl h0 with h | h | h | h
        · exact cogStep_hasSetup _ cs n c m h0 hl rfl h
        · cases h2 : hasSub c "async def setup" with
          | true => exact cogStep_hasSetup _ cs n c m h0 hl rfl h2
          | false => exact cogStep_noCog _ cs n c m h0 hl rfl h2 h
        · cases h2 : hasSub c "async def setup" with
          | true => exact cogStep_hasSetup _ cs n c m h0 hl rfl h2
          | false =>
            cases h3 : hasSub c "commands.Cog" with
            | false => exact cogStep_noCog _ cs n c m h0 hl rfl h2 h3
            | true => exact cogStep_extractNone _ cs n c m h0 hl rfl h2 h3 h
        · cases h2 : hasSub c "async def setup" with
          | true => exact cogStep_hasSetup _ cs n c m h0 hl rfl h2
          | false =>
            cases h3 : hasSub c "commands.Cog" with
            | false => exact cogStep_noCog _ cs n c m h0 hl rfl h2 h3
            | true => exact cogStep_extractEmpty _ cs n c m h0 hl rfl h2 h3 h

theorem stable_main (dm fm m : Nat) (cs : Children) (b : Option FsEntry)
    (hinv : stableInv cs) :
    main (stdEnv dm fm) ⟨some (.dir m cs), b⟩ = (⟨some (.dir 0o755 cs), b⟩, true) := by
  obtain ⟨hwf, hinit, huser, hadmin, hnorm, hpyi, hcogi⟩ := hinv
  have h1 : ensureCogsDirectory (stdEnv dm fm) ⟨some (.dir m cs), b⟩
      = (⟨some (.dir m cs), b⟩, true) := rfl
  have hpy : ensurePythonFiles (stdEnv dm fm) cs = (cs, true) :=
    ensurePythonFiles_id dm fm cs hinit hpyi
  have hfix : fixPermissions (stdEnv dm fm) [] m cs = (0o755, cs) :=
    fixPermissions_id dm fm m cs hnorm
  have hcopy : copyExistingCogs (stdEnv dm fm) cs = cs :=
    copyExistingCogs_id _ cs huser hadmin
  have hver : verifyCogFiles (stdEnv dm fm) cs = cs :=
    verifyCogFiles_id dm fm cs hcogi
  have humem : "user_commands.py" ∈ names cs := by
    obtain ⟨e, he⟩ := Option.isSome_iff_exists.mp huser
    exact mem_names_of_lookup cs _ e he
  have hsample : createSampleCog (stdEnv dm fm) cs = cs :=
    createSampleCog_id _ cs humem
  unfold main
  simp only [h1, Bool.not_true, Bool.false_eq_true, if_false, hpy, hfix,
    hcopy, hver, hsample]


/-! ### The classification loop leaves every name inert -/

theorem pyStep_py_any (env : Env) (cur : Children) (k : String)
    (h2 : strEndsWith k ".py" = true) : pyStep env cur k = (cur, true) := by
  cases hl : lookup cur k with
  | none => exact pyStep_none env cur k hl
  | some e =>
    cases e with
    | dir dm dcs => exact pyStep_dir env cur k dm dcs hl
    | file c m =>
      cases h1 : strStartsWith k "__" with
      | true => exact pyStep_underscore env cur k c m hl h1
      | false => exact pyStep_py env cur k c m hl h1 h2

theorem pyStep_cases_full (env : Env) (cur : Children) (k : String) :
    (lookup cur k = none ∧ pyStep env cur k = (cur, true)) ∨
    (∃ dm dcs, lookup cur k = some (.dir dm dcs) ∧ pyStep env cur k = (cur, true)) ∨
    (∃ c m, lookup cur k = some (.file c m) ∧ strStartsWith k "__" = true ∧
      pyStep env cur k = (cur, true)) ∨
    (∃ c m, lookup cur k = some (.file c m) ∧ strEndsWith k ".py" = true ∧
      pyStep env cur k = (cur, true)) ∨
    (env.openFails k = true ∨ env.readFails k = true ∨ env.renameFails k = true) ∨
    (∃ c m, lookup cur k = some (.file c m) ∧ strStartsWith k "__" = false ∧
      strEndsWith k ".py" = false ∧ pyHeur (strTake c 500) = false ∧
      pyStep env cur k = (cur, true)) ∨
    (∃ c m dm dcs, lookup cur k = some (.file c m) ∧
      lookup cur (k ++ ".py") = some (.dir dm dcs) ∧ pyStep env cur k = (cur, true)) ∨
    (∃ c m, lookup cur k = some (.file c m) ∧ strStartsWith k "__" = false ∧
      strEndsWith k ".py" = false ∧
      (∀ dm dcs, lookup cur (k ++ ".py") ≠ some (.dir dm dcs)) ∧
      pyStep env cur k = (renameChild cur k (k ++ ".py") (.file c m), true)) := by
  cases hl : lookup cur k with
  | none => exact Or.inl ⟨rfl, pyStep_none env cur k hl⟩
  | some e =>
    cases e with
    | dir dm dcs =>
      exact Or.inr (Or.inl ⟨dm, dcs, rfl, pyStep_dir env cur k dm dcs hl⟩)
    | file c m =>
      cases h1 : strStartsWith k "__" with
      | true =>
        exact Or.inr (Or.inr (Or.inl
          ⟨c, m, rfl, rfl, pyStep_underscore env cur k c m hl h1⟩))
      | false =>
        cases h2 : strEndsWith k ".py" with
        | true =>
          exact Or.inr (Or.inr (Or.inr (Or.inl
            ⟨c, m, rfl, rfl, pyStep_py env cur k c m hl h1 h2⟩)))
        | false =>
          cases h3 : env.openFails k with
          | true => exact Or.inr (Or.inr (Or.inr (Or.inr (Or.inl (Or.inl rfl)))))
          | false =>
            cases h4 : env.readFails k with
            | true =>
              exact Or.inr (Or.inr (Or.inr (Or.inr (Or.inl (Or.inr (Or.inl rfl))))))
            | false =>
              cases h5 : pyHeur (strTake c 500) with
              | false =>
                exact Or.inr (Or.inr (Or.inr (Or.inr (Or.inr (Or.inl
                  ⟨c, m, rfl, rfl, rfl, h5,
                    pyStep_nomatch env cur k c m hl h1 h2 h3 h4 h5⟩)))))
              | true =>
                cases h6 : env.renameFails k with
                | true =>
                  exact Or.inr (Or.inr (Or.inr (Or.inr (Or.inl
                    (Or.inr (Or.inr rfl))))))
                | false =>
                  cases h7 : lookup cur (k ++ ".py") with
                  | none =>
                    refine Or.inr (Or.inr (Or.inr (Or.inr (Or.inr (Or.inr (Or.inr
                      ⟨c, m, rfl, rfl, rfl, ?_,
                        pyStep_rename env cur k c m hl h1 h2 h3 h4 h5 h6 ?_⟩))))))
                    · intro dm dcs hcontra
                      simp at hcontra
                    · intro dm dcs hcontra
                      rw [h7] at hcontra
                      cases hcontra
                  | some e2 =>
                    cases e2 with
                    | dir dm dcs =>
                      exact Or.inr (Or.inr (Or.inr (Or.inr (Or.inr (Or.inr (Or.inl
                        ⟨c, m, dm, dcs, rfl, rfl,
                          pyStep_renameDirTarget env cur k c m dm dcs
                            hl h1 h2 h3 h4 h5 h6 h7⟩))))))
                    | file c2 m2 =>
                      refine Or.inr (Or.inr (Or.inr (Or.inr (Or.inr (Or.inr (Or.inr
                        ⟨c, m, rfl, rfl, rfl, ?_,
                          pyStep_rename env cur k c m hl h1 h2 h3 h4 h5 h6 ?_⟩))))))
                      · intro dm dcs hcontra
                        simp at hcontra
                      · intro dm dcs hcontra
                        rw [h7] at hcontra
                        cases hcontra

theorem pyLoop_inert_all (env : Env)
    (ho : ∀ q, env.openFails q = false) (hrd : ∀ q, env.readFails q = false)
    (hrn : ∀ q, env.renameFails q = false) :
    ∀ (ns : List String) (cur : Children), wfNames cur →
    (∀ n, n ∉ ns → pyInert cur n) →
    ∀ n, pyInert (pyLoop env ns cur).1 n := by
  intro ns
  induction ns with
  | nil =>
    intro cur _ h n
    exact h n (by simp)
  | cons k ns ih =>
    intro cur hwf h n
    cases hstep : pyStep env cur k with
    | mk cur2 flag =>
      have hflag : flag = true := by
        have hq := pyStep_snd_true env cur k (ho k)
        rw [hstep] at hq
        exact hq
      subst hflag
      rw [pyLoop_cons_ok env k ns cur cur2 hstep]
      have hwf2 : wfNames cur2 := by
        have hq := pyStep_wf env cur k hwf
        rw [hstep] at hq
        exact hq
      have hcc : ∀ r : Children, pyStep env cur k = (r, true) → cur2 = r := by
        intro r hid
        have h12 := hstep.symm.trans hid
        injection h12 with hA hB
      refine ih cur2 hwf2 ?_ n
      intro x hx
      by_cases hxk : x = k
      · subst hxk
        intro c m hlk hu hpy
        rcases pyStep_cases_full env cur x with
          ⟨hnone, hid⟩ | ⟨dm, dcs, hdir, hid⟩ | ⟨c0, m0, hf, hus, hid⟩ |
          ⟨c0, m0, hf, hpys, hid⟩ | hfail | ⟨c0, m0, hf, _, _, hheu, hid⟩ |
          ⟨c0, m0, dm, dcs, hf, htgt, hid⟩ | ⟨c0, m0, hf, _, _, hndir, hid⟩
        · rw [hcc cur hid, hnone] at hlk
          cases hlk
        · rw [hcc cur hid, hdir] at hlk
          cases hlk
        · rw [hu] at hus
          cases hus
        · rw [hpy] at hpys
          cases hpys
        · rcases hfail with hq | hq | hq
          · rw [ho x] at hq; cases hq
          · rw [hrd x] at hq; cases hq
          · rw [hrn x] at hq; cases hq
        · rw [hcc cur hid, hf] at hlk
          injection hlk with hlk2
          injection hlk2 with hc hm
          subst hc
          exact Or.inl hheu
        · refine Or.inr ⟨dm, dcs, ?_⟩
          rw [hcc cur hid]
          exact htgt
        · rw [hcc _ hid] at hlk
          have hne : x ≠ x ++ ".py" := by
            intro heq
            have hq := strEndsWith_append_py x
            rw [← heq, hpy] at hq
            cases hq
          rw [lookup_renameChild_src cur x (x ++ ".py") _ hwf hne] at hlk
          cases hlk
      · intro c m hlk hu hpy
        have hxpy : x ≠ k ++ ".py" := by
          intro heq
          have hq := strEndsWith_append_py k
          rw [← heq, hpy] at hq
          cases hq
        have hpres : lookup cur2 x = lookup cur x := by
          have hq := pyStep_preserves_other env cur k x hxk hxpy
          rw [hstep] at hq
          exact hq
        rw [hpres] at hlk
        have hxns : x ∉ k :: ns := by
          intro hmem
          rcases List.mem_cons.mp hmem with he | hm
          · exact hxk he
          · exact hx hm
        rcases h x hxns c m hlk hu hpy with hheu | ⟨dm, dcs, hdir⟩
        · exact Or.inl hheu
        · refine Or.inr ⟨dm, dcs, ?_⟩
          by_cases hq : x ++ ".py" = k
          · have hkpy : strEndsWith k ".py" = true := by
              rw [← hq]
              exact strEndsWith_append_py x
            have hid := pyStep_py_any env cur k hkpy
            rw [hcc cur hid]
            exact hdir
          · have hq2 : x ++ ".py" ≠ k ++ ".py" := by
              intro heq
              exact hxk (append_py_inj x k heq)
            have hpres2 : lookup cur2 (x ++ ".py") = lookup cur (x ++ ".py") := by
              have hq3 := pyStep_preserves_other env cur k (x ++ ".py") hq hq2
              rw [hstep] at hq3
              exact hq3
            rw [hpres2]
            exact hdir


/-! ### The linting loop leaves every name inert -/

theorem cogStep_cases_full (env : Env) (cur : Children) (k : String) :
    ((strEndsWith k ".py" && !(strStartsWith k "__")) = false ∧ cogStep env cur k = cur) ∨
    (lookup cur k = none ∧ cogStep env cur k = cur) ∨
    (∃ dm dcs, lookup cur k = some (.dir dm dcs) ∧ cogStep env cur k = cur) ∨
    (env.vErrFails k = true ∨ env.vWriteFails k = true) ∨
    (∃ c m, lookup cur k = some (.file c m) ∧ hasSub c "async def setup" = true ∧
      cogStep env cur k = cur) ∨
    (∃ c m, lookup cur k = some (.file c m) ∧ hasSub c "commands.Cog" = false ∧
      cogStep env cur k = cur) ∨
    (∃ c m, lookup cur k = some (.file c m) ∧ extractCogName c = none ∧
      cogStep env cur k = cur) ∨
    (∃ c m, lookup cur k = some (.file c m) ∧ extractCogName c = some "" ∧
      cogStep env cur k = cur) ∨
    (∃ c m nm, lookup cur k = some (.file c m) ∧ nm ≠ "" ∧
      cogStep env cur k = setChild cur k (.file (c ++ setupText nm) m)) := by
  cases h0 : (strEndsWith k ".py" && !(strStartsWith k "__")) with
  | false => exact Or.inl ⟨rfl, cogStep_skipname env cur k h0⟩
  | true =>
    cases hl : lookup cur k with
    | none => exact Or.inr (Or.inl ⟨rfl, cogStep_none env cur k h0 hl⟩)
    | some e =>
      cases e with
      | dir dm dcs =>
        exact Or.inr (Or.inr (Or.inl ⟨dm, dcs, rfl, cogStep_dir env cur k dm dcs h0 hl⟩))
      | file c m =>
        cases h1 : env.vErrFails k with
        | true => exact Or.inr (Or.inr (Or.inr (Or.inl (Or.inl rfl))))
        | false =>
          cases h2 : hasSub c "async def setup" with
          | true =>
            exact Or.inr (Or.inr (Or.inr (Or.inr (Or.inl
              ⟨c, m, rfl, h2, cogStep_hasSetup env cur k c m h0 hl h1 h2⟩))))
          | false =>
            cases h3 : hasSub c "commands.Cog" with
            | false =>
              exact Or.inr (Or.inr (Or.inr (Or.inr (Or.inr (Or.inl
                ⟨c, m, rfl, h3, cogStep_noCog env cur k c m h0 hl h1 h2 h3⟩)))))
            | true =>
              cases h4 : extractCogName c with
              | none =>
                exact Or.inr (Or.inr (Or.inr (Or.inr (Or.inr (Or.inr (Or.inl
                  ⟨c, m, rfl, h4, cogStep_extractNone env cur k c m h0 hl h1 h2 h3 h4⟩))))))
              | some nm =>
                by_cases h5 : nm = ""
                · subst h5
                  exact Or.inr (Or.inr (Or.inr (Or.inr (Or.inr (Or.inr (Or.inr (Or.inl
                    ⟨c, m, rfl, h4,
                      cogStep_extractEmpty env cur k c m h0 hl h1 h2 h3 h4⟩)))))))
                · cases h6 : env.vWriteFails k with
                  | true =>
                    exact Or.inr (Or.inr (Or.inr (Or.inl (Or.inr rfl))))
                  | false =>
                    exact Or.inr (Or.inr (Or.inr (Or.inr (Or.inr (Or.inr (Or.inr (Or.inr
                      ⟨c, m, nm, rfl, h5,
                        cogStep_append env cur k c m nm h0 hl h1 h2 h3 h4 h5 h6⟩)))))))

theorem cogLoop_inert_all (env : Env)
    (hE : ∀ q, env.vErrFails q = false) (hW : ∀ q, env.vWriteFails q = false) :
    ∀ (ns : List String) (cur : Children),
    (∀ n, n ∉ ns → cogInert cur n) →
    ∀ n, cogInert (cogLoop env ns cur) n := by
  intro ns
  induction ns with
  | nil =>
    intro cur h n
    exact h n (by simp)
  | cons k ns ih =>
    intro cur h n
    rw [cogLoop_cons]
    refine ih (cogStep env cur k) ?_ n
    intro x hx
    by_cases hxk : x = k
    · subst hxk
      intro c m hlk hmatch
      rcases cogStep_cases_full env cur x with
        ⟨hskip, hid⟩ | ⟨hnone, hid⟩ | ⟨dm, dcs, hdir, hid⟩ | hfail |
        ⟨c0, m0, hf, hset, hid⟩ | ⟨c0, m0, hf, hnocog, hid⟩ |
        ⟨c0, m0, hf, hnoext, hid⟩ | ⟨c0, m0, hf, hextq, hid⟩ |
        ⟨c0, m0, nm, hf, hne, hid⟩
      · rw [hmatch] at hskip
        cases hskip
      · rw [hid, hnone] at hlk
        cases hlk
      · rw [hid, hdir] at hlk
        cases hlk
      · rcases hfail with hq | hq
        · rw [hE x] at hq; cases hq
        · rw [hW x] at hq; cases hq
      · rw [hid, hf] at hlk
        injection hlk with hlk2
        injection hlk2 with hc hm
        subst hc
        exact Or.inl hset
      · rw [hid, hf] at hlk
        injection hlk with hlk2
        injection hlk2 with hc hm
        subst hc
        exact Or.inr (Or.inl hnocog)
      · rw [hid, hf] at hlk
        injection hlk with hlk2
        injection hlk2 with hc hm
        subst hc
        exact Or.inr (Or.inr (Or.inl hnoext))
      · rw [hid, hf] at hlk
        injection hlk with hlk2
        injection hlk2 with hc hm
        subst hc
        exact Or.inr (Or.inr (Or.inr hextq))
      · rw [hid, lookup_setChild_self] at hlk
        injection hlk with hlk2
        injection hlk2 with hc hm
        subst hc
        exact Or.inl (hasSub_setupText c0 nm)
    · intro c m hlk hmatch
      rw [cogStep_preserves_other env cur k x hxk] at hlk
      have hxns : x ∉ k :: ns := by
        intro hmem
        rcases List.mem_cons.mp hmem with he | hm
        · exact hxk he
        · exact hx hm
      exact h x hxns c m hlk hmatch

/-! ### Inertness survives the later stages -/

theorem pyInert_normalizeTree (cs : Children) (n : String) (h : pyInert cs n) :
    pyInert (normalizeTree cs) n := by
  intro c m hlk h1 h2
  rw [lookup_normalizeTree] at hlk
  cases hl0 : lookup cs n with
  | none => rw [hl0] at hlk; cases hlk
  | some e =>
    rw [hl0] at hlk
    cases e with
    | dir dm dcs => cases hlk
    | file c0 m0 =>
      injection hlk with hlk2
      injection hlk2 with hc hm
      subst hc
      rcases h c0 m0 hl0 h1 h2 with hheu | ⟨dm, dcs, hdir⟩
      · exact Or.inl hheu
      · refine Or.inr ⟨0o755, normalizeTree dcs, ?_⟩
        rw [lookup_normalizeTree, hdir]
        rfl

theorem pyInert_append_file (cs : Children) (k c2 : String) (m2 : Nat)
    (hk : strEndsWith k ".py" = true) (n : String) (h : pyInert cs n) :
    pyInert (cs ++ [(k, .file c2 m2)]) n := by
  intro c m hlk h1 h2
  rw [lookup_append] at hlk
  cases hl0 : lookup cs n with
  | none =>
    rw [hl0] at hlk
    simp only [lookup, List.head?] at hlk
    by_cases hkn : k = n
    · subst hkn
      rw [hk] at h2
      cases h2
    · rw [if_neg hkn] at hlk
      cases hlk
  | some e =>
    rw [hl0] at hlk
    cases hlk
    rcases h c m hl0 h1 h2 with hheu | ⟨dm, dcs, hdir⟩
    · exact Or.inl hheu
    · exact Or.inr ⟨dm, dcs, lookup_append_left cs _ _ _ hdir⟩

theorem pyInert_cogLoop (env : Env) (ns : List String) (cs : Children) (n : String)
    (h : pyInert cs n) : pyInert (cogLoop env ns cs) n := by
  intro c m hlk h1 h2
  have hfilter : (strEndsWith n ".py" && !(strStartsWith n "__")) = false := by
    rw [h2]
    rfl
  rw [cogLoop_preserves_nonpy env n hfilter ns cs] at hlk
  rcases h c m hlk h1 h2 with hheu | ⟨dm, dcs, hdir⟩
  · exact Or.inl hheu
  · exact Or.inr ⟨dm, dcs, cogLoop_preserves_dir env ns cs _ dm dcs hdir⟩


/-! ### Conditional provisioning of a single default file -/

theorem provision_wf (cs : Children) (k c2 : String) (mm : Nat) (hwf : wfNames cs) :
    wfNames (if (lookup cs k).isSome then cs else cs ++ [(k, .file c2 mm)]) := by
  by_cases hp : (lookup cs k).isSome = true
  · rw [if_pos hp]
    exact hwf
  · rw [if_neg hp]
    have hnone : lookup cs k = none := by
      cases hq : lookup cs k with
      | none => rfl
      | some e => rw [hq] at hp; simp at hp
    exact wfNames_append_fresh cs k _ hwf (not_mem_of_lookup_none cs k hnone)

theorem provision_self (cs : Children) (k c2 : String) (mm : Nat) :
    (lookup (if (lookup cs k).isSome then cs else cs ++ [(k, .file c2 mm)]) k).isSome
      = true := by
  by_cases hp : (lookup cs k).isSome = true
  · rw [if_pos hp]
    exact hp
  · rw [if_neg hp]
    have hnone : lookup cs k = none := by
      cases hq : lookup cs k with
      | none => rfl
      | some e => rw [hq] at hp; simp at hp
    rw [lookup_append, hnone]
    show (lookup [(k, FsEntry.file c2 mm)] k).isSome = true
    rw [lookup_cons, if_pos rfl]
    rfl

theorem provision_extends (cs : Children) (k c2 : String) (mm : Nat)
    (x : String) (e : FsEntry) (h : lookup cs x = some e) :
    lookup (if (lookup cs k).isSome then cs else cs ++ [(k, .file c2 mm)]) x = some e := by
  by_cases hp : (lookup cs k).isSome = true
  · rw [if_pos hp]
    exact h
  · rw [if_neg hp]
    exact lookup_append_left cs _ x e h

theorem provision_norm (cs : Children) (k c2 : String)
    (hnorm : normalizedL cs = true) :
    normalizedL (if (lookup cs k).isSome then cs
      else cs ++ [(k, .file c2 0o644)]) = true := by
  by_cases hp : (lookup cs k).isSome = true
  · rw [if_pos hp]
    exact hnorm
  · rw [if_neg hp]
    exact normalizedL_append_file cs k c2 hnorm

theorem provision_inert (cs : Children) (k c2 : String) (mm : Nat)
    (hk : strEndsWith k ".py" = true) (n : String) (h : pyInert cs n) :
    pyInert (if (lookup cs k).isSome then cs else cs ++ [(k, .file c2 mm)]) n := by
  by_cases hp : (lookup cs k).isSome = true
  · rw [if_pos hp]
    exact h
  · rw [if_neg hp]
    exact pyInert_append_file cs k c2 mm hk n h

/-! ### One completed run establishes the stable invariant -/

theorem post_stages (dm : Nat) (cs2 : Children) (hwf2 : wfNames cs2)
    (hinit2 : (lookup cs2 "__init__.py").isSome = true)
    (hinert2 : ∀ n, pyInert cs2 n) :
    stableInv (verifyCogFiles (stdEnv dm 0o644)
      (copyExistingCogs (stdEnv dm 0o644) (normalizeTree cs2))) ∧
    createSampleCog (stdEnv dm 0o644) (verifyCogFiles (stdEnv dm 0o644)
      (copyExistingCogs (stdEnv dm 0o644) (normalizeTree cs2)))
      = verifyCogFiles (stdEnv dm 0o644)
          (copyExistingCogs (stdEnv dm 0o644) (normalizeTree cs2)) := by
  have hVE : ∀ q, (stdEnv dm 0o644).vErrFails q = false := fun _ => rfl
  have hVW : ∀ q, (stdEnv dm 0o644).vWriteFails q = false := fun _ => rfl
  -- stage 3 output facts
  have hwf3 : wfNames (normalizeTree cs2) := by
    unfold wfNames
    rw [names_normalizeTree]
    exact hwf2
  have hinit3 : (lookup (normalizeTree cs2) "__init__.py").isSome = true := by
    rw [lookup_normalizeTree]
    obtain ⟨e, he⟩ := Option.isSome_iff_exists.mp hinit2
    rw [he]
    cases e <;> rfl
  have hnorm3 : normalizedL (normalizeTree cs2) = true := normalizedL_normalizeTree _
  have hinert3 : ∀ n, pyInert (normalizeTree cs2) n :=
    fun n => pyInert_normalizeTree _ n (hinert2 n)
  -- stage 4
  have hcopyform : copyExistingCogs (stdEnv dm 0o644) (normalizeTree cs2)
      = (if (lookup (if (lookup (normalizeTree cs2) "user_commands.py").isSome
          then normalizeTree cs2
          else normalizeTree cs2 ++ [("user_commands.py", .file userCommandsContent 0o644)])
          "admin_commands.py").isSome
        then (if (lookup (normalizeTree cs2) "user_commands.py").isSome
          then normalizeTree cs2
          else normalizeTree cs2 ++ [("user_commands.py", .file userCommandsContent 0o644)])
        else (if (lookup (normalizeTree cs2) "user_commands.py").isSome
          then normalizeTree cs2
          else normalizeTree cs2 ++ [("user_commands.py", .file userCommandsContent 0o644)])
          ++ [("admin_commands.py", .file adminCommandsContent 0o644)]) := rfl
  have hwf4a : wfNames (if (lookup (normalizeTree cs2) "user_commands.py").isSome
      then normalizeTree cs2
      else normalizeTree cs2 ++ [("user_commands.py", .file userCommandsContent 0o644)]) :=
    provision_wf _ _ _ _ hwf3
  have hnorm4a : normalizedL (if (lookup (normalizeTree cs2) "user_commands.py").isSome
      then normalizeTree cs2
      else normalizeTree cs2 ++ [("user_commands.py", .file userCommandsContent 0o644)])
      = true := provision_norm _ _ _ hnorm3
  have hinert4a : ∀ n, pyInert (if (lookup (normalizeTree cs2) "user_commands.py").isSome
      then normalizeTree cs2
      else normalizeTree cs2 ++ [("user_commands.py", .file userCommandsContent 0o644)]) n :=
    fun n => provision_inert _ _ _ _ (by decide) n (hinert3 n)
  have huser4a : (lookup (if (lookup (normalizeTree cs2) "user_commands.py").isSome
      then normalizeTree cs2
      else normalizeTree cs2 ++ [("user_commands.py", .file userCommandsContent 0o644)])
      "user_commands.py").isSome = true := provision_self _ _ _ _
  have hinit4a : (lookup (if (lookup (normalizeTree cs2) "user_commands.py").isSome
      then normalizeTree cs2
      else normalizeTree cs2 ++ [("user_commands.py", .file userCommandsContent 0o644)])
      "__init__.py").isSome = true := by
    obtain ⟨e, he⟩ := Option.isSome_iff_exists.mp hinit3
    rw [provision_extends _ _ _ _ _ e he]
    rfl
  have hwf4 : wfNames (copyExistingCogs (stdEnv dm 0o644) (normalizeTree cs2)) := by
    rw [hcopyform]
    exact provision_wf _ _ _ _ hwf4a
  have hnorm4 : normalizedL (copyExistingCogs (stdEnv dm 0o644) (normalizeTree cs2))
      = true := by
    rw [hcopyform]
    exact provision_norm _ _ _ hnorm4a
  have hinert4 : ∀ n, pyInert (copyExistingCogs (stdEnv dm 0o644) (normalizeTree cs2)) n := by
    rw [hcopyform]
    exact fun n => provision_inert _ _ _ _ (by decide) n (hinert4a n)
  have hadmin4 : (lookup (copyExistingCogs (stdEnv dm 0o644) (normalizeTree cs2))
      "admin_commands.py").isSome = true := by
    rw [hcopyform]
    exact provision_self _ _ _ _
  have huser4 : (lookup (copyExistingCogs (stdEnv dm 0o644) (normalizeTree cs2))
      "user_commands.py").isSome = true := by
    rw [hcopyform]
    obtain ⟨e, he⟩ := Option.isSome_iff_exists.mp huser4a
    rw [provision_extends _ _ _ _ _ e he]
    rfl
  have hinit4 : (lookup (copyExistingCogs (stdEnv dm 0o644) (normalizeTree cs2))
      "__init__.py").isSome = true := by
    rw [hcopyform]
    obtain ⟨e, he⟩ := Option.isSome_iff_exists.mp hinit4a
    rw [provision_extends _ _ _ _ _ e he]
    rfl
  -- stage 5
  have hverform : verifyCogFiles (stdEnv dm 0o644)
      (copyExistingCogs (stdEnv dm 0o644) (normalizeTree cs2))
      = cogLoop (stdEnv dm 0o644)
          (names (copyExistingCogs (stdEnv dm 0o644) (normalizeTree cs2)))
          (copyExistingCogs (stdEnv dm 0o644) (normalizeTree cs2)) := rfl
  have hmemkeep : ∀ x : String,
      (lookup (copyExistingCogs (stdEnv dm 0o644) (normalizeTree cs2)) x).isSome = true →
      (lookup (verifyCogFiles (stdEnv dm 0o644)
        (copyExistingCogs (stdEnv dm 0o644) (normalizeTree cs2))) x).isSome = true := by
    intro x hx
    obtain ⟨e, he⟩ := Option.isSome_iff_exists.mp hx
    apply lookup_isSome_of_mem
    rw [hverform, cogLoop_names]
    exact mem_names_of_lookup _ x e he
  have hwf5 : wfNames (verifyCogFiles (stdEnv dm 0o644)
      (copyExistingCogs (stdEnv dm 0o644) (normalizeTree cs2))) := by
    rw [hverform]
    exact cogLoop_wf _ _ _ hwf4
  have hnorm5 : normalizedL (verifyCogFiles (stdEnv dm 0o644)
      (copyExistingCogs (stdEnv dm 0o644) (normalizeTree cs2))) = true := by
    rw [hverform]
    exact cogLoop_normalized _ _ _ hnorm4
  have hinert5 : ∀ n, pyInert (verifyCogFiles (stdEnv dm 0o644)
      (copyExistingCogs (stdEnv dm 0o644) (normalizeTree cs2))) n := by
    rw [hverform]
    exact fun n => pyInert_cogLoop _ _ _ n (hinert4 n)
  have hcog5 : ∀ n, cogInert (verifyCogFiles (stdEnv dm 0o644)
      (copyExistingCogs (stdEnv dm 0o644) (normalizeTree cs2))) n := by
    rw [hverform]
    refine cogLoop_inert_all _ hVE hVW _ _ ?_
    intro n hn c mq hlk _
    exact absurd (mem_names_of_lookup _ n _ hlk) hn
  have huser5 := hmemkeep "user_commands.py" huser4
  have hadmin5 := hmemkeep "admin_commands.py" hadmin4
  have hinit5 := hmemkeep "__init__.py" hinit4
  have humem5 : "user_commands.py" ∈ names (verifyCogFiles (stdEnv dm 0o644)
      (copyExistingCogs (stdEnv dm 0o644) (normalizeTree cs2))) := by
    obtain ⟨e, he⟩ := Option.isSome_iff_exists.mp huser5
    exact mem_names_of_lookup _ _ e he
  exact ⟨⟨hwf5, hinit5, huser5, hadmin5, hnorm5, hinert5, hcog5⟩,
    createSampleCog_id _ _ humem5⟩

theorem main_establishes (dm m : Nat) (cs0 : Children) (s : FsState) (b : Option FsEntry)
    (h : ensureCogsDirectory (stdEnv dm 0o644) s = (⟨some (.dir m cs0), b⟩, true))
    (hwf : wfNames cs0) :
    ∃ cs5, main (stdEnv dm 0o644) s = (⟨some (.dir 0o755 cs5), b⟩, true)
      ∧ stableInv cs5 := by
  have hch : ∀ q, (stdEnv dm 0o644).chmodFails q = false := fun _ => rfl
  have hls : ∀ q, (stdEnv dm 0o644).listFails q = false := fun _ => rfl
  have hO : ∀ q, (stdEnv dm 0o644).openFails q = false := fun _ => rfl
  have hRD : ∀ q, (stdEnv dm 0o644).readFails q = false := fun _ => rfl
  have hRN : ∀ q, (stdEnv dm 0o644).renameFails q = false := fun _ => rfl
  -- stage 2
  have hpyform : ensurePythonFiles (stdEnv dm 0o644) cs0
      = pyLoop (stdEnv dm 0o644)
          (names (if (lookup cs0 "__init__.py").isSome then cs0
            else cs0 ++ [("__init__.py", .file initPyContent 0o644)]))
          (if (lookup cs0 "__init__.py").isSome then cs0
            else cs0 ++ [("__init__.py", .file initPyContent 0o644)]) := rfl
  have hwf1 : wfNames (if (lookup cs0 "__init__.py").isSome then cs0
      else cs0 ++ [("__init__.py", .file initPyContent 0o644)]) :=
    provision_wf cs0 _ _ _ hwf
  have hinit1 : (lookup (if (lookup cs0 "__init__.py").isSome then cs0
      else cs0 ++ [("__init__.py", .file initPyContent 0o644)]) "__init__.py").isSome
      = true := provision_self cs0 _ _ _
  have hsnd : (ensurePythonFiles (stdEnv dm 0o644) cs0).2 = true := by
    rw [hpyform]
    exact pyLoop_snd_true _ hO _ _
  obtain ⟨cs2, hcs2⟩ : ∃ cs2, ensurePythonFiles (stdEnv dm 0o644) cs0 = (cs2, true) := by
    cases hq : ensurePythonFiles (stdEnv dm 0o644) cs0 with
    | mk a f =>
      rw [hq] at hsnd
      have hf : f = true := hsnd
      subst hf
      exact ⟨a, rfl⟩
  have hloop : pyLoop (stdEnv dm 0o644)
      (names (if (lookup cs0 "__init__.py").isSome then cs0
        else cs0 ++ [("__init__.py", .file initPyContent 0o644)]))
      (if (lookup cs0 "__init__.py").isSome then cs0
        else cs0 ++ [("__init__.py", .file initPyContent 0o644)]) = (cs2, true) :=
    hpyform.symm.trans hcs2
  have hwf2 : wfNames cs2 := by
    have hq := pyLoop_wf (stdEnv dm 0o644)
      (names (if (lookup cs0 "__init__.py").isSome then cs0
        else cs0 ++ [("__init__.py", .file initPyContent 0o644)]))
      (if (lookup cs0 "__init__.py").isSome then cs0
        else cs0 ++ [("__init__.py", .file initPyContent 0o644)]) hwf1
    rw [hloop] at hq
    exact hq
  have hinit2 : (lookup cs2 "__init__.py").isSome = true := by
    have hq := pyLoop_preserves_uname (stdEnv dm 0o644) "__init__.py" (by decide)
      (names (if (lookup cs0 "__init__.py").isSome then cs0
        else cs0 ++ [("__init__.py", .file initPyContent 0o644)]))
      (if (lookup cs0 "__init__.py").isSome then cs0
        else cs0 ++ [("__init__.py", .file initPyContent 0o644)])
    rw [hloop] at hq
    show (lookup (cs2, true).1 "__init__.py").isSome = true
    rw [hq]
    exact hinit1
  have hinert2 : ∀ n, pyInert cs2 n := by
    have hq := pyLoop_inert_all (stdEnv dm 0o644) hO hRD hRN
      (names (if (lookup cs0 "__init__.py").isSome then cs0
        else cs0 ++ [("__init__.py", .file initPyContent 0o644)]))
      (if (lookup cs0 "__init__.py").isSome then cs0
        else cs0 ++ [("__init__.py", .file initPyContent 0o644)]) hwf1 ?_
    · rw [hloop] at hq
      exact hq
    · intro n hn c mq hlk _ _
      exact absurd (mem_names_of_lookup _ n _ hlk) hn
  -- stage 3
  have hfix : fixPermissions (stdEnv dm 0o644) [] m cs2 = (0o755, normalizeTree cs2) := by
    unfold fixPermissions
    simp only [hch, hls, Bool.false_eq_true, if_false]
    rw [fixWalk_noFail _ hch hls]
  obtain ⟨hinv5, hsample⟩ := post_stages dm cs2 hwf2 hinit2 hinert2
  refine ⟨verifyCogFiles (stdEnv dm 0o644)
    (copyExistingCogs (stdEnv dm 0o644) (normalizeTree cs2)), ?_, hinv5⟩
  unfold main
  simp only [h, Bool.not_true, Bool.false_eq_true, if_false, hcs2, hfix, hsample]


/-! ### Claim C1: idempotence of the pipeline -/

/-- C1 (counterexample).  When the process umask makes created files come out
at mode `0o600`, the first run from an empty pre-existing cogs directory
leaves `user_commands.py` at mode `0o600` (it is written by
`copy_existing_cogs` AFTER `fix_permissions` has already run), and the
second run then chmods it to `0o644`: the second run changes the filesystem
state, so running the pipeline twice is not the same as running it once. -/
theorem C1_counterexample :
    (main (stdEnv 0o755 0o600)
        ((main (stdEnv 0o755 0o600) ⟨some (.dir 0o755 []), none⟩).1)).1
      ≠ (main (stdEnv 0o755 0o600) ⟨some (.dir 0o755 []), none⟩).1 ∧
    modeAt (dirListing ((main (stdEnv 0o755 0o600) ⟨some (.dir 0o755 []), none⟩).1))
      "user_commands.py" = 0o600 ∧
    modeAt (dirListing ((main (stdEnv 0o755 0o600)
        ((main (stdEnv 0o755 0o600) ⟨some (.dir 0o755 []), none⟩).1)).1))
      "user_commands.py" = 0o644 := by
  have h1 := runEmpty 0o755 0o600 0o755 none
  have h2 := runHealthy 0o755 0o600 0o600 none
  refine ⟨?_, ?_, ?_⟩
  · rw [h1]
    show (main (stdEnv 0o755 0o600)
        ⟨some (.dir 0o755 (emptyRunListing 0o600)), none⟩).1
      ≠ ⟨some (.dir 0o755 (emptyRunListing 0o600)), none⟩
    rw [h2]
    intro hq
    have hm := congrArg (fun st => modeAt (dirListing st) "user_commands.py") hq
    have hm2 : (420 : Nat) = 384 := hm
    exact absurd hm2 (by decide)
  · rw [h1]
    rfl
  · rw [h1]
    show modeAt (dirListing ((main (stdEnv 0o755 0o600)
        ⟨some (.dir 0o755 (emptyRunListing 0o600)), none⟩).1)) "user_commands.py" = 0o644
    rw [h2]
    rfl

/-- C1 (amended).  Under the default creation mode `0o644` (the modes the
run itself later enforces) and with no failing system call, the pipeline IS
idempotent in the strong sense: for every starting state whose cogs listing
has well-formed (duplicate-free) names, running `main` on the result of a
first run returns exactly the first run's result — same filesystem state and
same outcome flag — so the second run performs no renames, no content
mutation and no permission change.  (The counterexample shows this fails for
other creation modes: files created after the permission pass keep the
creation mode and are re-chmodded by the second run.) -/
theorem C1_amended_idempotent_at_default_creation_mode (dm : Nat) (s : FsState)
    (hwf : ∀ m cs, s.cogs = some (.dir m cs) → wfNames cs) :
    main (stdEnv dm 0o644) ((main (stdEnv dm 0o644) s).1)
      = main (stdEnv dm 0o644) s := by
  obtain ⟨cogs, bak⟩ := s
  cases cogs with
  | none =>
    obtain ⟨cs5, hrun, hinv⟩ := main_establishes dm dm [] ⟨none, bak⟩ bak rfl (by decide)
    rw [hrun]
    exact stable_main dm 0o644 0o755 cs5 bak hinv
  | some e =>
    cases e with
    | dir m2 cs =>
      obtain ⟨cs5, hrun, hinv⟩ := main_establishes dm m2 cs ⟨some (.dir m2 cs), bak⟩ bak
        rfl (hwf m2 cs rfl)
      rw [hrun]
      exact stable_main dm 0o644 0o755 cs5 bak hinv
    | file c q =>
      cases bak with
      | none =>
        obtain ⟨cs5, hrun, hinv⟩ := main_establishes dm dm [] ⟨some (.file c q), none⟩
          (some (.file c q)) rfl (by decide)
        rw [hrun]
        exact stable_main dm 0o644 0o755 cs5 (some (.file c q)) hinv
      | some e2 =>
        cases e2 with
        | file bc bq =>
          obtain ⟨cs5, hrun, hinv⟩ := main_establishes dm dm []
            ⟨some (.file c q), some (.file bc bq)⟩ (some (.file c q)) rfl (by decide)
          rw [hrun]
          exact stable_main dm 0o644 0o755 cs5 (some (.file c q)) hinv
        | dir bm bcs =>
          have hmain : main (stdEnv dm 0o644) ⟨some (.file c q), some (.dir bm bcs)⟩
              = (⟨some (.file c q), some (.dir bm bcs)⟩, false) := rfl
          rw [hmain]
          exact hmain

/-- C1 (witness): the amended idempotence applied to the absent-directory
start at creation mode `0o644`. -/
theorem C1_amended_witness :
    main (stdEnv 0o755 0o644) ((main (stdEnv 0o755 0o644) ⟨none, none⟩).1)
      = main (stdEnv 0o755 0o644) ⟨none, none⟩ :=
  C1_amended_idempotent_at_default_creation_mode 0o755 ⟨none, none⟩
    (fun m cs hq => Option.noConfusion hq)


/-! ### Collecting every file content in a tree (for the no-deletion claim) -/

/-- All regular-file contents anywhere in a listing, in traversal order. -/
def allContents : Children → List String
  | [] => []
  | (_, .file c _) :: rest => c :: allContents rest
  | (_, .dir _ dcs) :: rest => allContents dcs ++ allContents rest
termination_by cs => sizeOf cs
decreasing_by all_goals (simp_wf <;> omega)

/-- File contents at or under the cogs path of a state. -/
def cogsContents (s : FsState) : List String :=
  match s.cogs with
  | some (.file c _) => [c]
  | some (.dir _ cs) => allContents cs
  | none => []

/-- File contents at or under the `.bak` sibling of a state. -/
def bakContents (s : FsState) : List String :=
  match s.bak with
  | some (.file c _) => [c]
  | some (.dir _ cs) => allContents cs
  | none => []

/-- Every file content anywhere in a state. -/
def stateContents (s : FsState) : List String := cogsContents s ++ bakContents s

theorem allContents_append : ∀ cs ds : Children,
    allContents (cs ++ ds) = allContents cs ++ allContents ds := by
  intro cs ds
  induction cs using allContents.induct with
  | case1 => simp [allContents]
  | case2 n c m rest ih =>
    rw [List.cons_append, allContents, allContents, ih, List.cons_append]
  | case3 n dm dcs rest ih1 ih2 =>
    rw [List.cons_append, allContents, allContents, ih2, List.append_assoc]

theorem allContents_normalizeTree : ∀ cs : Children,
    allContents (normalizeTree cs) = allContents cs := by
  intro cs
  induction cs using normalizeTree.induct with
  | case1 => rw [normalizeTree]
  | case2 n c m rest ih =>
    rw [normalizeTree, allContents, allContents, ih]
  | case3 n dm dcs rest ih1 ih2 =>
    rw [normalizeTree, allContents, allContents, ih1, ih2]

theorem strStartsWith_self (c : String) : strStartsWith c c = true := by
  unfold strStartsWith
  rw [isPrefixL_iff]

theorem strStartsWith_append (c d : String) : strStartsWith (c ++ d) c = true := by
  unfold strStartsWith
  rw [String.data_append]
  exact isPrefixL_append_self _ _

theorem strStartsWith_trans (a b c : String) (h1 : strStartsWith b a = true)
    (h2 : strStartsWith c b = true) : strStartsWith c a = true := by
  unfold strStartsWith at h1 h2 ⊢
  rw [isPrefixL_iff] at h1 h2 ⊢
  exact h1.trans h2

theorem allContents_removeChild_sup (k : String) (c : String) (m : Nat) :
    ∀ cur : Children, lookup cur k = some (.file c m) →
    ∀ x, x ∈ allContents cur → x = c ∨ x ∈ allContents (removeChild cur k) := by
  intro cur
  induction cur using allContents.induct with
  | case1 =>
    intro hl x hx
    simp [allContents] at hx
  | case2 n c0 m0 rest ih =>
    intro hl x hx
    rw [allContents] at hx
    rw [removeChild_cons]
    by_cases hnk : n = k
    · rw [lookup_cons, if_pos hnk] at hl
      injection hl with hl2
      injection hl2 with hc hm
      rw [if_pos hnk]
      rcases List.mem_cons.mp hx with he | hm2
      · exact Or.inl (he.trans hc)
      · exact Or.inr hm2
    · rw [lookup_cons, if_neg hnk] at hl
      rw [if_neg hnk]
      rcases List.mem_cons.mp hx with he | hm2
      · right
        rw [allContents]
        exact he ▸ List.mem_cons_self _ _
      · rcases ih hl x hm2 with hc | hmem
        · exact Or.inl hc
        · right
          rw [allContents]
          exact List.mem_cons_of_mem _ hmem
  | case3 n dm dcs rest ih1 ih2 =>
    intro hl x hx
    rw [allContents] at hx
    rw [removeChild_cons]
    by_cases hnk : n = k
    · rw [lookup_cons, if_pos hnk] at hl
      cases hl
    · rw [lookup_cons, if_neg hnk] at hl
      rw [if_neg hnk]
      rcases List.mem_append.mp hx with hd | hm2
      · right
        rw [allContents]
        exact List.mem_append_left _ hd
      · rcases ih2 hl x hm2 with hc | hmem
        · exact Or.inl hc
        · right
          rw [allContents]
          exact List.mem_append_right _ hmem

theorem allContents_setChild_sup (k : String) (c : String) (m : Nat) (e2 : FsEntry) :
    ∀ cur : Children, lookup cur k = some (.file c m) →
    ∀ x, x ∈ allContents cur → x = c ∨ x ∈ allContents (setChild cur k e2) := by
  intro cur
  induction cur using allContents.induct with
  | case1 =>
    intro hl x hx
    simp [allContents] at hx
  | case2 n c0 m0 rest ih =>
    intro hl x hx
    rw [allContents] at hx
    rw [setChild_cons]
    by_cases hnk : n = k
    · rw [lookup_cons, if_pos hnk] at hl
      injection hl with hl2
      injection hl2 with hc hm
      rw [if_pos hnk]
      rcases List.mem_cons.mp hx with he | hm2
      · exact Or.inl (he.trans hc)
      · right
        cases e2 with
        | file c3 m3 =>
          rw [allContents]
          exact List.mem_cons_of_mem _ hm2
        | dir dm3 dcs3 =>
          rw [allContents]
          exact List.mem_append_right _ hm2
    · rw [lookup_cons, if_neg hnk] at hl
      rw [if_neg hnk]
      rcases List.mem_cons.mp hx with he | hm2
      · right
        rw [allContents]
        exact he ▸ List.mem_cons_self _ _
      · rcases ih hl x hm2 with hc | hmem
        · exact Or.inl hc
        · right
          rw [allContents]
          exact List.mem_cons_of_mem _ hmem
  | case3 n dm dcs rest ih1 ih2 =>
    intro hl x hx
    rw [allContents] at hx
    rw [setChild_cons]
    by_cases hnk : n = k
    · rw [lookup_cons, if_pos hnk] at hl
      cases hl
    · rw [lookup_cons, if_neg hnk] at hl
      rw [if_neg hnk]
      rcases List.mem_append.mp hx with hd | hm2
      · right
        rw [allContents]
        exact List.mem_append_left _ hd
      · rcases ih2 hl x hm2 with hc | hmem
        · exact Or.inl hc
        · right
          rw [allContents]
          exact List.mem_append_right _ hmem

theorem allContents_setChild_mem (k : String) (c2 : String) (m2 : Nat) :
    ∀ cur : Children, (lookup cur k).isSome = true →
    c2 ∈ allContents (setChild cur k (.file c2 m2)) := by
  intro cur
  induction cur with
  | nil => intro hl; simp [lookup] at hl
  | cons hd tl ih =>
    intro hl
    obtain ⟨n, e⟩ := hd
    rw [setChild_cons]
    by_cases hnk : n = k
    · rw [if_pos hnk, allContents]
      exact List.mem_cons_self _ _
    · rw [lookup_cons, if_neg hnk] at hl
      rw [if_neg hnk]
      cases e with
      | file c0 m0 =>
        rw [allContents]
        exact List.mem_cons_of_mem _ (ih hl)
      | dir dm dcs =>
        rw [allContents]
        exact List.mem_append_right _ (ih hl)

theorem setChild_absent (t : String) (e : FsEntry) :
    ∀ cs : Children, lookup cs t = none → setChild cs t e = cs ++ [(t, e)] := by
  intro cs
  induction cs with
  | nil => intro _; rfl
  | cons hd tl ih =>
    intro hl
    obtain ⟨n, e0⟩ := hd
    rw [lookup_cons] at hl
    by_cases hnt : n = t
    · rw [if_pos hnt] at hl
      cases hl
    · rw [if_neg hnt] at hl
      rw [setChild_cons, if_neg hnt, List.cons_append, ih hl]


/-! ### No rename target is an existing regular file -/

/-- No regular non-`__` non-`.py` file name `n` coexists with a regular file
at `n + ".py"` — the situation in which the classification loop's rename
would silently overwrite the target. -/
def noPair (cs : Children) : Prop :=
  ∀ n c m, lookup cs n = some (.file c m) →
    strStartsWith n "__" = false → strEndsWith n ".py" = false →
    ∀ c2 m2, lookup cs (n ++ ".py") ≠ some (.file c2 m2)

theorem pyStep_rename_form (env : Env) (cur : Children) (k : String)
    (hwf : wfNames cur) (hnp : noPair cur)
    (c0 : String) (m0 : Nat)
    (hf : lookup cur k = some (.file c0 m0))
    (hu : strStartsWith k "__" = false) (hpy : strEndsWith k ".py" = false)
    (hndir : ∀ dm dcs, lookup cur (k ++ ".py") ≠ some (.dir dm dcs)) :
    renameChild cur k (k ++ ".py") (.file c0 m0)
      = removeChild cur k ++ [(k ++ ".py", .file c0 m0)] := by
  have htnone : lookup cur (k ++ ".py") = none := by
    cases hq : lookup cur (k ++ ".py") with
    | none => rfl
    | some e =>
      cases e with
      | file c2 m2 => exact absurd hq (hnp k c0 m0 hf hu hpy c2 m2)
      | dir dm dcs => exact absurd hq (hndir dm dcs)
  have hkt : k ≠ k ++ ".py" := by
    intro heq
    have hq := strEndsWith_append_py k
    rw [← heq, hpy] at hq
    cases hq
  have hrt : lookup (removeChild cur k) (k ++ ".py") = none := by
    rw [lookup_removeChild_other cur k (k ++ ".py") (fun he => hkt he.symm)]
    exact htnone
  unfold renameChild
  exact setChild_absent (k ++ ".py") _ (removeChild cur k) hrt

theorem pyStep_contents (env : Env) (cur : Children) (k : String)
    (ho : ∀ q, env.openFails q = false) (hrd : ∀ q, env.readFails q = false)
    (hrn : ∀ q, env.renameFails q = false)
    (hwf : wfNames cur) (hnp : noPair cur) :
    ∀ x, x ∈ allContents cur → x ∈ allContents (pyStep env cur k).1 := by
  intro x hx
  rcases pyStep_cases_full env cur k with
    ⟨_, hid⟩ | ⟨dm, dcs, _, hid⟩ | ⟨c0, m0, _, _, hid⟩ |
    ⟨c0, m0, _, _, hid⟩ | hfail | ⟨c0, m0, _, _, _, _, hid⟩ |
    ⟨c0, m0, dm, dcs, _, _, hid⟩ | ⟨c0, m0, hf, hu, hpy, hndir, hid⟩
  · rw [hid]; exact hx
  · rw [hid]; exact hx
  · rw [hid]; exact hx
  · rw [hid]; exact hx
  · rcases hfail with hq | hq | hq
    · rw [ho k] at hq; cases hq
    · rw [hrd k] at hq; cases hq
    · rw [hrn k] at hq; cases hq
  · rw [hid]; exact hx
  · rw [hid]; exact hx
  · rw [hid]
    show x ∈ allContents (renameChild cur k (k ++ ".py") (.file c0 m0))
    rw [pyStep_rename_form env cur k hwf hnp c0 m0 hf hu hpy hndir,
      allContents_append]
    rcases allContents_removeChild_sup k c0 m0 cur hf x hx with he | hmem
    · apply List.mem_append_right
      rw [allContents, allContents]
      exact he ▸ List.mem_cons_self _ _
    · exact List.mem_append_left _ hmem

theorem pyStep_noPair (env : Env) (cur : Children) (k : String)
    (ho : ∀ q, env.openFails q = false) (hrd : ∀ q, env.readFails q = false)
    (hrn : ∀ q, env.renameFails q = false)
    (hwf : wfNames cur) (hnp : noPair cur) :
    noPair (pyStep env cur k).1 := by
  rcases pyStep_cases_full env cur k with
    ⟨_, hid⟩ | ⟨dm, dcs, _, hid⟩ | ⟨c0, m0, _, _, hid⟩ |
    ⟨c0, m0, _, _, hid⟩ | hfail | ⟨c0, m0, _, _, _, _, hid⟩ |
    ⟨c0, m0, dm, dcs, _, _, hid⟩ | ⟨c0, m0, hf, hu, hpy, hndir, hid⟩
  · rw [hid]; exact hnp
  · rw [hid]; exact hnp
  · rw [hid]; exact hnp
  · rw [hid]; exact hnp
  · rcases hfail with hq | hq | hq
    · rw [ho k] at hq; cases hq
    · rw [hrd k] at hq; cases hq
    · rw [hrn k] at hq; cases hq
  · rw [hid]; exact hnp
  · rw [hid]; exact hnp
  · rw [hid]
    show noPair (renameChild cur k (k ++ ".py") (.file c0 m0))
    rw [pyStep_rename_form env cur k hwf hnp c0 m0 hf hu hpy hndir]
    intro n c m hln hu2 hpy2 c2 m2 hcontra
    rw [lookup_append] at hln hcontra
    have hnt : n ≠ k ++ ".py" := by
      intro heq
      have hq := strEndsWith_append_py k
      rw [← heq, hpy2] at hq
      cases hq
    cases hq : lookup (removeChild cur k) n with
    | none =>
      rw [hq] at hln
      rw [lookup_cons] at hln
      by_cases htn : k ++ ".py" = n
      · exact hnt htn.symm
      · rw [if_neg htn] at hln
        simp [lookup] at hln
    | some e =>
      rw [hq] at hln
      cases hln
      have hnk : n ≠ k := by
        intro heq
        subst heq
        rw [lookup_removeChild_self cur n hwf] at hq
        cases hq
      have hlkn : lookup cur n = some (.file c m) := by
        rw [← lookup_removeChild_other cur k n hnk]
        exact hq
      cases hq2 : lookup (removeChild cur k) (n ++ ".py") with
      | some e2 =>
        rw [hq2] at hcontra
        cases hcontra
        have hpyk : n ++ ".py" ≠ k := by
          intro heq
          have hq3 := strEndsWith_append_py n
          rw [heq, hpy] at hq3
          cases hq3
        have hlkt : lookup cur (n ++ ".py") = some (.file c2 m2) := by
          rw [← lookup_removeChild_other cur k (n ++ ".py") hpyk]
          exact hq2
        exact hnp n c m hlkn hu2 hpy2 c2 m2 hlkt
      | none =>
        rw [hq2] at hcontra
        rw [lookup_cons] at hcontra
        by_cases htn : k ++ ".py" = n ++ ".py"
        · exact hnk (append_py_inj k n htn).symm
        · rw [if_neg htn] at hcontra
          simp [lookup] at hcontra

theorem pyLoop_contents (env : Env)
    (ho : ∀ q, env.openFails q = false) (hrd : ∀ q, env.readFails q = false)
    (hrn : ∀ q, env.renameFails q = false) :
    ∀ (ns : List String) (cur : Children), wfNames cur → noPair cur →
    ∀ x, x ∈ allContents cur → x ∈ allContents (pyLoop env ns cur).1 := by
  intro ns
  induction ns with
  | nil => intro cur _ _ x hx; exact hx
  | cons k ns ih =>
    intro cur hwf hnp x hx
    cases hstep : pyStep env cur k with
    | mk cur2 flag =>
      have hflag : flag = true := by
        have hq := pyStep_snd_true env cur k (ho k)
        rw [hstep] at hq
        exact hq
      subst hflag
      rw [pyLoop_cons_ok env k ns cur cur2 hstep]
      have hwf2 : wfNames cur2 := by
        have hq := pyStep_wf env cur k hwf
        rw [hstep] at hq
        exact hq
      have hnp2 : noPair cur2 := by
        have hq := pyStep_noPair env cur k ho hrd hrn hwf hnp
        rw [hstep] at hq
        exact hq
      refine ih cur2 hwf2 hnp2 x ?_
      have hq := pyStep_contents env cur k ho hrd hrn hwf hnp x hx
      rw [hstep] at hq
      exact hq

theorem cogStep_contents (env : Env) (cur : Children) (k : String) :
    ∀ x, x ∈ allContents cur →
    ∃ y, y ∈ allContents (cogStep env cur k) ∧ strStartsWith y x = true := by
  intro x hx
  rcases cogStep_cases env cur k with hid | ⟨c, m, nm, hl, hne, hid⟩
  · refine ⟨x, ?_, strStartsWith_self x⟩
    rw [hid]
    exact hx
  · rw [hid]
    rcases allContents_setChild_sup k c m (.file (c ++ setupText nm) m) cur hl x hx with
      he | hmem
    · subst he
      refine ⟨x ++ setupText nm, ?_, strStartsWith_append x (setupText nm)⟩
      apply allContents_setChild_mem
      rw [hl]
      rfl
    · exact ⟨x, hmem, strStartsWith_self x⟩

theorem cogLoop_contents (env : Env) :
    ∀ (ns : List String) (cur : Children),
    ∀ x, x ∈ allContents cur →
    ∃ y, y ∈ allContents (cogLoop env ns cur) ∧ strStartsWith y x = true := by
  intro ns
  induction ns with
  | nil => intro cur x hx; exact ⟨x, hx, strStartsWith_self x⟩
  | cons k ns ih =>
    intro cur x hx
    rw [cogLoop_cons]
    obtain ⟨y1, hy1, hs1⟩ := cogStep_contents env cur k x hx
    obtain ⟨y2, hy2, hs2⟩ := ih (cogStep env cur k) y1 hy1
    exact ⟨y2, hy2, strStartsWith_trans x y1 y2 hs1 hs2⟩


theorem provision_contents (cs : Children) (k c2 : String) (mm : Nat) :
    ∀ x, x ∈ allContents cs →
    x ∈ allContents (if (lookup cs k).isSome then cs else cs ++ [(k, .file c2 mm)]) := by
  intro x hx
  by_cases hp : (lookup cs k).isSome = true
  · rw [if_pos hp]
    exact hx
  · rw [if_neg hp]
    rw [allContents_append]
    exact List.mem_append_left _ hx

theorem sample_contents_sup (env : Env) (cs : Children) :
    ∀ x, x ∈ allContents cs → x ∈ allContents (createSampleCog env cs) := by
  intro x hx
  simp only [createSampleCog]
  by_cases hq : ((names cs).filter
      (fun f => strEndsWith f ".py" && !(strStartsWith f "__"))).isEmpty = true
  · rw [if_pos hq, allContents_append]
    exact List.mem_append_left _ hx
  · rw [if_neg hq]
    exact hx

theorem noPair_provision_init (cs0 : Children) (mm : Nat) (hnp : noPair cs0) :
    noPair (if (lookup cs0 "__init__.py").isSome then cs0
      else cs0 ++ [("__init__.py", .file initPyContent mm)]) := by
  by_cases hp : (lookup cs0 "__init__.py").isSome = true
  · rw [if_pos hp]
    exact hnp
  · rw [if_neg hp]
    intro n c m hln hu hpy c2 m2 hcontra
    rw [lookup_append] at hln hcontra
    cases hq : lookup cs0 n with
    | none =>
      rw [hq] at hln
      rw [lookup_cons] at hln
      by_cases htn : "__init__.py" = n
      · rw [← htn] at hpy
        exact absurd hpy (by decide)
      · rw [if_neg htn] at hln
        simp [lookup] at hln
    | some e =>
      rw [hq] at hln
      cases hln
      cases hq2 : lookup cs0 (n ++ ".py") with
      | some e2 =>
        rw [hq2] at hcontra
        cases hcontra
        exact hnp n c m hq hu hpy c2 m2 hq2
      | none =>
        rw [hq2] at hcontra
        rw [lookup_cons] at hcontra
        by_cases htn : "__init__.py" = n ++ ".py"
        · have hn : n = "__init__" := by
            apply append_py_inj
            rw [← htn]
            rfl
          rw [hn] at hu
          exact absurd hu (by decide)
        · rw [if_neg htn] at hcontra
          simp [lookup] at hcontra

/-- Every file content under the cogs directory at the start of a completed
run survives (possibly extended by an appended entry point) under the cogs
directory at the end, provided names are well-formed and no rename target is
occupied by a regular file; the `.bak` slot is returned unchanged. -/
theorem main_contents (dm fm m : Nat) (cs0 : Children) (s : FsState) (b : Option FsEntry)
    (h : ensureCogsDirectory (stdEnv dm fm) s = (⟨some (.dir m cs0), b⟩, true))
    (hwf : wfNames cs0) (hnp : noPair cs0) :
    (main (stdEnv dm fm) s).2 = true ∧
    (main (stdEnv dm fm) s).1.bak = b ∧
    ∀ x, x ∈ allContents cs0 →
    ∃ y, y ∈ cogsContents (main (stdEnv dm fm) s).1 ∧ strStartsWith y x = true := by
  have hch : ∀ q, (stdEnv dm fm).chmodFails q = false := fun _ => rfl
  have hls : ∀ q, (stdEnv dm fm).listFails q = false := fun _ => rfl
  have hO : ∀ q, (stdEnv dm fm).openFails q = false := fun _ => rfl
  have hRD : ∀ q, (stdEnv dm fm).readFails q = false := fun _ => rfl
  have hRN : ∀ q, (stdEnv dm fm).renameFails q = false := fun _ => rfl
  have hpyform : ensurePythonFiles (stdEnv dm fm) cs0
      = pyLoop (stdEnv dm fm)
          (names (if (lookup cs0 "__init__.py").isSome then cs0
            else cs0 ++ [("__init__.py", .file initPyContent fm)]))
          (if (lookup cs0 "__init__.py").isSome then cs0
            else cs0 ++ [("__init__.py", .file initPyContent fm)]) := rfl
  have hwf1 : wfNames (if (lookup cs0 "__init__.py").isSome then cs0
      else cs0 ++ [("__init__.py", .file initPyContent fm)]) :=
    provision_wf cs0 _ _ _ hwf
  have hnp1 : noPair (if (lookup cs0 "__init__.py").isSome then cs0
      else cs0 ++ [("__init__.py", .file initPyContent fm)]) :=
    noPair_provision_init cs0 fm hnp
  have hsnd : (ensurePythonFiles (stdEnv dm fm) cs0).2 = true := by
    rw [hpyform]
    exact pyLoop_snd_true _ hO _ _
  obtain ⟨cs2, hcs2⟩ : ∃ cs2, ensurePythonFiles (stdEnv dm fm) cs0 = (cs2, true) := by
    cases hq : ensurePythonFiles (stdEnv dm fm) cs0 with
    | mk a f =>
      rw [hq] at hsnd
      have hf : f = true := hsnd
      subst hf
      exact ⟨a, rfl⟩
  have hloop : pyLoop (stdEnv dm fm)
      (names (if (lookup cs0 "__init__.py").isSome then cs0
        else cs0 ++ [("__init__.py", .file initPyContent fm)]))
      (if (lookup cs0 "__init__.py").isSome then cs0
        else cs0 ++ [("__init__.py", .file initPyContent fm)]) = (cs2, true) :=
    hpyform.symm.trans hcs2
  have hcont2 : ∀ x, x ∈ allContents cs0 → x ∈ allContents cs2 := by
    intro x hx
    have hq := pyLoop_contents (stdEnv dm fm) hO hRD hRN
      (names (if (lookup cs0 "__init__.py").isSome then cs0
        else cs0 ++ [("__init__.py", .file initPyContent fm)]))
      (if (lookup cs0 "__init__.py").isSome then cs0
        else cs0 ++ [("__init__.py", .file initPyContent fm)]) hwf1 hnp1 x
      (provision_contents cs0 _ _ _ x hx)
    rw [hloop] at hq
    exact hq
  have hfix : fixPermissions (stdEnv dm fm) [] m cs2 = (0o755, normalizeTree cs2) := by
    unfold fixPermissions
    simp only [hch, hls, Bool.false_eq_true, if_false]
    rw [fixWalk_noFail _ hch hls]
  have hrun : main (stdEnv dm fm) s
      = (⟨some (.dir 0o755 (createSampleCog (stdEnv dm fm) (verifyCogFiles (stdEnv dm fm)
          (copyExistingCogs (stdEnv dm fm) (normalizeTree cs2))))), b⟩, true) := by
    unfold main
    simp only [h, Bool.not_true, Bool.false_eq_true, if_false, hcs2, hfix]
  refine ⟨by rw [hrun], by rw [hrun], ?_⟩
  intro x hx
  rw [hrun]
  show ∃ y, y ∈ allContents (createSampleCog (stdEnv dm fm) (verifyCogFiles (stdEnv dm fm)
    (copyExistingCogs (stdEnv dm fm) (normalizeTree cs2)))) ∧ strStartsWith y x = true
  have h3 : x ∈ allContents (normalizeTree cs2) := by
    rw [allContents_normalizeTree]
    exact hcont2 x hx
  have hcopyform : copyExistingCogs (stdEnv dm fm) (normalizeTree cs2)
      = (if (lookup (if (lookup (normalizeTree cs2) "user_commands.py").isSome
          then normalizeTree cs2
          else normalizeTree cs2 ++ [("user_commands.py", .file userCommandsContent fm)])
          "admin_commands.py").isSome
        then (if (lookup (normalizeTree cs2) "user_commands.py").isSome
          then normalizeTree cs2
          else normalizeTree cs2 ++ [("user_commands.py", .file userCommandsContent fm)])
        else (if (lookup (normalizeTree cs2) "user_commands.py").isSome
          then normalizeTree cs2
          else normalizeTree cs2 ++ [("user_commands.py", .file userCommandsContent fm)])
          ++ [("admin_commands.py", .file adminCommandsContent fm)]) := rfl
  have h4 : x ∈ allContents (copyExistingCogs (stdEnv dm fm) (normalizeTree cs2)) := by
    rw [hcopyform]
    exact provision_contents _ _ _ _ x (provision_contents _ _ _ _ x h3)
  have hverform : verifyCogFiles (stdEnv dm fm)
      (copyExistingCogs (stdEnv dm fm) (normalizeTree cs2))
      = cogLoop (stdEnv dm fm)
          (names (copyExistingCogs (stdEnv dm fm) (normalizeTree cs2)))
          (copyExistingCogs (stdEnv dm fm) (normalizeTree cs2)) := rfl
  obtain ⟨y, hy, hs⟩ := cogLoop_contents (stdEnv dm fm)
    (names (copyExistingCogs (stdEnv dm fm) (normalizeTree cs2)))
    (copyExistingCogs (stdEnv dm fm) (normalizeTree cs2)) x h4
  refine ⟨y, ?_, hs⟩
  apply sample_contents_sup
  rw [hverform]
  exact hy


/-! ### Claim C10: no file is ever deleted or truncated -/

/-- The fixture run for the C10 counterexample: `foo` holds Python-looking
text and `foo.py` holds `"hello"`; the classification loop renames `foo`
onto `foo.py` (POSIX rename silently replaces a regular file), destroying
the content `"hello"`. -/
theorem c10Run :
    main (stdEnv 0o755 0o644)
      ⟨some (.dir 0o755 [("foo", .file "import x\ndef y" 0o644),
        ("foo.py", .file "hello" 0o644)]), none⟩
      = (⟨some (.dir 0o755
          [("foo.py", .file "import x\ndef y" 0o644),
           ("__init__.py", .file initPyContent 0o644),
           ("user_commands.py", .file userCommandsContent 0o644),
           ("admin_commands.py", .file adminCommandsContent 0o644)]), none⟩, true) := by
  have h : ensureCogsDirectory (stdEnv 0o755 0o644)
      ⟨some (.dir 0o755 [("foo", .file "import x\ndef y" 0o644),
        ("foo.py", .file "hello" 0o644)]), none⟩
      = (⟨some (.dir 0o755 [("foo", .file "import x\ndef y" 0o644),
          ("foo.py", .file "hello" 0o644)]), none⟩, true) := rfl
  have hpy : ensurePythonFiles (stdEnv 0o755 0o644)
      [("foo", .file "import x\ndef y" 0o644), ("foo.py", .file "hello" 0o644)]
      = ([("foo.py", .file "import x\ndef y" 0o644),
          ("__init__.py", .file initPyContent 0o644)], true) := rfl
  have hfix : fixPermissions (stdEnv 0o755 0o644) [] 0o755
      [("foo.py", .file "import x\ndef y" 0o644),
       ("__init__.py", .file initPyContent 0o644)]
      = (0o755, [("foo.py", .file "import x\ndef y" 0o644),
          ("__init__.py", .file initPyContent 0o644)]) := by
    unfold fixPermissions
    simp [stdEnv, fixWalk]
  have hcopy : copyExistingCogs (stdEnv 0o755 0o644)
      [("foo.py", .file "import x\ndef y" 0o644),
       ("__init__.py", .file initPyContent 0o644)]
      = [("foo.py", .file "import x\ndef y" 0o644),
         ("__init__.py", .file initPyContent 0o644),
         ("user_commands.py", .file userCommandsContent 0o644),
         ("admin_commands.py", .file adminCommandsContent 0o644)] := rfl
  have lu : lookup [("foo.py", .file "import x\ndef y" 0o644),
      ("__init__.py", .file initPyContent 0o644),
      ("user_commands.py", .file userCommandsContent 0o644),
      ("admin_commands.py", .file adminCommandsContent 0o644)] "foo.py"
      = some (.file "import x\ndef y" 0o644) := rfl
  have lu2 : lookup [("foo.py", .file "import x\ndef y" 0o644),
      ("__init__.py", .file initPyContent 0o644),
      ("user_commands.py", .file userCommandsContent 0o644),
      ("admin_commands.py", .file adminCommandsContent 0o644)] "user_commands.py"
      = some (.file userCommandsContent 0o644) := rfl
  have lu3 : lookup [("foo.py", .file "import x\ndef y" 0o644),
      ("__init__.py", .file initPyContent 0o644),
      ("user_commands.py", .file userCommandsContent 0o644),
      ("admin_commands.py", .file adminCommandsContent 0o644)] "admin_commands.py"
      = some (.file adminCommandsContent 0o644) := rfl
  have hver : verifyCogFiles (stdEnv 0o755 0o644)
      [("foo.py", .file "import x\ndef y" 0o644),
       ("__init__.py", .file initPyContent 0o644),
       ("user_commands.py", .file userCommandsContent 0o644),
       ("admin_commands.py", .file adminCommandsContent 0o644)]
      = [("foo.py", .file "import x\ndef y" 0o644),
         ("__init__.py", .file initPyContent 0o644),
         ("user_commands.py", .file userCommandsContent 0o644),
         ("admin_commands.py", .file adminCommandsContent 0o644)] := by
    unfold verifyCogFiles
    show cogLoop _ ["foo.py", "__init__.py", "user_commands.py", "admin_commands.py"] _ = _
    rw [cogLoop_cons,
      cogStep_noCog _ _ _ "import x\ndef y" 0o644 (by decide) lu rfl (by decide) (by decide),
      cogLoop_cons, cogStep_skipname _ _ _ (by decide),
      cogLoop_cons,
      cogStep_hasSetup _ _ _ userCommandsContent 0o644 (by decide) lu2 rfl user_hasSetup,
      cogLoop_cons,
      cogStep_hasSetup _ _ _ adminCommandsContent 0o644 (by decide) lu3 rfl admin_hasSetup,
      cogLoop_nil]
  have hsample : createSampleCog (stdEnv 0o755 0o644)
      [("foo.py", .file "import x\ndef y" 0o644),
       ("__init__.py", .file initPyContent 0o644),
       ("user_commands.py", .file userCommandsContent 0o644),
       ("admin_commands.py", .file adminCommandsContent 0o644)]
      = [("foo.py", .file "import x\ndef y" 0o644),
         ("__init__.py", .file initPyContent 0o644),
         ("user_commands.py", .file userCommandsContent 0o644),
         ("admin_commands.py", .file adminCommandsContent 0o644)] := rfl
  unfold main
  simp only [h, Bool.not_true, Bool.false_eq_true, if_false, hpy, hfix, hcopy,
    hver, hsample]

/-- C10 (counterexample).  With `foo` holding Python-looking content next to
a regular file `foo.py` holding `"hello"`, the run completes but the rename
at line 86 replaces `foo.py`, and afterwards no file anywhere in the state
has the original content `"hello"` as a prefix: the pipeline deleted a
file's content. -/
theorem C10_counterexample :
    "hello" ∈ cogsContents ⟨some (.dir 0o755 [("foo", .file "import x\ndef y" 0o644),
        ("foo.py", .file "hello" 0o644)]), none⟩ ∧
    (main (stdEnv 0o755 0o644)
      ⟨some (.dir 0o755 [("foo", .file "import x\ndef y" 0o644),
        ("foo.py", .file "hello" 0o644)]), none⟩).2 = true ∧
    ∀ y, y ∈ stateContents (main (stdEnv 0o755 0o644)
        ⟨some (.dir 0o755 [("foo", .file "import x\ndef y" 0o644),
          ("foo.py", .file "hello" 0o644)]), none⟩).1 →
      strStartsWith y "hello" = false := by
  refine ⟨?_, by rw [c10Run], ?_⟩
  · show "hello" ∈ allContents [("foo", .file "import x\ndef y" 0o644),
      ("foo.py", .file "hello" 0o644)]
    rw [allContents, allContents, allContents]
    exact List.mem_cons_of_mem _ (List.mem_cons_self _ _)
  · intro y hy
    rw [c10Run] at hy
    have hy2 : y ∈ allContents [("foo.py", FsEntry.file "import x\ndef y" 0o644),
        ("__init__.py", FsEntry.file initPyContent 0o644),
        ("user_commands.py", FsEntry.file userCommandsContent 0o644),
        ("admin_commands.py", FsEntry.file adminCommandsContent 0o644)] ++ [] := hy
    rw [List.append_nil] at hy2
    rw [allContents, allContents, allContents, allContents, allContents] at hy2
    rcases List.mem_cons.mp hy2 with he | hy3
    · rw [he]; decide
    rcases List.mem_cons.mp hy3 with he | hy4
    · rw [he]; decide
    rcases List.mem_cons.mp hy4 with he | hy5
    · rw [he]; decide
    rcases List.mem_cons.mp hy5 with he | hy6
    · rw [he]; decide
    · simp at hy6

/-- C10 (amended).  Renames CAN delete content: the counterexample clobbers
a sibling.  Provided the starting cogs listing has well-formed names and no
rename-collision pair (no plain file `n` beside a regular file `n + ".py"`),
every regular file at or under the cogs path before the run leaves some file
after the run whose content extends the original (unchanged, or with the
synthesized entry point appended); a file displaced from the cogs path
itself survives at `<path>.bak`. -/
theorem C10_amended_no_file_lost (dm fm : Nat) (s : FsState)
    (hwf : ∀ m cs, s.cogs = some (.dir m cs) → wfNames cs ∧ noPair cs) :
    ∀ x, x ∈ cogsContents s →
    ∃ y, y ∈ stateContents (main (stdEnv dm fm) s).1 ∧ strStartsWith y x = true := by
  obtain ⟨cogs, bak⟩ := s
  cases cogs with
  | none =>
    intro x hx
    simp [cogsContents] at hx
  | some e =>
    cases e with
    | dir m2 cs =>
      intro x hx
      have hx2 : x ∈ allContents cs := hx
      obtain ⟨hwf2, hnp2⟩ := hwf m2 cs rfl
      obtain ⟨hflag, hbak, hmain⟩ := main_contents dm fm m2 cs
        ⟨some (.dir m2 cs), bak⟩ bak rfl hwf2 hnp2
      obtain ⟨y, hy, hs⟩ := hmain x hx2
      refine ⟨y, ?_, hs⟩
      show y ∈ cogsContents _ ++ bakContents _
      exact List.mem_append_left _ hy
    | file c q =>
      intro x hx
      have hnpnil : noPair ([] : Children) := by
        intro n c2 m2 hln hu hpy c3 m3 hcontra
        simp [lookup] at hln
      have hx2 : x = c := by
        have hx3 : x ∈ [c] := hx
        simpa using hx3
      rw [hx2]
      cases bak with
      | none =>
        obtain ⟨hflag, hbak, hmain⟩ := main_contents dm fm dm []
          ⟨some (.file c q), none⟩ (some (.file c q)) rfl (by decide) hnpnil
        refine ⟨c, ?_, strStartsWith_self c⟩
        show c ∈ cogsContents _ ++ bakContents _
        apply List.mem_append_right
        unfold bakContents
        rw [hbak]
        exact List.mem_cons_self _ _
      | some e2 =>
        cases e2 with
        | file bc bq =>
          obtain ⟨hflag, hbak, hmain⟩ := main_contents dm fm dm []
            ⟨some (.file c q), some (.file bc bq)⟩ (some (.file c q)) rfl (by decide) hnpnil
          refine ⟨c, ?_, strStartsWith_self c⟩
          show c ∈ cogsContents _ ++ bakContents _
          apply List.mem_append_right
          unfold bakContents
          rw [hbak]
          exact List.mem_cons_self _ _
        | dir bm bcs =>
          have hmain : main (stdEnv dm fm) ⟨some (.file c q), some (.dir bm bcs)⟩
              = (⟨some (.file c q), some (.dir bm bcs)⟩, false) := rfl
          refine ⟨c, ?_, strStartsWith_self c⟩
          rw [hmain]
          show c ∈ cogsContents _ ++ bakContents _
          apply List.mem_append_left
          exact List.mem_cons_self _ _

/-- C10 (witness): the amended no-deletion theorem at a one-file listing
with no rename collision. -/
theorem C10_amended_witness :
    ∃ y, y ∈ stateContents (main (stdEnv 0o755 0o644)
        ⟨some (.dir 0o755 [("a.txt", .file "hello" 0o600)]), none⟩).1 ∧
      strStartsWith y "hello" = true :=
  C10_amended_no_file_lost 0o755 0o644
    ⟨some (.dir 0o755 [("a.txt", .file "hello" 0o600)]), none⟩
    (fun m cs hq => by
      injection hq with hq2
      injection hq2 with hm hcs
      subst hm
      subst hcs
      refine ⟨by decide, ?_⟩
      intro n c m2 hln hu hpy c2 m2b hcontra
      rw [lookup_cons] at hln
      by_cases hq3 : "a.txt" = n
      · subst hq3
        have hz : lookup [("a.txt", FsEntry.file "hello" 0o600)] ("a.txt" ++ ".py")
            = none := rfl
        rw [hz] at hcontra
        cases hcontra
      · rw [if_neg hq3] at hln
        simp [lookup] at hln)
    "hello" (by
      show "hello" ∈ allContents [("a.txt", FsEntry.file "hello" 0o600)]
      rw [allContents, allContents]
      exact List.mem_cons_self _ _)

end FixPerms
